import Mathlib

/-! Reference enumeration of the Dalvik heap (`vm/alloc/Visit.c`).

A shallow embedding of `dvmVisitObject` and its helpers.  The heap maps
addresses to objects, a reference slot is named by the lvalue the C code takes
the address of (the address itself is `addressOf` of the lvalue, for a layout of
the structs that is a parameter), and the visitor is an arbitrary transformer of
the heap (and of its own private state), so that rewriting visitors can be
studied.  Every
routine threads the heap through the visitor calls exactly where the C code
calls `(*visitor)(ref)` and reads the heap again wherever the C code
dereferences a pointer again.  Loops take a number of rounds (`fuel`) and a
routine yields `none` when a loop runs out of rounds or a pointer that is
dereferenced does not point at an object of the expected kind.
-/

namespace Dalvik

/-! ## Data model -/

/-- A heap address; `0` is `NULL`. -/
abbrev Addr := Nat

/-- Modelled from the spec: the macros and runtime globals that Visit.c takes from
`Dalvik.h` (the class-flag masks, `CLASS_IDX`, `CLASS_WALK_SUPER`, the header size
`CLASS_SMALLEST_OFFSET`) and from `gDvm`; their defining headers are not part of the
source tree, so they are parameters of the development. -/
structure Env where
  /-- sentinel value of `refOffsets` that selects the superclass walk -/
  CLASS_WALK_SUPER : Nat
  /-- `sizeof(struct Object)`: the first byte offset a bitmap bit can stand for -/
  CLASS_SMALLEST_OFFSET : Nat
  /-- the class status up to which `super` and `interfaces` are not yet valid -/
  CLASS_IDX : Int
  CLASS_ISARRAY : Nat
  CLASS_ISOBJECTARRAY : Nat
  CLASS_ISREFERENCE : Nat
  /-- `gDvm.classJavaLangClass` -/
  classJavaLangClass : Addr
  /-- `gDvm.offJavaLangRefReference_referent` -/
  offJavaLangRefReference_referent : Nat

/-- Modelled from the spec: `CLASS_HIGH_BIT`, the most significant bit of the 32-bit
reference-offset word (the macro is defined in the absent `Object.h`). -/
def CLASS_HIGH_BIT : Nat := 2 ^ 31

/-- Modelled from the spec: `CLASS_OFFSET_FROM_CLZ`, one pointer-sized (4-byte) field per
bitmap position, counted from the end of the object header (absent `Object.h`). -/
def CLASS_OFFSET_FROM_CLZ (env : Env) (rshift : Nat) : Nat :=
  rshift * 4 + env.CLASS_SMALLEST_OFFSET

/-- Number of zero bits of `x` met when going down from bit `n - 1` to the first set bit. -/
def clzFrom : Nat → Nat → Nat
  | 0, _ => 0
  | n + 1, x => if x.testBit n then 0 else clzFrom n x + 1

/-- Modelled from the spec: `CLZ` of the absent `alloc/clz.h`, the number of leading zero
bits of a 32-bit word (the position of the most significant set bit, counted from the top). -/
def CLZ (x : Nat) : Nat := clzFrom 32 x

/-- `IS_CLASS_FLAG_SET(clazz, flag)`: `(clazz->accessFlags & flag) != 0`. -/
def IS_CLASS_FLAG_SET (accessFlags flag : Nat) : Bool := (accessFlags &&& flag) != 0

/-- The generic part of a field descriptor; only the signature is read here. -/
structure Field where
  signature : String
deriving DecidableEq

/-- An instance-field descriptor. -/
structure InstField where
  field : Field
  byteOffset : Nat
deriving DecidableEq

/-- A static-field descriptor together with its value cell (`value.l`). -/
structure StaticField where
  field : Field
  value : Addr
deriving DecidableEq

/-- The object header. -/
structure Object where
  clazz : Addr
deriving DecidableEq

/-- The members of `ClassObject` that Visit.c touches. -/
structure ClassObject where
  obj : Object
  accessFlags : Nat
  status : Int
  elementClass : Addr
  super : Addr
  classLoader : Addr
  refOffsets : Nat
  ifields : List InstField
  ifieldRefCount : Int
  sfields : List StaticField
  sfieldCount : Int
  interfaces : List Addr
  interfaceCount : Int
deriving DecidableEq

/-- The members of `ArrayObject` that Visit.c touches. -/
structure ArrayObject where
  obj : Object
  length : Nat
  contents : List Addr
deriving DecidableEq

/-- What lives at a heap address.  The words of ordinary instance fields are never read by
the enumeration and are not stored. -/
inductive HeapObject where
  | classObject (c : ClassObject)
  | arrayObject (a : ArrayObject)
  | dataObject (o : Object)
deriving DecidableEq

/-- The heap. -/
abbrev Heap := Addr → Option HeapObject

/-- A reference slot, named by the lvalue whose address the C code hands to the visitor.
The class pointer is the first member of every object, so `&obj->clazz` is
`BYTE_OFFSET(obj, 0)`.  Two different lvalues may stand for one address: which address an
lvalue stands for is given by `addressOf` for a layout of the structs. -/
inductive Slot where
  /-- `BYTE_OFFSET(obj, offset)` -/
  | byteOffset (obj : Addr) (offset : Nat)
  /-- `&obj->elementClass` -/
  | elementClass (obj : Addr)
  /-- `&obj->super` -/
  | super (obj : Addr)
  /-- `&obj->classLoader` -/
  | classLoader (obj : Addr)
  /-- `&clazz->sfields[i].value.l` -/
  | sfieldValue (clazz : Addr) (i : Nat)
  /-- `&clazz->interfaces[i]` -/
  | interfaces (clazz : Addr) (i : Nat)
  /-- `&contents[i]` of an array -/
  | contents (array : Addr) (i : Nat)
deriving DecidableEq

/-- Modelled from the spec: where the members that Visit.c names lie in memory.  The struct
definitions are in the absent `Object.h`, so the offsets of the named `ClassObject` members
and the addresses of the static value cells, of the interface entries and of the array
elements are parameters of the development. -/
structure Layout where
  /-- `offsetof(ClassObject, elementClass)` -/
  elementClass : Nat
  /-- `offsetof(ClassObject, super)` -/
  super : Nat
  /-- `offsetof(ClassObject, classLoader)` -/
  classLoader : Nat
  /-- the address of `clazz->sfields[i].value.l` -/
  sfieldValue : Addr → Nat → Nat
  /-- the address of `clazz->interfaces[i]` -/
  interfaces : Addr → Nat → Nat
  /-- the address of `contents[i]` of the array at `array` -/
  contents : Addr → Nat → Nat

/-- The address that is handed to the visitor for a slot: `BYTE_OFFSET(obj, offset)` is
`obj + offset`, a named member lies at its offset in the object or at the address the layout
gives for it. -/
def addressOf (L : Layout) : Slot → Nat
  | .byteOffset obj offset => obj + offset
  | .elementClass obj => obj + L.elementClass
  | .super obj => obj + L.super
  | .classLoader obj => obj + L.classLoader
  | .sfieldValue clazz i => L.sfieldValue clazz i
  | .interfaces clazz i => L.interfaces clazz i
  | .contents array i => L.contents array i

/-- A visitor: called with a slot, it may change the heap and its own state in any way. -/
abbrev Visitor (σ : Type) := Slot → Heap × σ → Heap × σ

/-- The state of an enumeration: heap, visitor state, and the slots handed out so far. -/
structure St (σ : Type) where
  heap : Heap
  vst : σ
  trace : List Slot

/-- `(*visitor)(ref)`. -/
def visit {σ : Type} (visitor : Visitor σ) (ref : Slot) (st : St σ) : St σ :=
  { heap := (visitor ref (st.heap, st.vst)).1
    vst := (visitor ref (st.heap, st.vst)).2
    trace := st.trace ++ [ref] }

/-- `obj->clazz`. -/
def clazzOf (h : Heap) (obj : Addr) : Option Addr :=
  match h obj with
  | some (.classObject c) => some c.obj.clazz
  | some (.arrayObject a) => some a.obj.clazz
  | some (.dataObject o) => some o.clazz
  | none => none

/-- Dereference of a `ClassObject *`. -/
def getClass (h : Heap) (clazz : Addr) : Option ClassObject :=
  match h clazz with
  | some (.classObject c) => some c
  | _ => none

/-- Dereference of an `ArrayObject *`. -/
def getArray (h : Heap) (obj : Addr) : Option ArrayObject :=
  match h obj with
  | some (.arrayObject a) => some a
  | _ => none

/-! ## The routines of Visit.c -/

/-- The `while (refOffsets != 0)` loop of `visitInstanceFields`; `~` is taken on 32 bits. -/
def bitmapLoop {σ : Type} (env : Env) (visitor : Visitor σ) (obj : Addr) :
    Nat → Nat → St σ → Option (St σ)
  | 0, refOffsets, st => if refOffsets != 0 then none else some st
  | fuel + 1, refOffsets, st =>
    if refOffsets != 0 then
      let rshift := CLZ refOffsets
      let offset := CLASS_OFFSET_FROM_CLZ env rshift
      let ref := Slot.byteOffset obj offset
      bitmapLoop env visitor obj fuel
        (refOffsets &&& (0xFFFFFFFF ^^^ (CLASS_HIGH_BIT >>> rshift))) (visit visitor ref st)
    else some st

/-- The inner `for (i = 0; i < clazz->ifieldRefCount; ++i, ++field)` loop; `field` is the
rest of the descriptor array from the current position on. -/
def ifieldLoop {σ : Type} (visitor : Visitor σ) (obj clazz : Addr) :
    Nat → Nat → List InstField → St σ → Option (St σ)
  | 0, _, _, _ => none
  | fuel + 1, i, field, st => do
    let c ← getClass st.heap clazz
    if (i : Int) < c.ifieldRefCount then
      match field with
      | [] => none
      | f :: rest =>
        let offset := f.byteOffset
        let ref := Slot.byteOffset obj offset
        ifieldLoop visitor obj clazz fuel (i + 1) rest (visit visitor ref st)
    else some st

/-- The outer `for (clazz = obj->clazz; clazz != NULL; clazz = clazz->super)` loop. -/
def superLoop {σ : Type} (n : Nat) (visitor : Visitor σ) (obj : Addr) :
    Nat → Addr → St σ → Option (St σ)
  | 0, _, _ => none
  | fuel + 1, clazz, st =>
    if clazz != 0 then do
      let c ← getClass st.heap clazz
      let st1 ← ifieldLoop visitor obj clazz n 0 c.ifields st
      let c1 ← getClass st1.heap clazz
      superLoop n visitor obj fuel c1.super st1
    else some st

/-- Visits the instance fields of a class or data object. -/
def visitInstanceFields {σ : Type} (env : Env) (fuel : Nat) (visitor : Visitor σ) (obj : Addr)
    (st : St σ) : Option (St σ) := do
  let clazz ← clazzOf st.heap obj
  let c ← getClass st.heap clazz
  if c.refOffsets != env.CLASS_WALK_SUPER then
    let refOffsets := c.refOffsets
    bitmapLoop env visitor obj fuel refOffsets st
  else
    superLoop fuel visitor obj fuel clazz st

/-- The loop of `visitStaticFields`. -/
def sfieldLoop {σ : Type} (visitor : Visitor σ) (clazz : Addr) :
    Nat → Nat → St σ → Option (St σ)
  | 0, _, _ => none
  | fuel + 1, i, st => do
    let c ← getClass st.heap clazz
    if (i : Int) < c.sfieldCount then
      let sf ← c.sfields[i]?
      let ch := sf.field.signature.data.headD (Char.ofNat 0)
      if ch == '[' || ch == 'L' then
        sfieldLoop visitor clazz fuel (i + 1) (visit visitor (Slot.sfieldValue clazz i) st)
      else
        sfieldLoop visitor clazz fuel (i + 1) st
    else some st

/-- Visits the static fields of a class object. -/
def visitStaticFields {σ : Type} (fuel : Nat) (visitor : Visitor σ) (clazz : Addr)
    (st : St σ) : Option (St σ) :=
  sfieldLoop visitor clazz fuel 0 st

/-- The loop of `visitInterfaces`. -/
def interfaceLoop {σ : Type} (visitor : Visitor σ) (clazz : Addr) :
    Nat → Nat → St σ → Option (St σ)
  | 0, _, _ => none
  | fuel + 1, i, st => do
    let c ← getClass st.heap clazz
    if (i : Int) < c.interfaceCount then
      interfaceLoop visitor clazz fuel (i + 1) (visit visitor (Slot.interfaces clazz i) st)
    else some st

/-- Visit the interfaces of a class object. -/
def visitInterfaces {σ : Type} (fuel : Nat) (visitor : Visitor σ) (clazz : Addr)
    (st : St σ) : Option (St σ) :=
  interfaceLoop visitor clazz fuel 0 st

/-- Visits all the references stored in a class object instance. -/
def visitClassObject {σ : Type} (env : Env) (fuel : Nat) (visitor : Visitor σ) (obj : Addr)
    (st : St σ) : Option (St σ) := do
  let st1 := visit visitor (Slot.byteOffset obj 0) st
  let c1 ← getClass st1.heap obj
  let st2 :=
    if IS_CLASS_FLAG_SET c1.accessFlags env.CLASS_ISARRAY then
      visit visitor (Slot.elementClass obj) st1
    else st1
  let c2 ← getClass st2.heap obj
  let st3 :=
    if c2.status > env.CLASS_IDX then visit visitor (Slot.super obj) st2 else st2
  let st4 := visit visitor (Slot.classLoader obj) st3
  let st5 ← visitInstanceFields env fuel visitor obj st4
  let st6 ← visitStaticFields fuel visitor obj st5
  let c6 ← getClass st6.heap obj
  if c6.status > env.CLASS_IDX then
    visitInterfaces fuel visitor obj st6
  else some st6

/-- The element loop of `visitArrayObject`. -/
def contentsLoop {σ : Type} (visitor : Visitor σ) (obj : Addr) :
    Nat → Nat → St σ → Option (St σ)
  | 0, _, _ => none
  | fuel + 1, i, st => do
    let array ← getArray st.heap obj
    if i < array.length then
      contentsLoop visitor obj fuel (i + 1) (visit visitor (Slot.contents obj i) st)
    else some st

/-- Visits the class object and, if the array is typed as an object array, all of the array
elements. -/
def visitArrayObject {σ : Type} (env : Env) (fuel : Nat) (visitor : Visitor σ) (obj : Addr)
    (st : St σ) : Option (St σ) := do
  let st1 := visit visitor (Slot.byteOffset obj 0) st
  let clazz ← clazzOf st1.heap obj
  let c ← getClass st1.heap clazz
  if IS_CLASS_FLAG_SET c.accessFlags env.CLASS_ISOBJECTARRAY then
    contentsLoop visitor obj fuel 0 st1
  else some st1

/-- Visits the class object and reference typed instance fields of a data object. -/
def visitDataObject {σ : Type} (env : Env) (fuel : Nat) (visitor : Visitor σ) (obj : Addr)
    (st : St σ) : Option (St σ) := do
  let st1 := visit visitor (Slot.byteOffset obj 0) st
  let st2 ← visitInstanceFields env fuel visitor obj st1
  let clazz ← clazzOf st2.heap obj
  let c ← getClass st2.heap clazz
  if IS_CLASS_FLAG_SET c.accessFlags env.CLASS_ISREFERENCE then
    let offset := env.offJavaLangRefReference_referent
    let ref := Slot.byteOffset obj offset
    some (visit visitor ref st2)
  else some st2

/-- Visits all of the reference stored in an object. -/
def dvmVisitObject {σ : Type} (env : Env) (fuel : Nat) (visitor : Visitor σ) (obj : Addr)
    (st : St σ) : Option (St σ) := do
  let clazz ← clazzOf st.heap obj
  if clazz == env.classJavaLangClass then
    visitClassObject env fuel visitor obj st
  else
    let c ← getClass st.heap clazz
    if IS_CLASS_FLAG_SET c.accessFlags env.CLASS_ISARRAY then
      visitArrayObject env fuel visitor obj st
    else
      visitDataObject env fuel visitor obj st

/-- The slots handed to the visitor by a routine started on heap `h`, if it returns. -/
def slotsOf {σ : Type} (run : St σ → Option (St σ)) (h : Heap) (x : σ) : Option (List Slot) :=
  (run { heap := h, vst := x, trace := [] }).map St.trace

/-- The visitor that writes nothing. -/
def noWrite {σ : Type} : Visitor σ := fun _ w => w

/-! ## Vocabulary for stating what is handed out -/

/-- The state after the visitor has been called on each slot of `refs` in turn. -/
def visitAll {σ : Type} (visitor : Visitor σ) (refs : List Slot) (st : St σ) : St σ :=
  refs.foldl (fun s ref => visit visitor ref s) st

/-- The state with `refs` appended to the record of visited slots, heap untouched: what
visiting `refs` with a visitor that writes nothing leaves behind. -/
def emit {σ : Type} (refs : List Slot) (st : St σ) : St σ :=
  { st with trace := st.trace ++ refs }

/-- The state with `refs` put in front of the record of visited slots: the same run, started
after `refs` had already been handed out. -/
def prepend {σ : Type} (refs : List Slot) (st : St σ) : St σ :=
  { st with trace := refs ++ st.trace }

/-- The slot that bit number `b` (counted from the least significant bit) of the
reference-offset word stands for. -/
def bitSlot (env : Env) (obj : Addr) (b : Nat) : Slot :=
  Slot.byteOffset obj (CLASS_OFFSET_FROM_CLZ env (31 - b))

/-- The set bits of `x` among bits `0 .. n - 1`, highest first. -/
def bitsBelow (n x : Nat) : List Nat := (List.range n).reverse.filter (fun b => x.testBit b)

/-- The byte offsets encoded by a 32-bit reference-offset word: `CLASS_SMALLEST_OFFSET + 4 * k`
for every `k` whose bit, `k` places below the most significant one, is set; lowest first. -/
def bitmapOffsets (env : Env) (refOffsets : Nat) : List Nat :=
  ((List.range 32).filter (fun k => refOffsets.testBit (31 - k))).map
    (fun k => env.CLASS_SMALLEST_OFFSET + 4 * k)

/-- Population count of a 32-bit word. -/
def popCount32 (x : Nat) : Nat := (List.range 32).countP (fun i => x.testBit i)

/-- The update `refOffsets &= ~(CLASS_HIGH_BIT >> rshift)` with `rshift = CLZ(refOffsets)` at
the end of the body of the bitmap loop, on a 32-bit word. -/
def bitmapStep (refOffsets : Nat) : Nat :=
  refOffsets &&& (0xFFFFFFFF ^^^ (CLASS_HIGH_BIT >>> CLZ refOffsets))

/-- Modelled from the spec: the bit that encodes the field at `byteOffset` in the
reference-offset word, `CLASS_HIGH_BIT >> k` for the field at `CLASS_SMALLEST_OFFSET + 4 * k`
(the macro `CLASS_BIT_FROM_OFFSET` lives in the absent `Object.h`). -/
def CLASS_BIT_FROM_OFFSET (env : Env) (byteOffset : Nat) : Nat :=
  CLASS_HIGH_BIT >>> ((byteOffset - env.CLASS_SMALLEST_OFFSET) / 4)

/-- The classes `cs` are the superclass chain that starts at address `clazz` in heap `h`:
`clazz` holds the first, its `super` the second, and so on until `super` is `NULL`. -/
def IsChain (h : Heap) : Addr → List ClassObject → Prop
  | clazz, [] => clazz = 0
  | clazz, c :: rest => clazz ≠ 0 ∧ getClass h clazz = some c ∧ IsChain h c.super rest

instance decIsChain (h : Heap) : (a : Addr) → (cs : List ClassObject) → Decidable (IsChain h a cs)
  | a, [] => inferInstanceAs (Decidable (a = 0))
  | a, c :: rest =>
    have := decIsChain h c.super rest
    inferInstanceAs (Decidable (a ≠ 0 ∧ getClass h a = some c ∧ IsChain h c.super rest))

/-- The addresses of the classes of a chain that starts at `clazz`. -/
def chainAddrs : Addr → List ClassObject → List Addr
  | _, [] => []
  | clazz, c :: rest => clazz :: chainAddrs c.super rest

/-- The reference-typed instance fields of a class: the first `ifieldRefCount` descriptors. -/
def refFields (c : ClassObject) : List InstField := c.ifields.take c.ifieldRefCount.toNat

/-- The byte offsets of the reference fields of the classes of a chain, class by class from
the most derived one, each class in declaration order. -/
def chainOffsets (cs : List ClassObject) : List Nat :=
  cs.flatMap (fun c => (refFields c).map InstField.byteOffset)

/-- The offsets of every instance-field descriptor of every class of a chain, reference
typed or not: what the walk would visit if it ran over the whole descriptor list. -/
def allFieldOffsets (cs : List ClassObject) : List Nat :=
  cs.flatMap (fun c => c.ifields.map InstField.byteOffset)

/-- The bitwise OR of the bits of all reference fields of a class chain. -/
def bitmapOfChain (env : Env) (cs : List ClassObject) : Nat :=
  (chainOffsets cs).foldr (fun off acc => CLASS_BIT_FROM_OFFSET env off ||| acc) 0

/-- The test of `visitStaticFields`: the signature begins with `[` or `L`. -/
def isRefSignature (f : Field) : Bool :=
  f.signature.data.head? == some '[' || f.signature.data.head? == some 'L'

/-- The value slots of the reference-typed static fields among the first `sfieldCount`
descriptors of class `c` at address `clazz`, in declaration order. -/
def staticSlots (clazz : Addr) (c : ClassObject) : List Slot :=
  ((List.range c.sfieldCount.toNat).filter
    (fun i => (c.sfields[i]?).any (fun sf => isRefSignature sf.field))).map
    (Slot.sfieldValue clazz)

/-- The first `interfaceCount` entries of the interface table of the class at `clazz`. -/
def interfaceSlots (clazz : Addr) (c : ClassObject) : List Slot :=
  (List.range c.interfaceCount.toNat).map (Slot.interfaces clazz)

/-- The element slots `0 .. length - 1` of the array at `obj`. -/
def contentSlots (obj : Addr) (a : ArrayObject) : List Slot :=
  (List.range a.length).map (Slot.contents obj)

/-- Layout facts that make the instance-field enumeration of the class at `clazz` defined
with `fuel` rounds, together with the offsets it yields: in bitmap mode a 32-bit word, in
fallback mode a finite superclass chain whose reference counts stay within the descriptor
arrays. -/
inductive InstLayout (env : Env) (fuel : Nat) (h : Heap) (clazz : Addr) : List Nat → Prop where
  | bitmap (c : ClassObject) (hcls : getClass h clazz = some c)
      (hne : c.refOffsets ≠ env.CLASS_WALK_SUPER) (h32 : c.refOffsets < 2 ^ 32)
      (hfuel : 32 ≤ fuel) : InstLayout env fuel h clazz (bitmapOffsets env c.refOffsets)
  | walk (c : ClassObject) (cs : List ClassObject) (hcls : getClass h clazz = some c)
      (hws : c.refOffsets = env.CLASS_WALK_SUPER) (hch : IsChain h clazz cs)
      (hwf : ∀ d ∈ cs, d.ifieldRefCount ≤ d.ifields.length ∧ d.ifieldRefCount.toNat < fuel)
      (hfuel : cs.length < fuel) : InstLayout env fuel h clazz (chainOffsets cs)

/-- The slots `visitDataObject` hands out for an object at `obj` of class `c` whose
instance-field enumeration yields `offs`. -/
def dataSlots (env : Env) (obj : Addr) (c : ClassObject) (offs : List Nat) : List Slot :=
  [Slot.byteOffset obj 0] ++ offs.map (Slot.byteOffset obj) ++
    (if IS_CLASS_FLAG_SET c.accessFlags env.CLASS_ISREFERENCE then
      [Slot.byteOffset obj env.offJavaLangRefReference_referent] else [])

/-- The slots `visitArrayObject` hands out for the array `a` at `obj` of class `c`. -/
def arraySlots (env : Env) (obj : Addr) (c : ClassObject) (a : ArrayObject) : List Slot :=
  [Slot.byteOffset obj 0] ++
    (if IS_CLASS_FLAG_SET c.accessFlags env.CLASS_ISOBJECTARRAY then contentSlots obj a else [])

/-- The slots `visitClassObject` hands out for the class object `k` at `obj` whose
instance-field enumeration (through its own class) yields `offs`. -/
def classSlots (env : Env) (obj : Addr) (k : ClassObject) (offs : List Nat) : List Slot :=
  [Slot.byteOffset obj 0] ++
    (if IS_CLASS_FLAG_SET k.accessFlags env.CLASS_ISARRAY then [Slot.elementClass obj] else []) ++
    (if k.status > env.CLASS_IDX then [Slot.super obj] else []) ++
    [Slot.classLoader obj] ++ offs.map (Slot.byteOffset obj) ++ staticSlots obj k ++
    (if k.status > env.CLASS_IDX then interfaceSlots obj k else [])

/-- The lvalues of the Class object `k` at `obj` that `visitClassObject` hands out when the
instance-field enumeration yields `offs`: the class pointer, the byte offsets `offs`,
`elementClass` if `k` is an array class, `super` if the status is above `CLASS_IDX`,
`classLoader`, the value cells of the reference-typed ones among the first `sfieldCount`
static fields and, if the status is above `CLASS_IDX`, the first `interfaceCount` interface
entries. -/
def classLvalues (env : Env) (obj : Addr) (k : ClassObject) (offs : List Nat) : Slot → Prop
  | .byteOffset o off => o = obj ∧ (off = 0 ∨ off ∈ offs)
  | .elementClass o => o = obj ∧ IS_CLASS_FLAG_SET k.accessFlags env.CLASS_ISARRAY = true
  | .super o => o = obj ∧ k.status > env.CLASS_IDX
  | .classLoader o => o = obj
  | .sfieldValue o i =>
    o = obj ∧ (i : Int) < k.sfieldCount ∧
      (k.sfields[i]?).any (fun sf => isRefSignature sf.field) = true
  | .interfaces o i => o = obj ∧ k.status > env.CLASS_IDX ∧ (i : Int) < k.interfaceCount
  | .contents _ _ => False

/-- The lvalues of the array of `n` elements at `obj`, of class `c`, that `visitArrayObject`
hands out: the class pointer and, for an array of objects, the elements. -/
def arrayLvalues (env : Env) (obj : Addr) (c : ClassObject) (n : Nat) : Slot → Prop
  | .byteOffset o off => o = obj ∧ off = 0
  | .contents o i =>
    o = obj ∧ IS_CLASS_FLAG_SET c.accessFlags env.CLASS_ISOBJECTARRAY = true ∧ i < n
  | _ => False

/-- The layout puts different lvalues among `P` at different addresses. -/
def Apart (L : Layout) (P : Slot → Prop) : Prop :=
  ∀ s1 s2, P s1 → P s2 → addressOf L s1 = addressOf L s2 → s1 = s2

/-! ## Visitors that write, and what they must leave alone -/

/-- The heap with the object at `a` replaced by `f` of it. -/
def modifyAt (h : Heap) (a : Addr) (f : HeapObject → HeapObject) : Heap :=
  fun b => if b = a then (h b).map f else h b

/-- The heap with the object at `a` replaced by `o`. -/
def setObject (h : Heap) (a : Addr) (o : HeapObject) : Heap :=
  fun b => if b = a then some o else h b

/-- Store into the class pointer of an object. -/
def setClazz (val : Addr) : HeapObject → HeapObject
  | .classObject c => .classObject { c with obj := { clazz := val } }
  | .arrayObject a => .arrayObject { a with obj := { clazz := val } }
  | .dataObject _ => .dataObject { clazz := val }

/-- Apply `f` to a class object, leave other objects alone. -/
def onClass (f : ClassObject → ClassObject) : HeapObject → HeapObject
  | .classObject c => .classObject (f c)
  | o => o

/-- Apply `f` to an array object, leave other objects alone. -/
def onArray (f : ArrayObject → ArrayObject) : HeapObject → HeapObject
  | .arrayObject a => .arrayObject (f a)
  | o => o

/-- The store `*ref = val` a visitor may perform on the slot it is handed, where the members
kept in the heap determine its effect: a store into the class pointer, into a named member,
or through a non-zero byte offset into a plain object, whose instance words the heap does
not hold.  A store through a non-zero byte offset into a Class object or an array may fall on
any member of that object, depending on the struct layout; its effect is not determined
here and the result is `none`. -/
def writeSlot (h : Heap) (ref : Slot) (val : Addr) : Option Heap :=
  match ref with
  | .byteOffset obj 0 => some (modifyAt h obj (setClazz val))
  | .byteOffset obj (_ + 1) =>
    match h obj with
    | some (.dataObject _) => some h
    | _ => none
  | .elementClass obj => some (modifyAt h obj (onClass fun c => { c with elementClass := val }))
  | .super obj => some (modifyAt h obj (onClass fun c => { c with super := val }))
  | .classLoader obj => some (modifyAt h obj (onClass fun c => { c with classLoader := val }))
  | .sfieldValue clazz i =>
    some (modifyAt h clazz (onClass fun c =>
      { c with sfields := c.sfields.modify (fun sf => { sf with value := val }) i }))
  | .interfaces clazz i =>
    some (modifyAt h clazz (onClass fun c => { c with interfaces := c.interfaces.set i val }))
  | .contents array i =>
    some (modifyAt h array (onArray fun a => { a with contents := a.contents.set i val }))

/-- The visitor that stores `new ref` into the slot `ref` it is handed whenever that is
`some` and `writeSlot` determines the store, and does nothing else. -/
def overwrite {σ : Type} (new : Slot → Option Addr) : Visitor σ :=
  fun ref w =>
    match new ref with
    | some val =>
      match writeSlot w.1 ref val with
      | some h => (h, w.2)
      | none => w
    | none => w

/-- What `visitInstanceFields` reads of a class. -/
def instPart (c : ClassObject) : Nat × List InstField × Int × Addr :=
  (c.refOffsets, c.ifields, c.ifieldRefCount, c.super)

/-- Two heaps agree on everything `visitInstanceFields` can read: the class pointer of every
object and the reference-offset word, instance-field descriptors and superclass pointer of
every class. -/
def InstEq (h1 h2 : Heap) : Prop :=
  ∀ a, clazzOf h1 a = clazzOf h2 a ∧ (getClass h1 a).map instPart = (getClass h2 a).map instPart

/-- What the routines of Visit.c read of a class: everything but the element class, the
class loader, the values of the static fields and the entries of the interface table. -/
def ctlPart (c : ClassObject) :
    Nat × Int × Nat × List InstField × Int × Addr × Int × List Field × Int :=
  (c.accessFlags, c.status, c.refOffsets, c.ifields, c.ifieldRefCount, c.super,
    c.sfieldCount, c.sfields.map StaticField.field, c.interfaceCount)

/-- Two heaps agree on everything the enumeration can read: the class pointer of every
object, `ctlPart` of every class and the length of every array.  They may differ in what
the other slots hold. -/
def CtlEq (h1 h2 : Heap) : Prop :=
  ∀ a, clazzOf h1 a = clazzOf h2 a ∧ (getClass h1 a).map ctlPart = (getClass h2 a).map ctlPart ∧
    (getArray h1 a).map ArrayObject.length = (getArray h2 a).map ArrayObject.length

/-- A visitor whose writes never change what the enumeration reads. -/
def Preserves {σ : Type} (v : Visitor σ) : Prop := ∀ s w, CtlEq w.1 (v s w).1

/-- Two enumeration states have handed out the same slots and their heaps are related. -/
def StRel {σ τ : Type} (R : Heap → Heap → Prop) (a : St σ) (b : St τ) : Prop :=
  R a.heap b.heap ∧ a.trace = b.trace

/-- Two runs either both fail to return or return related states. -/
def OptRel {σ τ : Type} (R : Heap → Heap → Prop) : Option (St σ) → Option (St τ) → Prop
  | some a, some b => StRel R a b
  | none, none => True
  | _, _ => False

/-- Two visitors take related heaps to related heaps. -/
def Joint {σ τ : Type} (R : Heap → Heap → Prop) (v1 : Visitor σ) (v2 : Visitor τ) : Prop :=
  ∀ s w1 w2, R w1.1 w2.1 → R (v1 s w1).1 (v2 s w2).1

/-- What the routines of Visit.c read of a class that they reach through the class pointer
of an object or through a superclass pointer, apart from its own superclass pointer: the
access flags, the reference-offset word and the instance-field descriptors. -/
def ptrPart (c : ClassObject) : Nat × Nat × List InstField × Int :=
  (c.accessFlags, c.refOffsets, c.ifields, c.ifieldRefCount)

/-- What `visitClassObject` reads of the Class object it enumerates: the access flags, the
status, the static-field descriptors and the counts. -/
def ownPart (c : ClassObject) : Nat × Int × Int × List Field × Int :=
  (c.accessFlags, c.status, c.sfieldCount, c.sfields.map StaticField.field, c.interfaceCount)

/-- One round of comparing the class pointer `a` in heap `h1` with the class pointer `b` in
heap `h2`: both are `NULL` or neither is, and either neither points at a class or both do, at
classes with the same `ptrPart` whose superclass pointers are related by `S`. -/
def ClassStep (h1 h2 : Heap) (S : Addr → Addr → Prop) (a b : Addr) : Prop :=
  (a = 0 ↔ b = 0) ∧
    ((getClass h1 a = none ∧ getClass h2 b = none) ∨
      ∃ c d, getClass h1 a = some c ∧ getClass h2 b = some d ∧ ptrPart c = ptrPart d ∧
        S c.super d.super)

/-- The class pointer `a` in heap `h1` and the class pointer `b` in heap `h2` lead to classes
that are alike all the way up their superclass chains: same flags, reference-offset word and
instance-field descriptors at every level.  The addresses may differ, as they do when a
class has been moved and the pointer forwarded. -/
def ClassLike (h1 h2 : Heap) (a b : Addr) : Prop :=
  ∃ S : Addr → Addr → Prop, S a b ∧ ∀ x y, S x y → ClassStep h1 h2 S x y

/-- Two heaps are alike for the enumeration: at every address, what is a class in one is a
class alike in the other, with the same `ownPart`; the class pointers of the objects lead to
classes alike; and arrays have the same length.  Class pointers and superclass pointers may
differ, and so may what every other slot holds. -/
def Alike (h1 h2 : Heap) : Prop :=
  ∀ a, ClassLike h1 h2 a a ∧
    (getClass h1 a).map ownPart = (getClass h2 a).map ownPart ∧
    ((clazzOf h1 a = none ∧ clazzOf h2 a = none) ∨
      ∃ x y, clazzOf h1 a = some x ∧ clazzOf h2 a = some y ∧ ClassLike h1 h2 x y) ∧
    (getArray h1 a).map ArrayObject.length = (getArray h2 a).map ArrayObject.length

/-- A visitor whose writes keep the heap alike to `h`, the heap the enumeration started on. -/
def KeepsLike {σ : Type} (h : Heap) (v : Visitor σ) : Prop :=
  ∀ s w, Alike h w.1 → Alike h (v s w).1

/-- Both heaps are alike to `h`. -/
def Around (h h1 h2 : Heap) : Prop := Alike h h1 ∧ Alike h h2

/-! ## Sample heaps -/

/-- A heap given by the list of its objects. -/
def heapOf (objs : List (Addr × HeapObject)) : Heap := fun a => objs.lookup a

/-- A sample choice of the constants: object header of 8 bytes, sentinel 3, `CLASS_IDX = 1`,
the Class-of-classes singleton at address 100, the referent at offset 8. -/
def env0 : Env :=
  { CLASS_WALK_SUPER := 3
    CLASS_SMALLEST_OFFSET := 8
    CLASS_IDX := 1
    CLASS_ISARRAY := 2 ^ 30
    CLASS_ISOBJECTARRAY := 2 ^ 29
    CLASS_ISREFERENCE := 2 ^ 28
    classJavaLangClass := 100
    offJavaLangRefReference_referent := 8 }

/-- A class with no fields, no flags, fully initialised; the samples are built from it. -/
def plainClass : ClassObject :=
  { obj := { clazz := 100 }
    accessFlags := 0
    status := 7
    elementClass := 0
    super := 0
    classLoader := 0
    refOffsets := 0
    ifields := []
    ifieldRefCount := 0
    sfields := []
    sfieldCount := 0
    interfaces := []
    interfaceCount := 0 }

/-- Descriptor of a reference-typed instance field. -/
def refField (byteOffset : Nat) : InstField :=
  { field := { signature := "Ljava/lang/Object;" }, byteOffset := byteOffset }

/-- Descriptor of an `int` instance field. -/
def intField (byteOffset : Nat) : InstField :=
  { field := { signature := "I" }, byteOffset := byteOffset }

/-- A static field of type `int`. -/
def intStatic : StaticField := { field := { signature := "I" }, value := 0 }

/-- A static field of object type holding `value`. -/
def objStatic (value : Addr) : StaticField :=
  { field := { signature := "Ljava/lang/String;" }, value := value }

/-- A class in bitmap mode with reference fields at offsets 8 and 16. -/
def classBitmap : ClassObject := { plainClass with refOffsets := 2 ^ 31 + 2 ^ 29 }

/-- One object (at 500) of `classBitmap` (at 200). -/
def heapBitmap : Heap :=
  heapOf [(200, .classObject classBitmap), (500, .dataObject { clazz := 200 })]

/-- A class in fallback mode that declares a reference field at 8 and an `int` field at 12. -/
def classMixed : ClassObject :=
  { plainClass with refOffsets := 3, ifields := [refField 8, intField 12], ifieldRefCount := 1 }

/-- One object (at 500) of `classMixed` (at 200). -/
def heapMixed : Heap :=
  heapOf [(200, .classObject classMixed), (500, .dataObject { clazz := 200 })]

/-- Root class `A` of a three-level chain, one reference field at 8. -/
def classA : ClassObject :=
  { plainClass with refOffsets := 3, ifields := [refField 8], ifieldRefCount := 1 }

/-- Class `B` extends `A` (at 201), one reference field at 12. -/
def classB : ClassObject :=
  { plainClass with refOffsets := 3, super := 201, ifields := [refField 12], ifieldRefCount := 1 }

/-- Class `C` extends `B` (at 202), one reference field at 16. -/
def classC : ClassObject :=
  { plainClass with refOffsets := 3, super := 202, ifields := [refField 16], ifieldRefCount := 1 }

/-- An instance of `C` at 500, with `A`, `B`, `C` at 201, 202, 203. -/
def heapABC : Heap :=
  heapOf [(201, .classObject classA), (202, .classObject classB), (203, .classObject classC),
    (500, .dataObject { clazz := 203 })]

/-- The same instance when `C` carries the bitmap of the chain instead of the sentinel. -/
def heapABCfast : Heap :=
  heapOf [(201, .classObject classA), (202, .classObject classB),
    (203, .classObject { classC with refOffsets := 2 ^ 31 + 2 ^ 30 + 2 ^ 29 }),
    (500, .dataObject { clazz := 203 })]

/-- A class with one primitive and one object-typed static field, and a superclass (at 201,
`classStaticsSuper`) that has an object-typed static field of its own. -/
def classStatics : ClassObject :=
  { plainClass with super := 201, sfields := [intStatic, objStatic 0], sfieldCount := 2 }

/-- The superclass of `classStatics`. -/
def classStaticsSuper : ClassObject :=
  { plainClass with sfields := [objStatic 0], sfieldCount := 1 }

/-- The two classes at 201 and 202. -/
def heapStatics : Heap :=
  heapOf [(201, .classObject classStaticsSuper), (202, .classObject classStatics)]

/-- Class of `Object[]`-like arrays: array and object-array flags set. -/
def classObjArray : ClassObject := { plainClass with accessFlags := 2 ^ 30 + 2 ^ 29 }

/-- Class of `int[]`-like arrays: only the array flag set. -/
def classIntArray : ClassObject := { plainClass with accessFlags := 2 ^ 30 }

/-- An array of 100 elements of class `clazz`, every fourth element non-null. -/
def array100 (clazz : Addr) : ArrayObject :=
  { obj := { clazz := clazz }, length := 100
    contents := (List.range 100).map (fun i => if i % 4 = 0 then 500 else 0) }

/-- An object array at 500 and a primitive array at 600, of 100 elements each. -/
def heapArrays : Heap :=
  heapOf [(201, .classObject classObjArray), (202, .classObject classIntArray),
    (500, .arrayObject (array100 201)), (600, .arrayObject (array100 202))]

/-- An ordinary class with reference fields at 12 and 16 (bitmap mode). -/
def classOrdinary : ClassObject := { plainClass with refOffsets := 2 ^ 30 + 2 ^ 29 }

/-- The same class with `CLASS_ISREFERENCE` set. -/
def classReference : ClassObject := { classOrdinary with accessFlags := 2 ^ 28 }

/-- An object of `classOrdinary` at 500 and one of `classReference` at 600. -/
def heapReference : Heap :=
  heapOf [(201, .classObject classOrdinary), (202, .classObject classReference),
    (500, .dataObject { clazz := 201 }), (600, .dataObject { clazz := 202 })]

/-- A class with one reference field at offset 8 (bitmap mode). -/
def classOneRef : ClassObject := { plainClass with refOffsets := 2 ^ 31 }

/-- An object at 500 of the field-less class at 201; a class with a reference field at 202. -/
def heapRetype : Heap :=
  heapOf [(201, .classObject plainClass), (202, .classObject classOneRef),
    (500, .dataObject { clazz := 201 })]

/-- A visitor that overwrites the class-pointer slot of the object at 500 with 202, as a
collector that forwards the class pointer would. -/
def retype : Visitor Unit :=
  overwrite (fun ref => if ref = Slot.byteOffset 500 0 then some 202 else none)

/-- A visitor that overwrites every slot it is handed whose store `writeSlot` determines,
except class pointers and superclass slots, with the address 57005. -/
def scribble : Visitor Unit :=
  overwrite (fun ref =>
    match ref with
    | .byteOffset _ 0 => none
    | .super _ => none
    | _ => some 57005)

/-- The Class-of-classes singleton in fallback mode, still at status 0: its own class is
itself (address 100). -/
def classSelf : ClassObject := { plainClass with status := 0, refOffsets := 3 }

/-- The singleton at 100 and an unrelated class with a reference field at 201. -/
def heapSelf : Heap :=
  heapOf [(100, .classObject classSelf), (201, .classObject classA)]

/-- A class object at 300 (class: the bitmap-mode singleton at 100), status 0, array flag
set, two statics. -/
def classLoading : ClassObject :=
  { plainClass with status := 0, accessFlags := 2 ^ 30, sfields := [intStatic, objStatic 0],
                    sfieldCount := 2 }

/-- The class object of `classLoading` after initialisation, with two interfaces. -/
def classLoaded : ClassObject :=
  { classLoading with status := 7, super := 201, interfaces := [201, 201], interfaceCount := 2 }

/-- The singleton (bitmap mode, one reference field at 8) at 100 and the class object
`classLoaded` at 301. -/
def heapLoading : Heap :=
  heapOf [(100, .classObject classOneRef), (201, .classObject classA),
    (301, .classObject classLoaded)]

/-- A class flagged `CLASS_ISREFERENCE` whose bitmap also encodes the referent field, which
sits at the registered referent offset 8. -/
def classReferentInBitmap : ClassObject :=
  { plainClass with accessFlags := 2 ^ 28, refOffsets := 2 ^ 31 }

/-- One object (at 500) of `classReferentInBitmap` (at 201). -/
def heapReferentInBitmap : Heap :=
  heapOf [(201, .classObject classReferentInBitmap), (500, .dataObject { clazz := 201 })]

/-- The Class-of-classes singleton in fallback mode, extending the class at 201. -/
def classSelfWalk : ClassObject := { plainClass with refOffsets := 3, super := 201 }

/-- The fallback-mode singleton at 100 (superclass `classA` at 201) and the class object
`classLoading` at 300, which is not on the superclass chain of the singleton. -/
def heapLoadingWalk : Heap :=
  heapOf [(100, .classObject classSelfWalk), (201, .classObject classA),
    (300, .classObject classLoading)]

/-- A class object (at 300, class: the singleton at 100) of an array class, initialised, with
a null class loader, one object-typed static and two interfaces. -/
def classComposite : ClassObject :=
  { plainClass with accessFlags := 2 ^ 30, elementClass := 201, super := 201, classLoader := 0,
                    sfields := [intStatic, objStatic 0], sfieldCount := 2,
                    interfaces := [201, 201], interfaceCount := 2 }

/-- The singleton (bitmap mode, one reference field at 8) at 100 and `classComposite` at 300. -/
def heapComposite : Heap :=
  heapOf [(100, .classObject classOneRef), (201, .classObject classA),
    (300, .classObject classComposite)]

/-- The Class-of-classes singleton with the array flag set, and an object array, a primitive
array and a plain object whose classes are not the singleton. -/
def heapKinds : Heap :=
  heapOf [(100, .classObject { classOneRef with accessFlags := 2 ^ 30 }),
    (201, .classObject classObjArray), (202, .classObject classOrdinary),
    (500, .arrayObject (array100 201)), (600, .dataObject { clazz := 202 })]

/-- A class in fallback mode that declares only an `int` field, extending the class at 201. -/
def classNoRefs : ClassObject :=
  { plainClass with refOffsets := 3, super := 201, ifields := [intField 8], ifieldRefCount := 0 }

/-- An object at 500 of `classNoRefs` (at 202), whose superclass (at 201) is in fallback mode
without fields; an object at 600 of the field-less bitmap-mode class at 203. -/
def heapNoRefs : Heap :=
  heapOf [(201, .classObject { plainClass with refOffsets := 3 }), (202, .classObject classNoRefs),
    (203, .classObject plainClass), (500, .dataObject { clazz := 202 }),
    (600, .dataObject { clazz := 203 })]

/-- A sample layout: `elementClass`, `super` and `classLoader` at offsets 60, 72 and 76 of a
Class object, static value cells and interface entries in blocks of their own, 16 bytes apart, array elements
from offset 16 of the array. -/
def layout0 : Layout :=
  { elementClass := 60
    super := 72
    classLoader := 76
    sfieldValue := fun clazz i => 1000 * clazz + 16 * i + 8
    interfaces := fun clazz i => 1000000 * clazz + 16 * i + 4
    contents := fun array i => array + 16 + 4 * i }

/-- The heap `heapABC` after the class `C` has been copied to address 204; the object at 500
still points at the old copy at 203. -/
def heapMoved : Heap :=
  heapOf [(201, .classObject classA), (202, .classObject classB), (203, .classObject classC),
    (204, .classObject classC), (500, .dataObject { clazz := 203 })]

/-- A visitor that forwards the class pointer of the object at 500 to the copy of its class
at 204, as a moving collector does. -/
def forward : Visitor Unit :=
  overwrite (fun ref => if ref = Slot.byteOffset 500 0 then some 204 else none)

/-- The heap `heapRetype` when the classes at 201 and 202 are two copies of one class, with a
reference field at offset 8. -/
def heapCopies : Heap :=
  heapOf [(201, .classObject classOneRef), (202, .classObject classOneRef),
    (500, .dataObject { clazz := 201 })]

/-- The Class-of-classes singleton in fallback mode declaring a reference field at offset
72, where `layout0` has the `super` member; a class object at status 0 at 300 and an
initialised one at 301. -/
def heapAliased : Heap :=
  heapOf [(100, .classObject { plainClass with refOffsets := 3, ifields := [refField 72],
                                               ifieldRefCount := 1 }),
    (201, .classObject classA), (300, .classObject classLoading),
    (301, .classObject classLoaded)]

/-- A class object at status 0 whose interface table and count are already filled in. -/
def classHalf : ClassObject :=
  { classLoading with interfaces := [201, 201], interfaceCount := 2 }

/-- The fallback-mode singleton at 100 (superclass `classA` at 201) and `classHalf` at 300. -/
def heapHalf : Heap :=
  heapOf [(100, .classObject classSelfWalk), (201, .classObject classA),
    (300, .classObject classHalf)]

/-! ## Theorems -/

/-! ### Visiting a list of slots -/

theorem visitAll_nil {σ : Type} (v : Visitor σ) (st : St σ) : visitAll v [] st = st := rfl

theorem visitAll_cons {σ : Type} (v : Visitor σ) (s : Slot) (l : List Slot) (st : St σ) :
    visitAll v (s :: l) st = visitAll v l (visit v s st) := rfl

theorem visitAll_append {σ : Type} (v : Visitor σ) (l1 l2 : List Slot) (st : St σ) :
    visitAll v (l1 ++ l2) st = visitAll v l2 (visitAll v l1 st) := by
  simp [visitAll, List.foldl_append]

theorem visitAll_trace {σ : Type} (v : Visitor σ) (l : List Slot) (st : St σ) :
    (visitAll v l st).trace = st.trace ++ l := by
  induction l generalizing st with
  | nil => simp [visitAll]
  | cons s l ih => rw [visitAll_cons, ih]; simp [visit]

theorem visit_noWrite {σ : Type} (s : Slot) (st : St σ) : visit noWrite s st = emit [s] st := rfl

theorem emit_emit {σ : Type} (l1 l2 : List Slot) (st : St σ) :
    emit l2 (emit l1 st) = emit (l1 ++ l2) st := by
  simp [emit]

theorem emit_nil {σ : Type} (st : St σ) : emit [] st = st := by
  simp [emit]

theorem emit_heap {σ : Type} (l : List Slot) (st : St σ) : (emit l st).heap = st.heap := rfl

theorem emit_trace {σ : Type} (l : List Slot) (st : St σ) :
    (emit l st).trace = st.trace ++ l := rfl

theorem visitAll_noWrite {σ : Type} (l : List Slot) (st : St σ) :
    visitAll noWrite l st = emit l st := by
  induction l generalizing st with
  | nil => simp [visitAll, emit]
  | cons s l ih => rw [visitAll_cons, ih, visit_noWrite, emit_emit]; rfl

theorem slotsOf_eq {σ : Type} {run : St σ → Option (St σ)} {h : Heap} {x : σ} {st' : St σ}
    (hrun : run { heap := h, vst := x, trace := [] } = some st') :
    slotsOf run h x = some st'.trace := by
  simp [slotsOf, hrun]

/-! ### The bitmap loop -/

theorem testBit_false_of_lt {x n i : Nat} (hx : x < 2 ^ n) (hi : n ≤ i) : x.testBit i = false :=
  Nat.testBit_lt_two_pow (lt_of_lt_of_le hx (Nat.pow_le_pow_right (by decide) hi))

theorem clzFrom_eq (x n : Nat) (hx : x < 2 ^ (n + 1)) (hb : x.testBit n = true) :
    ∀ m, n < m → clzFrom m x = m - 1 - n := by
  intro m
  induction m with
  | zero => intro h; omega
  | succ m ih =>
    intro h
    by_cases hmn : m = n
    · subst hmn
      simp [clzFrom, hb]
    · have hlt : n < m := by omega
      have hf : x.testBit m = false := testBit_false_of_lt hx (by omega)
      simp [clzFrom, hf, ih hlt]
      omega

theorem CLZ_eq (x n : Nat) (hn : n < 32) (hx : x < 2 ^ (n + 1)) (hb : x.testBit n = true) :
    CLZ x = 31 - n := by
  unfold CLZ
  rw [clzFrom_eq x n hx hb 32 hn]

theorem testBit_clear (x n b : Nat) (hn : n < 32) :
    (x &&& (0xFFFFFFFF ^^^ (CLASS_HIGH_BIT >>> (31 - n)))).testBit b
      = (x.testBit b && decide (b < 32) && !decide (b = n)) := by
  have h1 : (0xFFFFFFFF : Nat) = 2 ^ 32 - 1 := by norm_num
  rw [Nat.testBit_and, Nat.testBit_xor, h1, Nat.testBit_two_pow_sub_one, Nat.testBit_shiftRight,
    CLASS_HIGH_BIT, Nat.testBit_two_pow]
  by_cases hb : b < 32
  · by_cases hbn : b = n
    · subst hbn
      have : 31 = 31 - b + b := by omega
      simp [hb, ← this]
    · have : ¬ (31 = 31 - n + b) := by omega
      simp [hb, hbn, this]
  · have : ¬ (31 = 31 - n + b) := by omega
    simp [hb, this]

theorem clear_lt (x n : Nat) (hn : n < 32) (hx : x < 2 ^ (n + 1)) :
    x &&& (0xFFFFFFFF ^^^ (CLASS_HIGH_BIT >>> (31 - n))) < 2 ^ n := by
  apply Nat.lt_pow_two_of_testBit
  intro i hi
  rw [testBit_clear x n i hn]
  by_cases h : i = n
  · simp [h]
  · have : x.testBit i = false := testBit_false_of_lt hx (by omega)
    simp [this]

theorem bitsBelow_succ (n x : Nat) :
    bitsBelow (n + 1) x = if x.testBit n then n :: bitsBelow n x else bitsBelow n x := by
  simp [bitsBelow, List.range_succ, List.filter_cons]

theorem bitsBelow_congr (n x y : Nat) (h : ∀ b, b < n → x.testBit b = y.testBit b) :
    bitsBelow n x = bitsBelow n y := by
  unfold bitsBelow
  apply List.filter_congr
  intro b hb
  simp at hb
  exact h b hb

theorem bitsBelow_length_le (n x : Nat) : (bitsBelow n x).length ≤ n := by
  unfold bitsBelow
  calc ((List.range n).reverse.filter fun b => x.testBit b).length
      ≤ (List.range n).reverse.length := List.length_filter_le _ _
    _ = n := by simp

theorem bitsBelow_map (env : Env) (obj : Addr) (x : Nat) :
    (bitsBelow 32 x).map (bitSlot env obj) = (bitmapOffsets env x).map (Slot.byteOffset obj) := by
  have hrev : (List.range 32).reverse = (List.range 32).map (fun k => 31 - k) := by decide
  unfold bitsBelow bitmapOffsets
  rw [hrev, List.filter_map, List.map_map, List.map_map]
  apply List.map_congr_left
  intro k hk
  have hk32 : k < 32 := by
    have := List.mem_of_mem_filter hk
    simpa using this
  simp only [Function.comp, bitSlot, CLASS_OFFSET_FROM_CLZ]
  congr 1
  omega

theorem bitmapLoop_zero {σ : Type} (env : Env) (v : Visitor σ) (obj fuel : Nat) (st : St σ) :
    bitmapLoop env v obj fuel 0 st = some st := by
  cases fuel <;> simp [bitmapLoop]

theorem bitmapLoop_eq {σ : Type} (env : Env) (v : Visitor σ) (obj : Addr) :
    ∀ n, n ≤ 32 → ∀ (fuel x : Nat) (st : St σ), x < 2 ^ n →
      bitmapLoop env v obj fuel x st =
        if (bitsBelow n x).length ≤ fuel then
          some (visitAll v ((bitsBelow n x).map (bitSlot env obj)) st)
        else none := by
  intro n
  induction n with
  | zero =>
    intro _ fuel x st hx
    have hx0 : x = 0 := by simpa using hx
    subst hx0
    simp [bitmapLoop_zero, bitsBelow, visitAll]
  | succ n ih =>
    intro hn fuel x st hx
    rw [bitsBelow_succ]
    by_cases hb : x.testBit n = true
    · have hx0 : x ≠ 0 := by
        intro h0; subst h0; simp at hb
      have hclz : CLZ x = 31 - n := CLZ_eq x n (by omega) hx hb
      have hlt := clear_lt x n (by omega) hx
      have hcongr : bitsBelow n (x &&& (0xFFFFFFFF ^^^ (CLASS_HIGH_BIT >>> (31 - n))))
          = bitsBelow n x := by
        apply bitsBelow_congr
        intro b hbn
        rw [testBit_clear x n b (by omega)]
        have h1 : b < 32 := by omega
        have h2 : b ≠ n := by omega
        simp [h1, h2]
      cases fuel with
      | zero => simp [bitmapLoop, hx0, hb]
      | succ fuel =>
        simp only [bitmapLoop, hb, if_true, List.length_cons, List.map_cons, visitAll_cons]
        have hne : (x != 0) = true := by simpa using hx0
        rw [if_pos hne, hclz, ih (by omega) fuel _ _ hlt, hcongr]
        simp [bitSlot]
    · have hbf : x.testBit n = false := by simpa using hb
      have hlt : x < 2 ^ n := by
        apply Nat.lt_pow_two_of_testBit
        intro i hi
        by_cases h : i = n
        · rw [h]; exact hbf
        · exact testBit_false_of_lt hx (by omega)
      simp only [hbf]
      exact ih (by omega) fuel x st hlt

theorem bitmapOffsets_pairwise (env : Env) (x : Nat) :
    (bitmapOffsets env x).Pairwise (fun a b => a < b) := by
  unfold bitmapOffsets
  rw [List.pairwise_map]
  have h : (List.range 32).Pairwise (fun a b => a < b) := List.pairwise_lt_range 32
  exact (h.filter _).imp (fun hab => by omega)

theorem bitmapOffsets_length (env : Env) (x : Nat) :
    (bitmapOffsets env x).length = popCount32 x := by
  have hrev : (List.range 32).reverse = (List.range 32).map (fun k => 31 - k) := by decide
  unfold bitmapOffsets popCount32
  rw [List.length_map, ← List.countP_eq_length_filter,
    ← (List.reverse_perm (List.range 32)).countP_eq, hrev, List.countP_map]
  rfl

theorem mem_bitmapOffsets (env : Env) (x off : Nat) :
    off ∈ bitmapOffsets env x ↔
      ∃ k, k < 32 ∧ x.testBit (31 - k) = true ∧ off = env.CLASS_SMALLEST_OFFSET + 4 * k := by
  unfold bitmapOffsets
  simp only [List.mem_map, List.mem_filter, List.mem_range]
  constructor
  · rintro ⟨k, ⟨hk, hb⟩, rfl⟩
    exact ⟨k, hk, hb, rfl⟩
  · rintro ⟨k, hk, hb, rfl⟩
    exact ⟨k, ⟨hk, hb⟩, rfl⟩

/-! ### The bitmap of a class chain -/

theorem chainOffsets_length (cs : List ClassObject)
    (hwf : ∀ d ∈ cs, 0 ≤ d.ifieldRefCount ∧ d.ifieldRefCount ≤ d.ifields.length) :
    ((chainOffsets cs).length : Int) = (cs.map ClassObject.ifieldRefCount).sum := by
  induction cs with
  | nil => simp [chainOffsets]
  | cons c rest ih =>
    have hc := hwf c (by simp)
    have hr := ih (fun d hd => hwf d (by simp [hd]))
    simp only [chainOffsets, List.flatMap_cons, List.length_append, List.length_map,
      List.map_cons, List.sum_cons, refFields, List.length_take] at hr ⊢
    rw [Nat.cast_add, hr]
    omega

theorem mem_chainOffsets (cs : List ClassObject) (off : Nat) :
    off ∈ chainOffsets cs ↔
      ∃ d ∈ cs, ∃ f ∈ d.ifields.take d.ifieldRefCount.toNat, f.byteOffset = off := by
  simp only [chainOffsets, refFields, List.mem_flatMap, List.mem_map]

theorem testBit_foldr_or (f : Nat → Nat) (l : List Nat) (b : Nat) :
    (l.foldr (fun off acc => f off ||| acc) 0).testBit b = l.any (fun off => (f off).testBit b) := by
  induction l with
  | nil => simp
  | cons a l ih => simp [List.foldr_cons, Nat.testBit_or, ih]

theorem testBit_CLASS_BIT_FROM_OFFSET (env : Env) (off b : Nat) :
    (CLASS_BIT_FROM_OFFSET env off).testBit b
      = decide (31 = (off - env.CLASS_SMALLEST_OFFSET) / 4 + b) := by
  unfold CLASS_BIT_FROM_OFFSET CLASS_HIGH_BIT
  rw [Nat.testBit_shiftRight, Nat.testBit_two_pow]

theorem testBit_bitmapOfChain (env : Env) (cs : List ClassObject) (b : Nat) :
    (bitmapOfChain env cs).testBit b = true ↔
      ∃ off ∈ chainOffsets cs, 31 = (off - env.CLASS_SMALLEST_OFFSET) / 4 + b := by
  unfold bitmapOfChain
  rw [testBit_foldr_or, List.any_eq_true]
  simp only [testBit_CLASS_BIT_FROM_OFFSET, decide_eq_true_eq]

theorem bitmapOfChain_lt (env : Env) (cs : List ClassObject) : bitmapOfChain env cs < 2 ^ 32 := by
  apply Nat.lt_pow_two_of_testBit
  intro i hi
  cases hb : (bitmapOfChain env cs).testBit i with
  | false => rfl
  | true =>
    obtain ⟨off, _, h⟩ := (testBit_bitmapOfChain env cs i).1 hb
    omega

theorem mem_bitmapOffsets_chain (env : Env) (cs : List ClassObject)
    (henc : ∀ off ∈ chainOffsets cs, ∃ k, k < 32 ∧ off = env.CLASS_SMALLEST_OFFSET + 4 * k)
    (off : Nat) : off ∈ bitmapOffsets env (bitmapOfChain env cs) ↔ off ∈ chainOffsets cs := by
  rw [mem_bitmapOffsets]
  constructor
  · rintro ⟨k, hk, hb, rfl⟩
    obtain ⟨off, hoff, h⟩ := (testBit_bitmapOfChain env cs _).1 hb
    obtain ⟨j, hj, rfl⟩ := henc off hoff
    have : j = k := by omega
    subst this
    exact hoff
  · intro hoff
    obtain ⟨j, hj, rfl⟩ := henc off hoff
    refine ⟨j, hj, ?_, rfl⟩
    rw [testBit_bitmapOfChain]
    exact ⟨_, hoff, by omega⟩

/-! ### Runs on heaps that agree on what is read -/

theorem CtlEq.refl (h : Heap) : CtlEq h h := fun _ => ⟨rfl, rfl, rfl⟩

theorem CtlEq.symm {h1 h2 : Heap} (e : CtlEq h1 h2) : CtlEq h2 h1 :=
  fun a => ⟨(e a).1.symm, (e a).2.1.symm, (e a).2.2.symm⟩

theorem CtlEq.trans {h1 h2 h3 : Heap} (e : CtlEq h1 h2) (f : CtlEq h2 h3) : CtlEq h1 h3 :=
  fun a => ⟨(e a).1.trans (f a).1, (e a).2.1.trans (f a).2.1, (e a).2.2.trans (f a).2.2⟩

theorem CtlEq.instEq {h1 h2 : Heap} (e : CtlEq h1 h2) : InstEq h1 h2 := by
  intro a
  refine ⟨(e a).1, ?_⟩
  have h := (e a).2.1
  cases h1c : getClass h1 a <;> cases h2c : getClass h2 a <;> simp [h1c, h2c, ctlPart] at h ⊢
  simp [instPart, h]

theorem Preserves.joint {σ τ : Type} {v1 : Visitor σ} {v2 : Visitor τ}
    (p1 : Preserves v1) (p2 : Preserves v2) : Joint CtlEq v1 v2 :=
  fun s w1 w2 r => ((p1 s w1).symm.trans r).trans (p2 s w2)

theorem preserves_noWrite {σ : Type} : Preserves (noWrite : Visitor σ) :=
  fun _ w => CtlEq.refl w.1

theorem visit_rel {σ τ : Type} {R : Heap → Heap → Prop} {v1 : Visitor σ} {v2 : Visitor τ}
    (hj : Joint R v1 v2) (s : Slot) {st1 : St σ} {st2 : St τ} (r : StRel R st1 st2) :
    StRel R (visit v1 s st1) (visit v2 s st2) := by
  refine ⟨hj s (st1.heap, st1.vst) (st2.heap, st2.vst) r.1, ?_⟩
  simp [visit, r.2]

theorem getClass_instEq {h1 h2 : Heap} (e : InstEq h1 h2) (a : Addr) :
    (getClass h1 a = none ∧ getClass h2 a = none) ∨
    ∃ c1 c2, getClass h1 a = some c1 ∧ getClass h2 a = some c2 ∧
      c1.refOffsets = c2.refOffsets ∧ c1.ifields = c2.ifields ∧
      c1.ifieldRefCount = c2.ifieldRefCount ∧ c1.super = c2.super := by
  have h := (e a).2
  cases h1c : getClass h1 a <;> cases h2c : getClass h2 a <;> simp [h1c, h2c, instPart] at h ⊢
  exact h

theorem getClass_ctlEq {h1 h2 : Heap} (e : CtlEq h1 h2) (a : Addr) :
    (getClass h1 a = none ∧ getClass h2 a = none) ∨
    ∃ c1 c2, getClass h1 a = some c1 ∧ getClass h2 a = some c2 ∧
      c1.accessFlags = c2.accessFlags ∧ c1.status = c2.status ∧
      c1.sfieldCount = c2.sfieldCount ∧
      c1.sfields.map StaticField.field = c2.sfields.map StaticField.field ∧
      c1.interfaceCount = c2.interfaceCount := by
  have h := (e a).2.1
  cases h1c : getClass h1 a <;> cases h2c : getClass h2 a <;> simp [h1c, h2c, ctlPart] at h ⊢
  simp [h]

theorem getArray_ctlEq {h1 h2 : Heap} (e : CtlEq h1 h2) (a : Addr) :
    (getArray h1 a = none ∧ getArray h2 a = none) ∨
    ∃ a1 a2, getArray h1 a = some a1 ∧ getArray h2 a = some a2 ∧ a1.length = a2.length := by
  have h := (e a).2.2
  cases h1c : getArray h1 a <;> cases h2c : getArray h2 a <;> simp [h1c, h2c] at h ⊢
  exact h

theorem OptRel.bind {σ τ : Type} {R : Heap → Heap → Prop} {o1 : Option (St σ)}
    {o2 : Option (St τ)} {f : St σ → Option (St σ)} {g : St τ → Option (St τ)}
    (h : OptRel R o1 o2) (hfg : ∀ a b, StRel R a b → OptRel R (f a) (g b)) :
    OptRel R (o1.bind f) (o2.bind g) := by
  cases o1 <;> cases o2 <;> simp [OptRel] at h ⊢
  exact hfg _ _ h

theorem OptRel.map_trace {σ τ : Type} {R : Heap → Heap → Prop} {o1 : Option (St σ)}
    {o2 : Option (St τ)} (h : OptRel R o1 o2) : o1.map St.trace = o2.map St.trace := by
  cases o1 <;> cases o2 <;> simp [OptRel] at h ⊢
  exact h.2

theorem OptRel.of_some_right {σ τ : Type} {R : Heap → Heap → Prop} {o1 : Option (St σ)}
    {b : St τ} (h : OptRel R o1 (some b)) : ∃ a, o1 = some a ∧ StRel R a b := by
  cases o1 <;> simp [OptRel] at h ⊢
  exact h

theorem OptRel.of_some_left {σ τ : Type} {R : Heap → Heap → Prop} {a : St σ}
    {o2 : Option (St τ)} (h : OptRel R (some a) o2) : ∃ b, o2 = some b ∧ StRel R a b := by
  cases o2 <;> simp [OptRel] at h ⊢
  exact h

theorem stRel_refl {σ : Type} (st : St σ) : StRel CtlEq st st := ⟨CtlEq.refl _, rfl⟩

theorem bitmapLoop_rel {σ τ : Type} {R : Heap → Heap → Prop} {v1 : Visitor σ} {v2 : Visitor τ}
    (hj : Joint R v1 v2) (env : Env) (obj : Addr) :
    ∀ (fuel x : Nat) (st1 : St σ) (st2 : St τ), StRel R st1 st2 →
      OptRel R (bitmapLoop env v1 obj fuel x st1) (bitmapLoop env v2 obj fuel x st2) := by
  intro fuel
  induction fuel with
  | zero =>
    intro x st1 st2 r
    by_cases hx : x = 0 <;> simp [bitmapLoop, hx, OptRel, r]
  | succ fuel ih =>
    intro x st1 st2 r
    by_cases hx : x = 0
    · simp [bitmapLoop, hx, OptRel, r]
    · simp only [bitmapLoop, bne_iff_ne, ne_eq, hx, not_false_eq_true, if_true]
      exact ih _ _ _ (visit_rel hj _ r)

theorem ifieldLoop_rel {σ τ : Type} {R : Heap → Heap → Prop} {v1 : Visitor σ} {v2 : Visitor τ}
    (hj : Joint R v1 v2) (hI : ∀ h1 h2, R h1 h2 → InstEq h1 h2) (obj clazz : Addr) :
    ∀ (fuel i : Nat) (field : List InstField) (st1 : St σ) (st2 : St τ), StRel R st1 st2 →
      OptRel R (ifieldLoop v1 obj clazz fuel i field st1)
        (ifieldLoop v2 obj clazz fuel i field st2) := by
  intro fuel
  induction fuel with
  | zero => intro i field st1 st2 _; simp [ifieldLoop, OptRel]
  | succ fuel ih =>
    intro i field st1 st2 r
    rcases getClass_instEq (hI _ _ r.1) clazz with ⟨e1, e2⟩ | ⟨c1, c2, e1, e2, _, _, hc, _⟩
    · simp [ifieldLoop, e1, e2, OptRel]
    · simp only [ifieldLoop, e1, e2, Option.bind_eq_bind, Option.some_bind, hc]
      by_cases hlt : (i : Int) < c2.ifieldRefCount
      · cases field with
        | nil => simp [hlt, OptRel]
        | cons f rest =>
          simp only [hlt, if_true]
          exact ih _ _ _ _ (visit_rel hj _ r)
      · simp [hlt, OptRel, r]

theorem superLoop_rel {σ τ : Type} {R : Heap → Heap → Prop} {v1 : Visitor σ} {v2 : Visitor τ}
    (hj : Joint R v1 v2) (hI : ∀ h1 h2, R h1 h2 → InstEq h1 h2) (n : Nat) (obj : Addr) :
    ∀ (fuel : Nat) (clazz : Addr) (st1 : St σ) (st2 : St τ), StRel R st1 st2 →
      OptRel R (superLoop n v1 obj fuel clazz st1) (superLoop n v2 obj fuel clazz st2) := by
  intro fuel
  induction fuel with
  | zero => intro clazz st1 st2 _; simp [superLoop, OptRel]
  | succ fuel ih =>
    intro clazz st1 st2 r
    by_cases hz : clazz = 0
    · simp [superLoop, hz, OptRel, r]
    · simp only [superLoop, bne_iff_ne, ne_eq, hz, not_false_eq_true, if_true,
        Option.bind_eq_bind]
      rcases getClass_instEq (hI _ _ r.1) clazz with ⟨e1, e2⟩ | ⟨c1, c2, e1, e2, _, hf, _, _⟩
      · simp [e1, e2, OptRel]
      · simp only [e1, e2, Option.some_bind, hf]
        apply OptRel.bind (ifieldLoop_rel hj hI obj clazz n 0 c2.ifields st1 st2 r)
        intro a b rab
        rcases getClass_instEq (hI _ _ rab.1) clazz with ⟨e1, e2⟩ | ⟨d1, d2, e1, e2, _, _, _, hs⟩
        · simp [e1, e2, OptRel]
        · simp only [e1, e2, Option.some_bind, hs]
          exact ih _ _ _ rab

theorem visitInstanceFields_rel {σ τ : Type} {R : Heap → Heap → Prop} {v1 : Visitor σ}
    {v2 : Visitor τ} (hj : Joint R v1 v2) (hI : ∀ h1 h2, R h1 h2 → InstEq h1 h2)
    (env : Env) (fuel : Nat) (obj : Addr) (st1 : St σ) (st2 : St τ) (r : StRel R st1 st2) :
    OptRel R (visitInstanceFields env fuel v1 obj st1) (visitInstanceFields env fuel v2 obj st2) := by
  unfold visitInstanceFields
  rw [← (hI _ _ r.1 obj).1]
  cases hc : clazzOf st1.heap obj with
  | none => simp [OptRel]
  | some clazz =>
    simp only [Option.bind_eq_bind, Option.some_bind]
    rcases getClass_instEq (hI _ _ r.1) clazz with ⟨e1, e2⟩ | ⟨c1, c2, e1, e2, hr, _, _, _⟩
    · simp [e1, e2, OptRel]
    · simp only [e1, e2, Option.some_bind, hr]
      by_cases hw : c2.refOffsets = env.CLASS_WALK_SUPER
      · simp only [hw, bne_self_eq_false, Bool.false_eq_true, if_false]
        exact superLoop_rel hj hI fuel obj fuel clazz st1 st2 r
      · have : (c2.refOffsets != env.CLASS_WALK_SUPER) = true := by simpa using hw
        simp only [this, if_true]
        exact bitmapLoop_rel hj env obj fuel _ st1 st2 r

theorem sfieldLoop_rel {σ τ : Type} {R : Heap → Heap → Prop} {v1 : Visitor σ} {v2 : Visitor τ}
    (hj : Joint R v1 v2) (hC : ∀ h1 h2, R h1 h2 → CtlEq h1 h2) (clazz : Addr) :
    ∀ (fuel i : Nat) (st1 : St σ) (st2 : St τ), StRel R st1 st2 →
      OptRel R (sfieldLoop v1 clazz fuel i st1) (sfieldLoop v2 clazz fuel i st2) := by
  intro fuel
  induction fuel with
  | zero => intro i st1 st2 _; simp [sfieldLoop, OptRel]
  | succ fuel ih =>
    intro i st1 st2 r
    rcases getClass_ctlEq (hC _ _ r.1) clazz with ⟨e1, e2⟩ | ⟨c1, c2, e1, e2, _, _, hn, hs, _⟩
    · simp [sfieldLoop, e1, e2, OptRel]
    · simp only [sfieldLoop, e1, e2, Option.bind_eq_bind, Option.some_bind, hn]
      by_cases hlt : (i : Int) < c2.sfieldCount
      · simp only [hlt, if_true]
        have hi : (c1.sfields[i]?).map StaticField.field = (c2.sfields[i]?).map StaticField.field := by
          rw [← List.getElem?_map, ← List.getElem?_map, hs]
        cases h1 : c1.sfields[i]? <;> cases h2 : c2.sfields[i]? <;> simp [h1, h2] at hi
        · simp [OptRel]
        · simp only [Option.some_bind, hi]
          split
          · exact ih _ _ _ (visit_rel hj _ r)
          · exact ih _ _ _ r
      · simp [hlt, OptRel, r]

theorem interfaceLoop_rel {σ τ : Type} {R : Heap → Heap → Prop} {v1 : Visitor σ}
    {v2 : Visitor τ} (hj : Joint R v1 v2) (hC : ∀ h1 h2, R h1 h2 → CtlEq h1 h2) (clazz : Addr) :
    ∀ (fuel i : Nat) (st1 : St σ) (st2 : St τ), StRel R st1 st2 →
      OptRel R (interfaceLoop v1 clazz fuel i st1) (interfaceLoop v2 clazz fuel i st2) := by
  intro fuel
  induction fuel with
  | zero => intro i st1 st2 _; simp [interfaceLoop, OptRel]
  | succ fuel ih =>
    intro i st1 st2 r
    rcases getClass_ctlEq (hC _ _ r.1) clazz with ⟨e1, e2⟩ | ⟨c1, c2, e1, e2, _, _, _, _, hn⟩
    · simp [interfaceLoop, e1, e2, OptRel]
    · simp only [interfaceLoop, e1, e2, Option.bind_eq_bind, Option.some_bind, hn]
      by_cases hlt : (i : Int) < c2.interfaceCount
      · simp only [hlt, if_true]
        exact ih _ _ _ (visit_rel hj _ r)
      · simp [hlt, OptRel, r]

theorem contentsLoop_rel {σ τ : Type} {R : Heap → Heap → Prop} {v1 : Visitor σ}
    {v2 : Visitor τ} (hj : Joint R v1 v2) (hC : ∀ h1 h2, R h1 h2 → CtlEq h1 h2) (obj : Addr) :
    ∀ (fuel i : Nat) (st1 : St σ) (st2 : St τ), StRel R st1 st2 →
      OptRel R (contentsLoop v1 obj fuel i st1) (contentsLoop v2 obj fuel i st2) := by
  intro fuel
  induction fuel with
  | zero => intro i st1 st2 _; simp [contentsLoop, OptRel]
  | succ fuel ih =>
    intro i st1 st2 r
    rcases getArray_ctlEq (hC _ _ r.1) obj with ⟨e1, e2⟩ | ⟨a1, a2, e1, e2, hn⟩
    · simp [contentsLoop, e1, e2, OptRel]
    · simp only [contentsLoop, e1, e2, Option.bind_eq_bind, Option.some_bind, hn]
      by_cases hlt : i < a2.length
      · simp only [hlt, if_true]
        exact ih _ _ _ (visit_rel hj _ r)
      · simp [hlt, OptRel, r]

theorem visitArrayObject_rel {σ τ : Type} {R : Heap → Heap → Prop} {v1 : Visitor σ}
    {v2 : Visitor τ} (hj : Joint R v1 v2) (hC : ∀ h1 h2, R h1 h2 → CtlEq h1 h2)
    (env : Env) (fuel : Nat) (obj : Addr) (st1 : St σ) (st2 : St τ) (r : StRel R st1 st2) :
    OptRel R (visitArrayObject env fuel v1 obj st1) (visitArrayObject env fuel v2 obj st2) := by
  unfold visitArrayObject
  have r1 := visit_rel hj (Slot.byteOffset obj 0) r
  simp only [Option.bind_eq_bind]
  rw [← (hC _ _ r1.1 obj).1]
  cases hc : clazzOf (visit v1 (Slot.byteOffset obj 0) st1).heap obj with
  | none => simp [OptRel]
  | some clazz =>
    simp only [Option.some_bind]
    rcases getClass_ctlEq (hC _ _ r1.1) clazz with ⟨e1, e2⟩ | ⟨c1, c2, e1, e2, hf, _, _, _, _⟩
    · simp [e1, e2, OptRel]
    · simp only [e1, e2, Option.some_bind, hf]
      split
      · exact contentsLoop_rel hj hC obj fuel 0 _ _ r1
      · exact r1

theorem visitDataObject_rel {σ τ : Type} {R : Heap → Heap → Prop} {v1 : Visitor σ}
    {v2 : Visitor τ} (hj : Joint R v1 v2) (hC : ∀ h1 h2, R h1 h2 → CtlEq h1 h2)
    (env : Env) (fuel : Nat) (obj : Addr) (st1 : St σ) (st2 : St τ) (r : StRel R st1 st2) :
    OptRel R (visitDataObject env fuel v1 obj st1) (visitDataObject env fuel v2 obj st2) := by
  unfold visitDataObject
  have r1 := visit_rel hj (Slot.byteOffset obj 0) r
  simp only [Option.bind_eq_bind]
  apply OptRel.bind
    (visitInstanceFields_rel hj (fun h1 h2 x => (hC h1 h2 x).instEq) env fuel obj _ _ r1)
  intro a b rab
  rw [← (hC _ _ rab.1 obj).1]
  cases hc : clazzOf a.heap obj with
  | none => simp [OptRel]
  | some clazz =>
    simp only [Option.some_bind]
    rcases getClass_ctlEq (hC _ _ rab.1) clazz with ⟨e1, e2⟩ | ⟨c1, c2, e1, e2, hf, _, _, _, _⟩
    · simp [e1, e2, OptRel]
    · simp only [e1, e2, Option.some_bind, hf]
      split
      · exact visit_rel hj _ rab
      · exact rab

theorem visitClassObject_rel {σ τ : Type} {R : Heap → Heap → Prop} {v1 : Visitor σ}
    {v2 : Visitor τ} (hj : Joint R v1 v2) (hC : ∀ h1 h2, R h1 h2 → CtlEq h1 h2)
    (env : Env) (fuel : Nat) (obj : Addr) (st1 : St σ) (st2 : St τ) (r : StRel R st1 st2) :
    OptRel R (visitClassObject env fuel v1 obj st1) (visitClassObject env fuel v2 obj st2) := by
  unfold visitClassObject
  have r1 := visit_rel hj (Slot.byteOffset obj 0) r
  simp only [Option.bind_eq_bind]
  rcases getClass_ctlEq (hC _ _ r1.1) obj with ⟨e1, e2⟩ | ⟨c1, c2, e1, e2, hf, _, _, _, _⟩
  · simp [e1, e2, OptRel]
  simp only [e1, e2, Option.some_bind, hf]
  have r2 : StRel R
      (if IS_CLASS_FLAG_SET c2.accessFlags env.CLASS_ISARRAY = true then
        visit v1 (Slot.elementClass obj) (visit v1 (Slot.byteOffset obj 0) st1)
       else visit v1 (Slot.byteOffset obj 0) st1)
      (if IS_CLASS_FLAG_SET c2.accessFlags env.CLASS_ISARRAY = true then
        visit v2 (Slot.elementClass obj) (visit v2 (Slot.byteOffset obj 0) st2)
       else visit v2 (Slot.byteOffset obj 0) st2) := by
    split
    · exact visit_rel hj _ r1
    · exact r1
  revert r2
  generalize (if IS_CLASS_FLAG_SET c2.accessFlags env.CLASS_ISARRAY = true then
        visit v1 (Slot.elementClass obj) (visit v1 (Slot.byteOffset obj 0) st1)
       else visit v1 (Slot.byteOffset obj 0) st1) = s1
  generalize (if IS_CLASS_FLAG_SET c2.accessFlags env.CLASS_ISARRAY = true then
        visit v2 (Slot.elementClass obj) (visit v2 (Slot.byteOffset obj 0) st2)
       else visit v2 (Slot.byteOffset obj 0) st2) = s2
  intro r2
  rcases getClass_ctlEq (hC _ _ r2.1) obj with ⟨e1, e2⟩ | ⟨d1, d2, e1, e2, _, hs, _, _, _⟩
  · simp [e1, e2, OptRel]
  simp only [e1, e2, Option.some_bind, hs]
  have r3 : StRel R
      (if d2.status > env.CLASS_IDX then visit v1 (Slot.super obj) s1 else s1)
      (if d2.status > env.CLASS_IDX then visit v2 (Slot.super obj) s2 else s2) := by
    split
    · exact visit_rel hj _ r2
    · exact r2
  have r4 := visit_rel hj (Slot.classLoader obj) r3
  apply OptRel.bind
    (visitInstanceFields_rel hj (fun h1 h2 x => (hC h1 h2 x).instEq) env fuel obj _ _ r4)
  intro a5 b5 r5
  apply OptRel.bind (sfieldLoop_rel hj hC obj fuel 0 _ _ r5)
  intro a6 b6 r6
  rcases getClass_ctlEq (hC _ _ r6.1) obj with ⟨e1, e2⟩ | ⟨k1, k2, e1, e2, _, hs, _, _, _⟩
  · simp [e1, e2, OptRel]
  simp only [e1, e2, Option.some_bind, hs]
  split
  · exact interfaceLoop_rel hj hC obj fuel 0 _ _ r6
  · exact r6

theorem dvmVisitObject_rel {σ τ : Type} {R : Heap → Heap → Prop} {v1 : Visitor σ}
    {v2 : Visitor τ} (hj : Joint R v1 v2) (hC : ∀ h1 h2, R h1 h2 → CtlEq h1 h2)
    (env : Env) (fuel : Nat) (obj : Addr) (st1 : St σ) (st2 : St τ) (r : StRel R st1 st2) :
    OptRel R (dvmVisitObject env fuel v1 obj st1) (dvmVisitObject env fuel v2 obj st2) := by
  unfold dvmVisitObject
  simp only [Option.bind_eq_bind]
  rw [← (hC _ _ r.1 obj).1]
  cases hc : clazzOf st1.heap obj with
  | none => simp [OptRel]
  | some clazz =>
    simp only [Option.some_bind]
    split
    · exact visitClassObject_rel hj hC env fuel obj st1 st2 r
    · rcases getClass_ctlEq (hC _ _ r.1) clazz with ⟨e1, e2⟩ | ⟨c1, c2, e1, e2, hf, _, _, _, _⟩
      · simp [e1, e2, OptRel]
      · simp only [e1, e2, Option.some_bind, hf]
        split
        · exact visitArrayObject_rel hj hC env fuel obj st1 st2 r
        · exact visitDataObject_rel hj hC env fuel obj st1 st2 r

theorem slotsOf_lift {σ : Type} (f g : St σ → Option (St σ))
    (hrel : ∀ (st1 st2 : St σ), StRel CtlEq st1 st2 → OptRel CtlEq (f st1) (g st2))
    (h : Heap) (x : σ) (l : List Slot)
    (hg : g { heap := h, vst := x, trace := [] }
      = some (emit l { heap := h, vst := x, trace := [] })) :
    slotsOf f h x = some l := by
  have := hrel _ _ (stRel_refl { heap := h, vst := x, trace := [] })
  rw [hg] at this
  obtain ⟨a, ha, hr⟩ := this.of_some_right
  rw [slotsOf_eq ha, hr.2]
  rfl

/-! ### Stores that leave the enumeration alone -/

theorem ctlEq_modifyAt (h : Heap) (a : Addr) (f : HeapObject → HeapObject)
    (hf : ∀ o, (∀ c, o = .classObject c → ∃ c', f o = .classObject c' ∧
        c'.obj.clazz = c.obj.clazz ∧ ctlPart c' = ctlPart c) ∧
      (∀ r, o = .arrayObject r → ∃ r', f o = .arrayObject r' ∧
        r'.obj.clazz = r.obj.clazz ∧ r'.length = r.length) ∧
      (∀ d, o = .dataObject d → f o = .dataObject d)) :
    CtlEq h (modifyAt h a f) := by
  intro b
  unfold modifyAt clazzOf getClass getArray
  by_cases hb : b = a
  · simp only [hb, if_true]
    cases ho : h a with
    | none => simp
    | some o =>
      cases o with
      | classObject c =>
        obtain ⟨c', hc', h1, h2⟩ := (hf (.classObject c)).1 c rfl
        simp [hc', h1, h2]
      | arrayObject r =>
        obtain ⟨r', hr', h1, h2⟩ := (hf (.arrayObject r)).2.1 r rfl
        simp [hr', h1, h2]
      | dataObject d =>
        have := (hf (.dataObject d)).2.2 d rfl
        simp [this]
  · simp [hb]

theorem ctlEq_onClass (h : Heap) (a : Addr) (f : ClassObject → ClassObject)
    (hf : ∀ c, (f c).obj.clazz = c.obj.clazz ∧ ctlPart (f c) = ctlPart c) :
    CtlEq h (modifyAt h a (onClass f)) := by
  apply ctlEq_modifyAt
  intro o
  refine ⟨?_, ?_, ?_⟩
  · rintro c rfl
    exact ⟨f c, rfl, (hf c).1, (hf c).2⟩
  · rintro r rfl
    exact ⟨r, rfl, rfl, rfl⟩
  · rintro d rfl
    rfl

theorem ctlEq_onArray (h : Heap) (a : Addr) (f : ArrayObject → ArrayObject)
    (hf : ∀ r, (f r).obj.clazz = r.obj.clazz ∧ (f r).length = r.length) :
    CtlEq h (modifyAt h a (onArray f)) := by
  apply ctlEq_modifyAt
  intro o
  refine ⟨?_, ?_, ?_⟩
  · rintro c rfl
    exact ⟨c, rfl, rfl, rfl⟩
  · rintro r rfl
    exact ⟨f r, rfl, (hf r).1, (hf r).2⟩
  · rintro d rfl
    rfl

theorem map_field_modify (l : List StaticField) (val : Addr) (i : Nat) :
    (l.modify (fun sf => { sf with value := val }) i).map StaticField.field
      = l.map StaticField.field := by
  induction l generalizing i with
  | nil => cases i <;> rfl
  | cons a l ih =>
    cases i with
    | zero => rfl
    | succ i => simp [List.modify_succ_cons, ih]

theorem ctlEq_writeSlot (h h' : Heap) (ref : Slot) (val : Addr)
    (hclazz : ∀ obj, ref ≠ Slot.byteOffset obj 0) (hsuper : ∀ obj, ref ≠ Slot.super obj)
    (hw : writeSlot h ref val = some h') : CtlEq h h' := by
  cases ref with
  | byteOffset obj off =>
    cases off with
    | zero => exact absurd rfl (hclazz obj)
    | succ n =>
      simp only [writeSlot] at hw
      split at hw
      · injection hw with hw
        rw [← hw]
        exact CtlEq.refl h
      · cases hw
  | elementClass obj =>
    injection hw with hw
    rw [← hw]
    exact ctlEq_onClass h obj _ (fun c => ⟨rfl, rfl⟩)
  | super obj => exact absurd rfl (hsuper obj)
  | classLoader obj =>
    injection hw with hw
    rw [← hw]
    exact ctlEq_onClass h obj _ (fun c => ⟨rfl, rfl⟩)
  | sfieldValue clazz i =>
    injection hw with hw
    rw [← hw]
    exact ctlEq_onClass h clazz _ (fun c => ⟨rfl, by simp [ctlPart, map_field_modify]⟩)
  | interfaces clazz i =>
    injection hw with hw
    rw [← hw]
    exact ctlEq_onClass h clazz _ (fun c => ⟨rfl, rfl⟩)
  | contents array i =>
    injection hw with hw
    rw [← hw]
    exact ctlEq_onArray h array _ (fun r => ⟨rfl, rfl⟩)

theorem preserves_overwrite {σ : Type} (new : Slot → Option Addr)
    (hclazz : ∀ obj, new (Slot.byteOffset obj 0) = none)
    (hsuper : ∀ obj, new (Slot.super obj) = none) :
    Preserves (overwrite new : Visitor σ) := by
  intro ref w
  unfold overwrite
  cases hn : new ref with
  | none => exact CtlEq.refl _
  | some val =>
    cases hw : writeSlot w.1 ref val with
    | none => simp only [hw]; exact CtlEq.refl _
    | some h' =>
      simp only [hw]
      apply ctlEq_writeSlot w.1 h' ref val _ _ hw
      · intro obj e
        rw [e, hclazz] at hn
        cases hn
      · intro obj e
        rw [e, hsuper] at hn
        cases hn

/-! ### What each routine hands out -/

theorem ifieldLoop_noWrite {σ : Type} (obj clazz : Addr) (c : ClassObject) :
    ∀ (fuel i : Nat) (field : List InstField) (st : St σ),
      getClass st.heap clazz = some c →
      (c.ifieldRefCount - i).toNat ≤ field.length →
      (c.ifieldRefCount - i).toNat < fuel →
      ifieldLoop noWrite obj clazz fuel i field st =
        some (emit ((field.take (c.ifieldRefCount - i).toNat).map
          (fun f => Slot.byteOffset obj f.byteOffset)) st) := by
  intro fuel
  induction fuel with
  | zero => intro i field st _ _ h; omega
  | succ fuel ih =>
    intro i field st hc hlen hfuel
    simp only [ifieldLoop, hc, Option.bind_eq_bind, Option.some_bind]
    by_cases hlt : (i : Int) < c.ifieldRefCount
    · have hn : (c.ifieldRefCount - i).toNat = (c.ifieldRefCount - ((i + 1 : Nat) : Int)).toNat + 1 := by
        omega
      cases field with
      | nil => simp at hlen; omega
      | cons f rest =>
        simp only [hlt, if_true, visit_noWrite]
        rw [ih (i + 1) rest (emit _ st) (by simpa [emit_heap] using hc)
          (by simp at hlen; omega) (by omega), emit_emit, hn]
        simp
    · have hn : (c.ifieldRefCount - i).toNat = 0 := by omega
      simp [hlt, hn, emit_nil]

theorem superLoop_noWrite {σ : Type} (n : Nat) (obj : Addr) :
    ∀ (fuel : Nat) (clazz : Addr) (cs : List ClassObject) (st : St σ),
      IsChain st.heap clazz cs →
      (∀ c ∈ cs, c.ifieldRefCount ≤ c.ifields.length ∧ c.ifieldRefCount.toNat < n) →
      cs.length < fuel →
      superLoop n noWrite obj fuel clazz st =
        some (emit ((chainOffsets cs).map (Slot.byteOffset obj)) st) := by
  intro fuel
  induction fuel with
  | zero => intro clazz cs st _ _ h; omega
  | succ fuel ih =>
    intro clazz cs st hch hwf hfuel
    cases cs with
    | nil =>
      have : clazz = 0 := hch
      simp [superLoop, this, chainOffsets, emit_nil]
    | cons c rest =>
      obtain ⟨hne, hc, hrest⟩ := hch
      have hw := hwf c (by simp)
      simp only [superLoop, bne_iff_ne, ne_eq, hne, not_false_eq_true, if_true,
        Option.bind_eq_bind, hc, Option.some_bind]
      rw [ifieldLoop_noWrite obj clazz c n 0 c.ifields st hc (by simp; omega) (by simp; omega)]
      simp only [Option.some_bind, emit_heap, hc]
      rw [ih c.super rest (emit _ st) (by simpa [emit_heap] using hrest)
        (fun d hd => hwf d (by simp [hd])) (by simp at hfuel; omega), emit_emit]
      simp [chainOffsets, refFields, List.flatMap_cons, Function.comp_def]

theorem visitInstanceFields_bitmap {σ : Type} (env : Env) (fuel : Nat) (v : Visitor σ)
    (obj clazz : Addr) (c : ClassObject) (st : St σ)
    (hobj : clazzOf st.heap obj = some clazz) (hcls : getClass st.heap clazz = some c)
    (hne : c.refOffsets ≠ env.CLASS_WALK_SUPER) (h32 : c.refOffsets < 2 ^ 32)
    (hfuel : 32 ≤ fuel) :
    visitInstanceFields env fuel v obj st =
      some (visitAll v ((bitmapOffsets env c.refOffsets).map (Slot.byteOffset obj)) st) := by
  have hb : (c.refOffsets != env.CLASS_WALK_SUPER) = true := by simpa using hne
  simp only [visitInstanceFields, hobj, hcls, Option.bind_eq_bind, Option.some_bind, hb, if_true]
  rw [bitmapLoop_eq env v obj 32 (le_refl _) fuel _ st h32,
    if_pos (le_trans (bitsBelow_length_le 32 _) hfuel), bitsBelow_map]

theorem visitInstanceFields_walk_noWrite {σ : Type} (env : Env) (fuel : Nat)
    (obj clazz : Addr) (c : ClassObject) (cs : List ClassObject) (st : St σ)
    (hobj : clazzOf st.heap obj = some clazz) (hcls : getClass st.heap clazz = some c)
    (hws : c.refOffsets = env.CLASS_WALK_SUPER) (hch : IsChain st.heap clazz cs)
    (hwf : ∀ d ∈ cs, d.ifieldRefCount ≤ d.ifields.length ∧ d.ifieldRefCount.toNat < fuel)
    (hfuel : cs.length < fuel) :
    visitInstanceFields env fuel noWrite obj st =
      some (emit ((chainOffsets cs).map (Slot.byteOffset obj)) st) := by
  simp only [visitInstanceFields, hobj, hcls, Option.bind_eq_bind, Option.some_bind, hws,
    bne_self_eq_false, Bool.false_eq_true, if_false]
  exact superLoop_noWrite fuel obj fuel clazz cs st hch hwf hfuel

theorem visitInstanceFields_walk {σ : Type} (env : Env) (fuel : Nat) (v : Visitor σ)
    (hv : Preserves v) (obj clazz : Addr) (c : ClassObject) (cs : List ClassObject) (st : St σ)
    (hobj : clazzOf st.heap obj = some clazz) (hcls : getClass st.heap clazz = some c)
    (hws : c.refOffsets = env.CLASS_WALK_SUPER) (hch : IsChain st.heap clazz cs)
    (hwf : ∀ d ∈ cs, d.ifieldRefCount ≤ d.ifields.length ∧ d.ifieldRefCount.toNat < fuel)
    (hfuel : cs.length < fuel) :
    ∃ st', visitInstanceFields env fuel v obj st = some st' ∧
      st'.trace = st.trace ++ (chainOffsets cs).map (Slot.byteOffset obj) ∧
      CtlEq st'.heap st.heap := by
  have hrel := visitInstanceFields_rel (hv.joint (preserves_noWrite : Preserves (noWrite : Visitor σ)))
    (fun _ _ e => e.instEq) env fuel obj st st (stRel_refl st)
  rw [visitInstanceFields_walk_noWrite env fuel obj clazz c cs st hobj hcls hws hch hwf hfuel] at hrel
  obtain ⟨a, ha, hr⟩ := hrel.of_some_right
  exact ⟨a, ha, by rw [hr.2]; rfl, hr.1⟩

theorem InstLayout.run {σ : Type} {env : Env} {fuel : Nat} {h : Heap} {clazz : Addr}
    {offs : List Nat} (hl : InstLayout env fuel h clazz offs) (obj : Addr) (st : St σ)
    (hst : st.heap = h) (hobj : clazzOf h obj = some clazz) :
    visitInstanceFields env fuel noWrite obj st =
      some (emit (offs.map (Slot.byteOffset obj)) st) := by
  subst hst
  cases hl with
  | bitmap c hcls hne h32 hfuel =>
    rw [visitInstanceFields_bitmap env fuel noWrite obj clazz c st hobj hcls hne h32 hfuel,
      visitAll_noWrite]
  | walk c cs hcls hws hch hwf hfuel =>
    exact visitInstanceFields_walk_noWrite env fuel obj clazz c cs st hobj hcls hws hch hwf hfuel

theorem InstLayout.sibling {env : Env} {fuel : Nat} {h : Heap} {clazz1 clazz2 : Addr}
    {c1 c2 : ClassObject} {offs : List Nat} (hl : InstLayout env fuel h clazz1 offs)
    (h1 : getClass h clazz1 = some c1) (h2 : getClass h clazz2 = some c2)
    (hnz1 : clazz1 ≠ 0) (hnz : clazz2 ≠ 0)
    (hro : c2.refOffsets = c1.refOffsets) (hif : c2.ifields = c1.ifields)
    (hic : c2.ifieldRefCount = c1.ifieldRefCount) (hsu : c2.super = c1.super) :
    InstLayout env fuel h clazz2 offs := by
  cases hl with
  | bitmap c hcls hne h32 hfuel =>
    have hc : c = c1 := by rw [h1] at hcls; injection hcls with e; exact e.symm
    subst hc
    rw [← hro]
    exact InstLayout.bitmap c2 h2 (by rw [hro]; exact hne) (by rw [hro]; exact h32) hfuel
  | walk c cs hcls hws hch hwf hfuel =>
    have hc : c = c1 := by rw [h1] at hcls; injection hcls with e; exact e.symm
    subst hc
    cases cs with
    | nil => exact absurd hch hnz1
    | cons d rest =>
      obtain ⟨hne, hd, hrest⟩ := hch
      have hdc : d = c := by rw [hcls] at hd; injection hd with e; exact e.symm
      subst hdc
      have hoffs : chainOffsets (d :: rest) = chainOffsets (c2 :: rest) := by
        simp [chainOffsets, refFields, hif, hic]
      rw [hoffs]
      refine InstLayout.walk c2 (c2 :: rest) h2 (by rw [hro]; exact hws)
        ⟨hnz, h2, by rw [hsu]; exact hrest⟩ ?_ (by simpa using hfuel)
      intro e he
      rcases List.mem_cons.1 he with rfl | hmem
      · rw [hif, hic]; exact hwf d (by simp)
      · exact hwf e (by simp [hmem])

theorem headD_eq_iff (l : List Char) (ch : Char) (hch : ch ≠ Char.ofNat 0) :
    (l.headD (Char.ofNat 0) == ch) = (l.head? == some ch) := by
  cases l with
  | nil =>
    have : (Char.ofNat 0 == ch) = false := by
      simpa using fun h => hch h.symm
    simp [this]
  | cons a l => simp

theorem sfieldLoop_noWrite {σ : Type} (clazz : Addr) (c : ClassObject) :
    ∀ (fuel i : Nat) (st : St σ),
      getClass st.heap clazz = some c →
      c.sfieldCount ≤ c.sfields.length →
      c.sfieldCount.toNat - i < fuel →
      sfieldLoop noWrite clazz fuel i st =
        some (emit (((List.range' i (c.sfieldCount.toNat - i)).filter
          (fun j => (c.sfields[j]?).any (fun sf => isRefSignature sf.field))).map
          (Slot.sfieldValue clazz)) st) := by
  intro fuel
  induction fuel with
  | zero => intro i st _ _ h; omega
  | succ fuel ih =>
    intro i st hc hlen hfuel
    simp only [sfieldLoop, hc, Option.bind_eq_bind, Option.some_bind]
    by_cases hlt : (i : Int) < c.sfieldCount
    · have hi : i < c.sfields.length := by omega
      have hn : c.sfieldCount.toNat - i = (c.sfieldCount.toNat - (i + 1)) + 1 := by omega
      have hget : c.sfields[i]? = some c.sfields[i] := List.getElem?_eq_getElem hi
      simp only [hlt, if_true, hget, Option.some_bind]
      rw [hn, List.range'_succ, List.filter_cons]
      have hsig : (c.sfields[i].field.signature.data.headD (Char.ofNat 0) == '[' ||
          c.sfields[i].field.signature.data.headD (Char.ofNat 0) == 'L')
          = isRefSignature c.sfields[i].field := by
        rw [headD_eq_iff _ _ (by decide), headD_eq_iff _ _ (by decide)]
        rfl
      rw [hsig]
      simp only [hget, Option.any_some]
      cases hr : isRefSignature c.sfields[i].field
      · simp only [Bool.false_eq_true, if_false]
        exact ih (i + 1) st hc hlen (by omega)
      · simp only [if_true, visit_noWrite]
        rw [ih (i + 1) (emit _ st) (by simpa [emit_heap] using hc) hlen (by omega), emit_emit]
        simp
    · have hn : c.sfieldCount.toNat - i = 0 := by omega
      simp [hlt, hn, emit_nil]

theorem visitStaticFields_noWrite {σ : Type} (fuel : Nat) (clazz : Addr) (c : ClassObject)
    (st : St σ) (hc : getClass st.heap clazz = some c)
    (hlen : c.sfieldCount ≤ c.sfields.length) (hfuel : c.sfieldCount.toNat < fuel) :
    visitStaticFields fuel noWrite clazz st = some (emit (staticSlots clazz c) st) := by
  unfold visitStaticFields staticSlots
  rw [sfieldLoop_noWrite clazz c fuel 0 st hc hlen (by omega), List.range_eq_range']
  simp

theorem filter_range_any_length {α : Type} (q : α → Bool) (l : List α) :
    ((List.range l.length).filter (fun i => (l[i]?).any q)).length = l.countP q := by
  induction l with
  | nil => simp
  | cons a l ih =>
    rw [List.length_cons, List.range_succ_eq_map, List.filter_cons, List.filter_map,
      List.countP_cons]
    have hcomp : ((fun i => ((a :: l)[i]?).any q) ∘ Nat.succ) = fun i => (l[i]?).any q := by
      funext i
      simp
    rw [hcomp]
    by_cases hq : q a = true
    · simp [hq, ih]
    · simp [hq, ih]

theorem visitStaticFields_of_noWrite {σ : Type} (fuel : Nat) (v : Visitor σ) (hv : Preserves v)
    (clazz : Addr) (c : ClassObject) (h : Heap) (x : σ)
    (hc : getClass h clazz = some c)
    (hlen : c.sfieldCount ≤ c.sfields.length) (hfuel : c.sfieldCount.toNat < fuel) :
    slotsOf (visitStaticFields fuel v clazz) h x = some (staticSlots clazz c) := by
  have hrel := sfieldLoop_rel (hv.joint (preserves_noWrite : Preserves (noWrite : Visitor σ)))
    (fun _ _ e => e) clazz fuel 0 _ _ (stRel_refl { heap := h, vst := x, trace := [] })
  have hrun := visitStaticFields_noWrite fuel clazz c { heap := h, vst := x, trace := [] } hc
    hlen hfuel
  unfold visitStaticFields at hrun
  rw [hrun] at hrel
  obtain ⟨a, ha, hr⟩ := hrel.of_some_right
  have : slotsOf (visitStaticFields fuel v clazz) h x = some a.trace := slotsOf_eq ha
  rw [this, hr.2]
  rfl

theorem interfaceLoop_noWrite {σ : Type} (clazz : Addr) (c : ClassObject) :
    ∀ (fuel i : Nat) (st : St σ),
      getClass st.heap clazz = some c →
      c.interfaceCount.toNat - i < fuel →
      interfaceLoop noWrite clazz fuel i st =
        some (emit ((List.range' i (c.interfaceCount.toNat - i)).map (Slot.interfaces clazz)) st) := by
  intro fuel
  induction fuel with
  | zero => intro i st _ h; omega
  | succ fuel ih =>
    intro i st hc hfuel
    simp only [interfaceLoop, hc, Option.bind_eq_bind, Option.some_bind]
    by_cases hlt : (i : Int) < c.interfaceCount
    · have hn : c.interfaceCount.toNat - i = (c.interfaceCount.toNat - (i + 1)) + 1 := by omega
      simp only [hlt, if_true, visit_noWrite]
      rw [ih (i + 1) (emit _ st) (by simpa [emit_heap] using hc) (by omega), emit_emit, hn,
        List.range'_succ]
      simp
    · have hn : c.interfaceCount.toNat - i = 0 := by omega
      simp [hlt, hn, emit_nil]

theorem visitInterfaces_noWrite {σ : Type} (fuel : Nat) (clazz : Addr) (c : ClassObject)
    (st : St σ) (hc : getClass st.heap clazz = some c) (hfuel : c.interfaceCount.toNat < fuel) :
    visitInterfaces fuel noWrite clazz st = some (emit (interfaceSlots clazz c) st) := by
  unfold visitInterfaces interfaceSlots
  rw [interfaceLoop_noWrite clazz c fuel 0 st hc (by omega), List.range_eq_range']
  simp

theorem contentsLoop_noWrite {σ : Type} (obj : Addr) (a : ArrayObject) :
    ∀ (fuel i : Nat) (st : St σ),
      getArray st.heap obj = some a →
      a.length - i < fuel →
      contentsLoop noWrite obj fuel i st =
        some (emit ((List.range' i (a.length - i)).map (Slot.contents obj)) st) := by
  intro fuel
  induction fuel with
  | zero => intro i st _ h; omega
  | succ fuel ih =>
    intro i st hc hfuel
    simp only [contentsLoop, hc, Option.bind_eq_bind, Option.some_bind]
    by_cases hlt : i < a.length
    · have hn : a.length - i = (a.length - (i + 1)) + 1 := by omega
      simp only [hlt, if_true, visit_noWrite]
      rw [ih (i + 1) (emit _ st) (by simpa [emit_heap] using hc) (by omega), emit_emit, hn,
        List.range'_succ]
      simp
    · have hn : a.length - i = 0 := by omega
      simp [hlt, hn, emit_nil]

theorem clazzOf_of_getClass {h : Heap} {a : Addr} {c : ClassObject}
    (hc : getClass h a = some c) : clazzOf h a = some c.obj.clazz := by
  unfold getClass at hc
  unfold clazzOf
  split at hc <;> simp_all

theorem visitArrayObject_noWrite_objects {σ : Type} (env : Env) (fuel : Nat) (obj clazz : Addr)
    (c : ClassObject) (a : ArrayObject) (st : St σ)
    (hobj : clazzOf st.heap obj = some clazz) (hcls : getClass st.heap clazz = some c)
    (harr : getArray st.heap obj = some a) (hfuel : a.length < fuel) :
    visitArrayObject env fuel noWrite obj st = some (emit (arraySlots env obj c a) st) := by
  simp only [visitArrayObject, visit_noWrite, emit_heap, hobj, hcls, Option.bind_eq_bind,
    Option.some_bind, arraySlots]
  split
  · rw [contentsLoop_noWrite obj a fuel 0 _ (by simpa [emit_heap] using harr) (by omega),
      emit_emit, contentSlots, List.range_eq_range']
    simp
  · simp

theorem visitArrayObject_noWrite_primitive {σ : Type} (env : Env) (fuel : Nat)
    (obj clazz : Addr) (c : ClassObject) (st : St σ)
    (hobj : clazzOf st.heap obj = some clazz) (hcls : getClass st.heap clazz = some c)
    (hflag : IS_CLASS_FLAG_SET c.accessFlags env.CLASS_ISOBJECTARRAY = false) :
    visitArrayObject env fuel noWrite obj st = some (emit [Slot.byteOffset obj 0] st) := by
  simp [visitArrayObject, visit_noWrite, emit_heap, hobj, hcls, hflag]

theorem dvmVisitObject_array_noWrite {σ : Type} (env : Env) (fuel : Nat) (obj clazz : Addr)
    (c : ClassObject) (a : ArrayObject) (st : St σ)
    (hobj : clazzOf st.heap obj = some clazz) (hne : clazz ≠ env.classJavaLangClass)
    (hcls : getClass st.heap clazz = some c)
    (hflag : IS_CLASS_FLAG_SET c.accessFlags env.CLASS_ISARRAY = true)
    (harr : getArray st.heap obj = some a) (hfuel : a.length < fuel) :
    dvmVisitObject env fuel noWrite obj st = some (emit (arraySlots env obj c a) st) := by
  have hb : (clazz == env.classJavaLangClass) = false := by simpa using hne
  simp only [dvmVisitObject, hobj, Option.bind_eq_bind, Option.some_bind, hb,
    Bool.false_eq_true, if_false, hcls, hflag, if_true]
  exact visitArrayObject_noWrite_objects env fuel obj clazz c a st hobj hcls harr hfuel

theorem visitDataObject_noWrite {σ : Type} (env : Env) (fuel : Nat) (obj clazz : Addr)
    (c : ClassObject) (offs : List Nat) (st : St σ)
    (hobj : clazzOf st.heap obj = some clazz) (hcls : getClass st.heap clazz = some c)
    (hl : InstLayout env fuel st.heap clazz offs) :
    visitDataObject env fuel noWrite obj st = some (emit (dataSlots env obj c offs) st) := by
  simp only [visitDataObject, visit_noWrite, Option.bind_eq_bind]
  rw [hl.run obj (emit [Slot.byteOffset obj 0] st) rfl hobj]
  simp only [Option.some_bind, emit_heap, hobj, hcls, emit_emit, dataSlots]
  split <;> simp [visit_noWrite, emit_emit]

theorem visitDataObject_of_noWrite {σ : Type} (env : Env) (fuel : Nat) (v : Visitor σ)
    (hv : Preserves v) (obj clazz : Addr) (c : ClassObject) (offs : List Nat) (h : Heap) (x : σ)
    (hobj : clazzOf h obj = some clazz) (hcls : getClass h clazz = some c)
    (hl : InstLayout env fuel h clazz offs) :
    slotsOf (visitDataObject env fuel v obj) h x = some (dataSlots env obj c offs) :=
  slotsOf_lift _ _
    (fun st1 st2 r => visitDataObject_rel (hv.joint preserves_noWrite) (fun _ _ e => e)
      env fuel obj st1 st2 r) h x _
    (visitDataObject_noWrite env fuel obj clazz c offs _ hobj hcls hl)

theorem visitClassObject_noWrite {σ : Type} (env : Env) (fuel : Nat) (obj : Addr)
    (k : ClassObject) (offs : List Nat) (st : St σ)
    (hk : getClass st.heap obj = some k)
    (hl : InstLayout env fuel st.heap k.obj.clazz offs)
    (hlen : k.sfieldCount ≤ k.sfields.length) (hsf : k.sfieldCount.toNat < fuel)
    (hif : k.status > env.CLASS_IDX → k.interfaceCount.toNat < fuel) :
    visitClassObject env fuel noWrite obj st = some (emit (classSlots env obj k offs) st) := by
  have hobj := clazzOf_of_getClass hk
  simp only [visitClassObject, visit_noWrite, Option.bind_eq_bind, emit_heap, hk,
    Option.some_bind]
  have e2 : (if IS_CLASS_FLAG_SET k.accessFlags env.CLASS_ISARRAY = true then
        emit [Slot.elementClass obj] (emit [Slot.byteOffset obj 0] st)
      else emit [Slot.byteOffset obj 0] st)
      = emit ([Slot.byteOffset obj 0] ++
        (if IS_CLASS_FLAG_SET k.accessFlags env.CLASS_ISARRAY then [Slot.elementClass obj]
          else [])) st := by
    split <;> simp [emit_emit]
  rw [e2]
  simp only [emit_heap, hk, Option.some_bind]
  have e3 : ∀ (l : List Slot), (if k.status > env.CLASS_IDX then
        emit [Slot.super obj] (emit l st) else emit l st)
      = emit (l ++ (if k.status > env.CLASS_IDX then [Slot.super obj] else [])) st := by
    intro l
    split <;> simp [emit_emit]
  rw [e3, emit_emit, hl.run obj (emit _ st) rfl hobj]
  simp only [Option.some_bind, emit_emit]
  rw [visitStaticFields_noWrite fuel obj k _ (by simpa [emit_heap] using hk) hlen hsf]
  simp only [Option.some_bind, emit_emit, emit_heap, hk, classSlots]
  by_cases hs : k.status > env.CLASS_IDX
  · simp only [hs, if_true]
    rw [visitInterfaces_noWrite fuel obj k _ (by simpa [emit_heap] using hk) (hif hs), emit_emit]
  · simp [hs]

theorem dvmVisitObject_class_noWrite {σ : Type} (env : Env) (fuel : Nat) (obj : Addr)
    (k : ClassObject) (offs : List Nat) (st : St σ)
    (hk : getClass st.heap obj = some k) (hJ : k.obj.clazz = env.classJavaLangClass)
    (hl : InstLayout env fuel st.heap k.obj.clazz offs)
    (hlen : k.sfieldCount ≤ k.sfields.length) (hsf : k.sfieldCount.toNat < fuel)
    (hif : k.status > env.CLASS_IDX → k.interfaceCount.toNat < fuel) :
    dvmVisitObject env fuel noWrite obj st = some (emit (classSlots env obj k offs) st) := by
  have hobj := clazzOf_of_getClass hk
  simp only [dvmVisitObject, hobj, Option.bind_eq_bind, Option.some_bind, hJ, beq_self_eq_true,
    if_true]
  exact visitClassObject_noWrite env fuel obj k offs st hk hl hlen hsf hif

theorem dvmVisitObject_class {σ : Type} (env : Env) (fuel : Nat) (v : Visitor σ)
    (hv : Preserves v) (obj : Addr) (k : ClassObject) (offs : List Nat) (h : Heap) (x : σ)
    (hk : getClass h obj = some k) (hJ : k.obj.clazz = env.classJavaLangClass)
    (hl : InstLayout env fuel h k.obj.clazz offs)
    (hlen : k.sfieldCount ≤ k.sfields.length) (hsf : k.sfieldCount.toNat < fuel)
    (hif : k.status > env.CLASS_IDX → k.interfaceCount.toNat < fuel) :
    slotsOf (dvmVisitObject env fuel v obj) h x = some (classSlots env obj k offs) :=
  slotsOf_lift _ _
    (fun st1 st2 r => dvmVisitObject_rel (hv.joint preserves_noWrite) (fun _ _ e => e)
      env fuel obj st1 st2 r) h x _
    (dvmVisitObject_class_noWrite env fuel obj k offs _ hk hJ hl hlen hsf hif)

theorem super_mem_classSlots (env : Env) (obj : Addr) (k : ClassObject) (offs : List Nat)
    (hs : k.status > env.CLASS_IDX) :
    Slot.super obj ∈ classSlots env obj k offs ∧
      ∀ i : Nat, (i : Int) < k.interfaceCount →
        Slot.interfaces obj i ∈ classSlots env obj k offs := by
  constructor
  · simp [classSlots, hs]
  · intro i hi
    simp [classSlots, hs, interfaceSlots, hi]

/-! ### Class objects whose own fields are rewritten -/

theorem IsChain_unique (h : Heap) :
    ∀ (cs cs' : List ClassObject) (a : Addr), IsChain h a cs → IsChain h a cs' → cs = cs' := by
  intro cs
  induction cs with
  | nil =>
    intro cs' a h1 h2
    cases cs' with
    | nil => rfl
    | cons c rest => exact absurd h1 h2.1
  | cons c rest ih =>
    intro cs' a h1 h2
    cases cs' with
    | nil => exact absurd h2 h1.1
    | cons c' rest' =>
      have hc : c = c' := by
        have := h1.2.1.symm.trans h2.2.1
        injection this
      subst hc
      rw [ih rest' c.super h1.2.2 h2.2.2]

theorem getClass_setObject_ne (h : Heap) (a b : Addr) (o : HeapObject) (hne : b ≠ a) :
    getClass (setObject h a o) b = getClass h b := by
  simp [getClass, setObject, hne]

theorem getClass_setObject_self (h : Heap) (a : Addr) (c : ClassObject) :
    getClass (setObject h a (.classObject c)) a = some c := by
  simp [getClass, setObject]

theorem IsChain_setObject (h : Heap) (obj : Addr) (o : HeapObject) :
    ∀ (cs : List ClassObject) (a : Addr), IsChain h a cs → obj ∉ chainAddrs a cs →
      IsChain (setObject h obj o) a cs := by
  intro cs
  induction cs with
  | nil => intro a hch _; exact hch
  | cons c rest ih =>
    intro a hch hnot
    obtain ⟨hne, hc, hrest⟩ := hch
    simp only [chainAddrs, List.mem_cons, not_or] at hnot
    refine ⟨hne, ?_, ih c.super hrest hnot.2⟩
    rw [getClass_setObject_ne h obj a o (fun e => hnot.1 e.symm)]
    exact hc

theorem InstLayout_setObject {env : Env} {fuel : Nat} {h : Heap} {obj clazz : Addr}
    {k k' : ClassObject} {offs : List Nat} (hl : InstLayout env fuel h clazz offs)
    (hk : getClass h obj = some k) (hro : k'.refOffsets = k.refOffsets)
    (hoff : ∀ m cs, getClass h clazz = some m → m.refOffsets = env.CLASS_WALK_SUPER →
      IsChain h clazz cs → obj ∉ chainAddrs clazz cs) :
    InstLayout env fuel (setObject h obj (.classObject k')) clazz offs := by
  cases hl with
  | bitmap m hcls hne h32 hfuel =>
    by_cases he : clazz = obj
    · subst he
      have hm : m = k := by rw [hk] at hcls; injection hcls with e; exact e.symm
      subst hm
      rw [← hro]
      exact InstLayout.bitmap k' (getClass_setObject_self h clazz k') (by rw [hro]; exact hne)
        (by rw [hro]; exact h32) hfuel
    · exact InstLayout.bitmap m (by rw [getClass_setObject_ne h obj clazz _ he]; exact hcls)
        hne h32 hfuel
  | walk m cs hcls hws hch hwf hfuel =>
    have hnot := hoff m cs hcls hws hch
    have hch' := IsChain_setObject h obj (.classObject k') cs clazz hch hnot
    by_cases he : clazz = obj
    · subst he
      have hm : m = k := by rw [hk] at hcls; injection hcls with e; exact e.symm
      subst hm
      exact InstLayout.walk k' cs (getClass_setObject_self h clazz k') (by rw [hro]; exact hws)
        hch' hwf hfuel
    · exact InstLayout.walk m cs (by rw [getClass_setObject_ne h obj clazz _ he]; exact hcls)
        hws hch' hwf hfuel

/-! ### Distinct slots -/

theorem nodup_map_byteOffset (obj : Addr) (offs : List Nat) (hnd : offs.Nodup) :
    (offs.map (Slot.byteOffset obj)).Nodup :=
  List.Nodup.map (fun _ _ hab => (Slot.byteOffset.inj hab).2) hnd

theorem nodup_staticSlots (clazz : Addr) (c : ClassObject) : (staticSlots clazz c).Nodup := by
  unfold staticSlots
  apply List.Nodup.map
  · intro a b hab
    injection hab
  · exact (List.nodup_range _).filter _

theorem nodup_interfaceSlots (clazz : Addr) (c : ClassObject) :
    (interfaceSlots clazz c).Nodup := by
  unfold interfaceSlots
  apply List.Nodup.map
  · intro a b hab
    injection hab
  · exact List.nodup_range _

theorem nodup_contentSlots (obj : Addr) (a : ArrayObject) : (contentSlots obj a).Nodup := by
  unfold contentSlots
  apply List.Nodup.map
  · intro a b hab
    injection hab
  · exact List.nodup_range _

theorem nodup_arraySlots (env : Env) (obj : Addr) (c : ClassObject) (a : ArrayObject) :
    (arraySlots env obj c a).Nodup := by
  unfold arraySlots
  split
  · rw [List.nodup_append]
    refine ⟨by simp, nodup_contentSlots obj a, ?_⟩
    intro s hs hs'
    simp [contentSlots] at hs hs'
    obtain ⟨i, _, rfl⟩ := hs'
    cases hs
  · simp

theorem nodup_dataSlots (env : Env) (obj : Addr) (c : ClassObject) (offs : List Nat)
    (hnd : offs.Nodup) (h0 : 0 ∉ offs)
    (href : IS_CLASS_FLAG_SET c.accessFlags env.CLASS_ISREFERENCE = true →
      env.offJavaLangRefReference_referent ∉ 0 :: offs) :
    (dataSlots env obj c offs).Nodup := by
  have hbase : ([Slot.byteOffset obj 0] ++ offs.map (Slot.byteOffset obj)).Nodup := by
    have : (0 :: offs).Nodup := List.nodup_cons.2 ⟨h0, hnd⟩
    simpa using nodup_map_byteOffset obj (0 :: offs) this
  unfold dataSlots
  split
  · rename_i hflag
    have hr := href hflag
    rw [List.nodup_append]
    refine ⟨hbase, by simp, ?_⟩
    intro s hs hs'
    simp only [List.mem_singleton] at hs'
    subst hs'
    simp only [List.singleton_append, List.mem_cons, List.mem_map, Slot.byteOffset.injEq,
      true_and, exists_eq_right] at hs
    simp only [List.mem_cons, not_or] at hr
    rcases hs with hs | hs
    · exact hr.1 hs
    · exact hr.2 hs
  · simpa using hbase

theorem nodup_of_pairwise_lt {l : List Nat} (h : l.Pairwise (fun a b => a < b)) : l.Nodup :=
  h.imp (fun hab => Nat.ne_of_lt hab)

theorem InstLayout.nodup {env : Env} {fuel : Nat} {h : Heap} {clazz : Addr} {c : ClassObject}
    {offs : List Nat} (hl : InstLayout env fuel h clazz offs) (hcls : getClass h clazz = some c)
    (hwalk : c.refOffsets = env.CLASS_WALK_SUPER → offs.Nodup) : offs.Nodup := by
  cases hl with
  | bitmap d hd hne h32 hfuel => exact nodup_of_pairwise_lt (bitmapOffsets_pairwise env _)
  | walk d cs hd hws hch hwf hfuel =>
    have hdc : d = c := by rw [hcls] at hd; injection hd with e; exact e.symm
    subst hdc
    exact hwalk hws

theorem mem_ite_singleton {α : Type} {p : Prop} [Decidable p] {a s : α}
    (h : s ∈ (if p then [a] else [])) : s = a := by
  split at h
  · simpa using h
  · cases h

theorem nodup_class_shape (obj : Addr) (offs : List Nat) (hnd : offs.Nodup) (h0 : 0 ∉ offs)
    (l1 l2 l3 : List Slot) (n1 : l1.Nodup)
    (m1 : ∀ s ∈ l1, s = Slot.byteOffset obj 0 ∨ s = Slot.elementClass obj ∨
      s = Slot.super obj ∨ s = Slot.classLoader obj)
    (n2 : l2.Nodup) (m2 : ∀ s ∈ l2, ∃ i, s = Slot.sfieldValue obj i)
    (n3 : l3.Nodup) (m3 : ∀ s ∈ l3, ∃ i, s = Slot.interfaces obj i) :
    (l1 ++ offs.map (Slot.byteOffset obj) ++ l2 ++ l3).Nodup := by
  have hfields : ∀ s ∈ offs.map (Slot.byteOffset obj),
      ∃ off, off ≠ 0 ∧ s = Slot.byteOffset obj off := by
    intro s hs
    obtain ⟨off, hoff, rfl⟩ := List.mem_map.1 hs
    exact ⟨off, fun e => h0 (e ▸ hoff), rfl⟩
  rw [List.nodup_append]
  refine ⟨?_, n3, ?_⟩
  · rw [List.nodup_append]
    refine ⟨?_, n2, ?_⟩
    · rw [List.nodup_append]
      refine ⟨n1, nodup_map_byteOffset obj offs hnd, ?_⟩
      intro s hs hs'
      obtain ⟨off, hoff, rfl⟩ := hfields s hs'
      rcases m1 _ hs with e | e | e | e
      · injection e with _ e'; exact hoff e'
      · cases e
      · cases e
      · cases e
    · intro s hs hs'
      obtain ⟨i, rfl⟩ := m2 s hs'
      rcases List.mem_append.1 hs with hs | hs
      · rcases m1 _ hs with e | e | e | e <;> cases e
      · obtain ⟨off, _, e⟩ := hfields _ hs
        cases e
  · intro s hs hs'
    obtain ⟨i, rfl⟩ := m3 s hs'
    rcases List.mem_append.1 hs with hs | hs
    · rcases List.mem_append.1 hs with hs | hs
      · rcases m1 _ hs with e | e | e | e <;> cases e
      · obtain ⟨off, _, e⟩ := hfields _ hs
        cases e
    · obtain ⟨j, e⟩ := m2 _ hs
      cases e

theorem sfieldLoop_noWrite_inv {σ : Type} (clazz : Addr) :
    ∀ (fuel i : Nat) (st st' : St σ), sfieldLoop noWrite clazz fuel i st = some st' →
      ∃ l : List Nat, st' = emit (l.map (Slot.sfieldValue clazz)) st ∧
        l.Pairwise (fun a b => a < b) ∧ ∀ j ∈ l, i ≤ j := by
  intro fuel
  induction fuel with
  | zero => intro i st st' h; simp [sfieldLoop] at h
  | succ fuel ih =>
    intro i st st' h
    simp only [sfieldLoop, Option.bind_eq_bind] at h
    cases hc : getClass st.heap clazz with
    | none => simp [hc] at h
    | some c =>
      simp only [hc, Option.some_bind] at h
      split at h
      · cases hs : c.sfields[i]? with
        | none => simp [hs] at h
        | some sf =>
          simp only [hs, Option.some_bind] at h
          split at h
          · obtain ⟨l, hl, hp, hge⟩ := ih _ _ _ h
            refine ⟨i :: l, ?_, ?_, ?_⟩
            · rw [hl, visit_noWrite, emit_emit]; rfl
            · exact List.pairwise_cons.2 ⟨fun j hj => hge j hj, hp⟩
            · intro j hj
              rcases List.mem_cons.1 hj with rfl | hj
              · exact le_refl _
              · exact le_trans (Nat.le_succ i) (hge j hj)
          · obtain ⟨l, hl, hp, hge⟩ := ih _ _ _ h
            exact ⟨l, hl, hp, fun j hj => le_trans (Nat.le_succ i) (hge j hj)⟩
      · injection h with h
        exact ⟨[], by rw [← h]; exact (emit_nil st).symm, List.Pairwise.nil, by simp⟩

/-! ### Runs do not depend on what was handed out before -/

theorem prepend_heap {σ : Type} (p : List Slot) (st : St σ) : (prepend p st).heap = st.heap := rfl

theorem visit_prepend {σ : Type} (v : Visitor σ) (p : List Slot) (s : Slot) (st : St σ) :
    visit v s (prepend p st) = prepend p (visit v s st) := by
  simp [visit, prepend]

theorem emit_eq_prepend {σ : Type} (l : List Slot) (st : St σ) (htr : st.trace = []) :
    emit l st = prepend l st := by
  simp [emit, prepend, htr]

theorem prepend_emit {σ : Type} (p l : List Slot) (st : St σ) (htr : st.trace = []) :
    prepend p (emit l st) = emit (p ++ l) st := by
  simp [emit, prepend, htr]

theorem bitmapLoop_prepend {σ : Type} (env : Env) (v : Visitor σ) (obj : Addr) (p : List Slot) :
    ∀ (fuel x : Nat) (st : St σ),
      bitmapLoop env v obj fuel x (prepend p st) = (bitmapLoop env v obj fuel x st).map (prepend p) := by
  intro fuel
  induction fuel with
  | zero => intro x st; by_cases hx : x = 0 <;> simp [bitmapLoop, hx]
  | succ fuel ih =>
    intro x st
    by_cases hx : x = 0
    · simp [bitmapLoop, hx]
    · simp only [bitmapLoop, bne_iff_ne, ne_eq, hx, not_false_eq_true, if_true, visit_prepend, ih]

theorem ifieldLoop_prepend {σ : Type} (v : Visitor σ) (obj clazz : Addr) (p : List Slot) :
    ∀ (fuel i : Nat) (field : List InstField) (st : St σ),
      ifieldLoop v obj clazz fuel i field (prepend p st)
        = (ifieldLoop v obj clazz fuel i field st).map (prepend p) := by
  intro fuel
  induction fuel with
  | zero => intro i field st; simp [ifieldLoop]
  | succ fuel ih =>
    intro i field st
    simp only [ifieldLoop, prepend_heap, Option.bind_eq_bind]
    cases hc : getClass st.heap clazz with
    | none => simp
    | some c =>
      simp only [Option.some_bind]
      split
      · cases field with
        | nil => simp
        | cons f rest => simp only [visit_prepend, ih]
      · simp

theorem superLoop_prepend {σ : Type} (n : Nat) (v : Visitor σ) (obj : Addr) (p : List Slot) :
    ∀ (fuel : Nat) (clazz : Addr) (st : St σ),
      superLoop n v obj fuel clazz (prepend p st)
        = (superLoop n v obj fuel clazz st).map (prepend p) := by
  intro fuel
  induction fuel with
  | zero => intro clazz st; simp [superLoop]
  | succ fuel ih =>
    intro clazz st
    by_cases hz : clazz = 0
    · simp [superLoop, hz]
    · simp only [superLoop, bne_iff_ne, ne_eq, hz, not_false_eq_true, if_true, prepend_heap,
        Option.bind_eq_bind]
      cases hc : getClass st.heap clazz with
      | none => simp
      | some c =>
        simp only [Option.some_bind, ifieldLoop_prepend]
        cases h1 : ifieldLoop v obj clazz n 0 c.ifields st with
        | none => simp
        | some st1 =>
          simp only [Option.map_some', Option.some_bind, prepend_heap]
          cases hc1 : getClass st1.heap clazz with
          | none => simp
          | some c1 => simp only [Option.some_bind, ih]

theorem visitInstanceFields_prepend {σ : Type} (env : Env) (fuel : Nat) (v : Visitor σ)
    (obj : Addr) (p : List Slot) (st : St σ) :
    visitInstanceFields env fuel v obj (prepend p st)
      = (visitInstanceFields env fuel v obj st).map (prepend p) := by
  simp only [visitInstanceFields, prepend_heap, Option.bind_eq_bind]
  cases hc : clazzOf st.heap obj with
  | none => simp
  | some clazz =>
    simp only [Option.some_bind]
    cases hk : getClass st.heap clazz with
    | none => simp
    | some c =>
      simp only [Option.some_bind]
      split
      · exact bitmapLoop_prepend env v obj p fuel _ st
      · exact superLoop_prepend fuel v obj p fuel clazz st

theorem sfieldLoop_prepend {σ : Type} (v : Visitor σ) (clazz : Addr) (p : List Slot) :
    ∀ (fuel i : Nat) (st : St σ),
      sfieldLoop v clazz fuel i (prepend p st) = (sfieldLoop v clazz fuel i st).map (prepend p) := by
  intro fuel
  induction fuel with
  | zero => intro i st; simp [sfieldLoop]
  | succ fuel ih =>
    intro i st
    simp only [sfieldLoop, prepend_heap, Option.bind_eq_bind]
    cases hc : getClass st.heap clazz with
    | none => simp
    | some c =>
      simp only [Option.some_bind]
      split
      · cases hs : c.sfields[i]? with
        | none => simp
        | some sf =>
          simp only [Option.some_bind]
          split
          · simp only [visit_prepend, ih]
          · simp only [ih]
      · simp

theorem interfaceLoop_prepend {σ : Type} (v : Visitor σ) (clazz : Addr) (p : List Slot) :
    ∀ (fuel i : Nat) (st : St σ),
      interfaceLoop v clazz fuel i (prepend p st)
        = (interfaceLoop v clazz fuel i st).map (prepend p) := by
  intro fuel
  induction fuel with
  | zero => intro i st; simp [interfaceLoop]
  | succ fuel ih =>
    intro i st
    simp only [interfaceLoop, prepend_heap, Option.bind_eq_bind]
    cases hc : getClass st.heap clazz with
    | none => simp
    | some c =>
      simp only [Option.some_bind]
      split
      · simp only [visit_prepend, ih]
      · simp

/-! ### Instance-field runs hand out byte-offset slots of the object only -/

theorem bitmapLoop_noWrite_inv {σ : Type} (env : Env) (obj : Addr) :
    ∀ (fuel x : Nat) (st st' : St σ), bitmapLoop env noWrite obj fuel x st = some st' →
      ∃ l : List Nat, st' = emit (l.map (Slot.byteOffset obj)) st := by
  intro fuel
  induction fuel with
  | zero =>
    intro x st st' h
    by_cases hx : x = 0
    · simp [bitmapLoop, hx] at h
      exact ⟨[], by rw [← h]; exact (emit_nil st).symm⟩
    · simp [bitmapLoop, hx] at h
  | succ fuel ih =>
    intro x st st' h
    by_cases hx : x = 0
    · simp [bitmapLoop, hx] at h
      exact ⟨[], by rw [← h]; exact (emit_nil st).symm⟩
    · simp only [bitmapLoop, bne_iff_ne, ne_eq, hx, not_false_eq_true, if_true,
        visit_noWrite] at h
      obtain ⟨l, hl⟩ := ih _ _ _ h
      exact ⟨CLASS_OFFSET_FROM_CLZ env (CLZ x) :: l, by rw [hl, emit_emit]; rfl⟩

theorem ifieldLoop_noWrite_inv {σ : Type} (obj clazz : Addr) :
    ∀ (fuel i : Nat) (field : List InstField) (st st' : St σ),
      ifieldLoop noWrite obj clazz fuel i field st = some st' →
      ∃ l : List Nat, st' = emit (l.map (Slot.byteOffset obj)) st := by
  intro fuel
  induction fuel with
  | zero => intro i field st st' h; simp [ifieldLoop] at h
  | succ fuel ih =>
    intro i field st st' h
    simp only [ifieldLoop, Option.bind_eq_bind] at h
    cases hc : getClass st.heap clazz with
    | none => simp [hc] at h
    | some c =>
      simp only [hc, Option.some_bind] at h
      split at h
      · cases field with
        | nil => simp at h
        | cons f rest =>
          simp only [visit_noWrite] at h
          obtain ⟨l, hl⟩ := ih _ _ _ _ h
          exact ⟨f.byteOffset :: l, by rw [hl, emit_emit]; rfl⟩
      · injection h with h
        exact ⟨[], by rw [← h]; exact (emit_nil st).symm⟩

theorem superLoop_noWrite_inv {σ : Type} (n : Nat) (obj : Addr) :
    ∀ (fuel : Nat) (clazz : Addr) (st st' : St σ),
      superLoop n noWrite obj fuel clazz st = some st' →
      ∃ l : List Nat, st' = emit (l.map (Slot.byteOffset obj)) st := by
  intro fuel
  induction fuel with
  | zero => intro clazz st st' h; simp [superLoop] at h
  | succ fuel ih =>
    intro clazz st st' h
    by_cases hz : clazz = 0
    · simp [superLoop, hz] at h
      exact ⟨[], by rw [← h]; exact (emit_nil st).symm⟩
    · simp only [superLoop, bne_iff_ne, ne_eq, hz, not_false_eq_true, if_true,
        Option.bind_eq_bind] at h
      obtain ⟨c, _, h⟩ := Option.bind_eq_some.1 h
      obtain ⟨st1, h1, h⟩ := Option.bind_eq_some.1 h
      obtain ⟨c1, _, h⟩ := Option.bind_eq_some.1 h
      obtain ⟨l1, hl1⟩ := ifieldLoop_noWrite_inv obj clazz n 0 _ _ _ h1
      obtain ⟨l2, hl2⟩ := ih _ _ _ h
      exact ⟨l1 ++ l2, by rw [hl2, hl1, emit_emit, List.map_append]⟩

theorem visitInstanceFields_noWrite_inv {σ : Type} (env : Env) (fuel : Nat) (obj : Addr)
    (st st' : St σ) (h : visitInstanceFields env fuel noWrite obj st = some st') :
    ∃ l : List Nat, st' = emit (l.map (Slot.byteOffset obj)) st := by
  simp only [visitInstanceFields, Option.bind_eq_bind] at h
  obtain ⟨clazz, _, h⟩ := Option.bind_eq_some.1 h
  obtain ⟨c, _, h⟩ := Option.bind_eq_some.1 h
  split at h
  · exact bitmapLoop_noWrite_inv env obj fuel _ st st' h
  · exact superLoop_noWrite_inv fuel obj fuel clazz st st' h

/-! ### The class-object visitor as a composition -/

theorem visitClassObject_noWrite_compose {σ : Type} (env : Env) (fuel : Nat) (obj : Addr)
    (k : ClassObject) (tI tS : List Slot) (st : St σ) (htr : st.trace = [])
    (hk : getClass st.heap obj = some k)
    (hI : visitInstanceFields env fuel noWrite obj st = some (emit tI st))
    (hS : visitStaticFields fuel noWrite obj st = some (emit tS st))
    (hif : k.status > env.CLASS_IDX → k.interfaceCount.toNat < fuel) :
    visitClassObject env fuel noWrite obj st =
      some (emit ([Slot.byteOffset obj 0] ++
        (if IS_CLASS_FLAG_SET k.accessFlags env.CLASS_ISARRAY then [Slot.elementClass obj]
          else []) ++
        (if k.status > env.CLASS_IDX then [Slot.super obj] else []) ++
        [Slot.classLoader obj] ++ tI ++ tS ++
        (if k.status > env.CLASS_IDX then interfaceSlots obj k else [])) st) := by
  simp only [visitClassObject, visit_noWrite, Option.bind_eq_bind, emit_heap, hk,
    Option.some_bind]
  have e2 : (if IS_CLASS_FLAG_SET k.accessFlags env.CLASS_ISARRAY = true then
        emit [Slot.elementClass obj] (emit [Slot.byteOffset obj 0] st)
      else emit [Slot.byteOffset obj 0] st)
      = emit ([Slot.byteOffset obj 0] ++
        (if IS_CLASS_FLAG_SET k.accessFlags env.CLASS_ISARRAY then [Slot.elementClass obj]
          else [])) st := by
    split <;> simp [emit_emit]
  rw [e2]
  simp only [emit_heap, hk, Option.some_bind]
  have e3 : ∀ (l : List Slot), (if k.status > env.CLASS_IDX then
        emit [Slot.super obj] (emit l st) else emit l st)
      = emit (l ++ (if k.status > env.CLASS_IDX then [Slot.super obj] else [])) st := by
    intro l
    split <;> simp [emit_emit]
  rw [e3, emit_emit, emit_eq_prepend _ st htr, visitInstanceFields_prepend, hI,
    Option.map_some', prepend_emit _ _ st htr, Option.some_bind]
  unfold visitStaticFields at hS ⊢
  rw [emit_eq_prepend _ st htr, sfieldLoop_prepend, hS, Option.map_some',
    prepend_emit _ _ st htr, Option.some_bind]
  simp only [emit_heap, hk, Option.some_bind]
  by_cases hs : k.status > env.CLASS_IDX
  · simp only [hs, if_true]
    rw [visitInterfaces_noWrite fuel obj k _ (by simpa [emit_heap] using hk) (hif hs), emit_emit]
  · simp [hs]

theorem slotsOf_congr_rel {σ : Type} (f g : St σ → Option (St σ))
    (hrel : ∀ (st1 st2 : St σ), StRel CtlEq st1 st2 → OptRel CtlEq (f st1) (g st2))
    (h : Heap) (x : σ) : slotsOf f h x = slotsOf g h x :=
  (hrel _ _ (stRel_refl { heap := h, vst := x, trace := [] })).map_trace

/-! ### Classes without reference fields -/

theorem ifieldLoop_zero_count {σ : Type} (v : Visitor σ) (obj clazz : Addr) (c : ClassObject)
    (n : Nat) (field : List InstField) (st : St σ) (hc : getClass st.heap clazz = some c)
    (h0 : c.ifieldRefCount = 0) :
    ifieldLoop v obj clazz (n + 1) 0 field st = some st := by
  simp [ifieldLoop, hc, h0]

theorem superLoop_zero_counts {σ : Type} (n : Nat) (v : Visitor σ) (obj : Addr) (st : St σ) :
    ∀ (fuel : Nat) (clazz : Addr) (cs : List ClassObject),
      IsChain st.heap clazz cs → (∀ d ∈ cs, d.ifieldRefCount = 0) → cs.length < fuel →
      superLoop (n + 1) v obj fuel clazz st = some st := by
  intro fuel
  induction fuel with
  | zero => intro clazz cs _ _ h; omega
  | succ fuel ih =>
    intro clazz cs hch h0 hfuel
    cases cs with
    | nil =>
      have : clazz = 0 := hch
      simp [superLoop, this]
    | cons c rest =>
      obtain ⟨hne, hc, hrest⟩ := hch
      simp only [superLoop, bne_iff_ne, ne_eq, hne, not_false_eq_true, if_true,
        Option.bind_eq_bind, hc, Option.some_bind]
      rw [ifieldLoop_zero_count v obj clazz c n c.ifields st hc (h0 c (by simp))]
      simp only [Option.some_bind, hc]
      exact ih c.super rest hrest (fun d hd => h0 d (by simp [hd])) (by simp at hfuel; omega)

theorem visitInstanceFields_zero {σ : Type} (env : Env) (fuel : Nat) (v : Visitor σ)
    (obj clazz : Addr) (c : ClassObject) (st : St σ)
    (hobj : clazzOf st.heap obj = some clazz) (hcls : getClass st.heap clazz = some c)
    (hzero : (c.refOffsets ≠ env.CLASS_WALK_SUPER ∧ c.refOffsets = 0) ∨
      (c.refOffsets = env.CLASS_WALK_SUPER ∧ ∃ cs, IsChain st.heap clazz cs ∧
        (∀ d ∈ cs, d.ifieldRefCount = 0) ∧ cs.length < fuel)) :
    visitInstanceFields env fuel v obj st = some st := by
  rcases hzero with ⟨hne, h0⟩ | ⟨hws, cs, hch, hcnt, hfuel⟩
  · have hb : (c.refOffsets != env.CLASS_WALK_SUPER) = true := by simpa using hne
    simp only [visitInstanceFields, hobj, hcls, Option.bind_eq_bind, Option.some_bind, hb,
      if_true]
    rw [h0]
    exact bitmapLoop_zero env v obj fuel st
  · simp only [visitInstanceFields, hobj, hcls, Option.bind_eq_bind, Option.some_bind, hws,
      bne_self_eq_false, Bool.false_eq_true, if_false]
    obtain ⟨n, rfl⟩ : ∃ n, fuel = n + 1 := ⟨fuel - 1, by omega⟩
    exact superLoop_zero_counts n v obj st (n + 1) clazz cs hch hcnt hfuel

/-! ### One round of the bitmap loop -/

theorem exists_msb (m : Nat) : ∀ x : Nat, x < 2 ^ m → x ≠ 0 →
    ∃ n, n < m ∧ x.testBit n = true ∧ x < 2 ^ (n + 1) := by
  induction m with
  | zero =>
    intro x hx h0
    simp at hx
    exact absurd hx h0
  | succ m ih =>
    intro x hx h0
    by_cases hb : x.testBit m = true
    · exact ⟨m, by omega, hb, hx⟩
    · have hbf : x.testBit m = false := by simpa using hb
      have hlt : x < 2 ^ m := by
        apply Nat.lt_pow_two_of_testBit
        intro i hi
        by_cases h : i = m
        · rw [h]; exact hbf
        · exact testBit_false_of_lt hx (by omega)
      obtain ⟨n, hn, h1, h2⟩ := ih x hlt h0
      exact ⟨n, by omega, h1, h2⟩

theorem bitsBelow_of_lt (n x : Nat) (hx : x < 2 ^ n) : ∀ k, bitsBelow (n + k) x = bitsBelow n x := by
  intro k
  induction k with
  | zero => rfl
  | succ k ih =>
    rw [← Nat.add_assoc, bitsBelow_succ, testBit_false_of_lt hx (by omega)]
    simpa using ih

theorem bitsBelow_length (x : Nat) : (bitsBelow 32 x).length = popCount32 x := by
  unfold bitsBelow popCount32
  rw [← List.countP_eq_length_filter]
  exact (List.reverse_perm _).countP_eq _

theorem bitmapStep_eq (x n : Nat) (hn : n < 32) (hx : x < 2 ^ (n + 1))
    (hb : x.testBit n = true) :
    bitmapStep x = x &&& (0xFFFFFFFF ^^^ (CLASS_HIGH_BIT >>> (31 - n))) := by
  rw [bitmapStep, CLZ_eq x n hn hx hb]

theorem bitmapLoop_succ {σ : Type} (env : Env) (v : Visitor σ) (obj : Addr) (fuel x : Nat)
    (st : St σ) (hx : x ≠ 0) :
    bitmapLoop env v obj (fuel + 1) x st =
      bitmapLoop env v obj fuel (bitmapStep x)
        (visit v (Slot.byteOffset obj (CLASS_OFFSET_FROM_CLZ env (CLZ x))) st) := by
  have hne : (x != 0) = true := by simpa using hx
  simp only [bitmapLoop, hne, if_true, bitmapStep]

theorem bitsBelow_bitmapStep (x n : Nat) (hn : n < 32) (hx : x < 2 ^ (n + 1))
    (hb : x.testBit n = true) :
    bitsBelow 32 x = n :: bitsBelow 32 (bitmapStep x) := by
  have hlt : bitmapStep x < 2 ^ n := by
    rw [bitmapStep_eq x n hn hx hb]
    exact clear_lt x n hn hx
  have e1 : bitsBelow 32 x = bitsBelow (n + 1) x := by
    have := bitsBelow_of_lt (n + 1) x hx (31 - n)
    rwa [show n + 1 + (31 - n) = 32 by omega] at this
  have e2 : bitsBelow 32 (bitmapStep x) = bitsBelow n (bitmapStep x) := by
    have := bitsBelow_of_lt n (bitmapStep x) hlt (32 - n)
    rwa [show n + (32 - n) = 32 by omega] at this
  rw [e1, e2, bitsBelow_succ, hb, if_pos rfl]
  congr 1
  apply bitsBelow_congr
  intro b hbn
  rw [bitmapStep_eq x n hn hx hb, testBit_clear x n b hn]
  have h1 : b < 32 := by omega
  have h2 : b ≠ n := by omega
  simp [h1, h2]

theorem popCount32_bitmapStep (x : Nat) (hx : x < 2 ^ 32) (h0 : x ≠ 0) :
    popCount32 x = popCount32 (bitmapStep x) + 1 := by
  obtain ⟨n, hn, hb, hlt⟩ := exists_msb 32 x hx h0
  rw [← bitsBelow_length, ← bitsBelow_length, bitsBelow_bitmapStep x n hn hlt hb]
  rfl

theorem bitmapStep_lt (x : Nat) (hx : x < 2 ^ 32) (h0 : x ≠ 0) : bitmapStep x < x := by
  obtain ⟨n, hn, hb, hlt⟩ := exists_msb 32 x hx h0
  rw [bitmapStep_eq x n hn hlt hb]
  exact lt_of_lt_of_le (clear_lt x n hn hlt) (Nat.testBit_implies_ge hb)

theorem iterate_bitmapStep : ∀ (m x : Nat), x < 2 ^ 32 → popCount32 x = m →
    bitmapStep^[m] x = 0 ∧ ∀ k, k < m → bitmapStep^[k] x ≠ 0 := by
  intro m
  induction m with
  | zero =>
    intro x hx hp
    refine ⟨?_, fun k hk => absurd hk (by omega)⟩
    by_contra h0
    have := popCount32_bitmapStep x hx h0
    omega
  | succ m ih =>
    intro x hx hp
    have h0 : x ≠ 0 := by
      intro h
      subst h
      simp [popCount32] at hp
    have hs := popCount32_bitmapStep x hx h0
    have hlt := bitmapStep_lt x hx h0
    obtain ⟨i1, i2⟩ := ih (bitmapStep x) (by omega) (by omega)
    refine ⟨by rw [Function.iterate_succ_apply]; exact i1, ?_⟩
    intro k hk
    cases k with
    | zero => simpa using h0
    | succ k =>
      rw [Function.iterate_succ_apply]
      exact i2 k (by omega)

/-! ### Offsets of the bitmap loop -/

theorem bitmapOffsets_bounds (env : Env) (x off : Nat) (h : off ∈ bitmapOffsets env x) :
    env.CLASS_SMALLEST_OFFSET ≤ off ∧ (off - env.CLASS_SMALLEST_OFFSET) % 4 = 0 ∧
      off ≤ env.CLASS_SMALLEST_OFFSET + 4 * 31 := by
  obtain ⟨k, hk, _, rfl⟩ := (mem_bitmapOffsets env x off).1 h
  omega

/-! ### Replacing a class object that the enumeration does not read -/

theorem InstLayout_setObject_ne {env : Env} {fuel : Nat} {h : Heap} {obj clazz : Addr}
    {offs : List Nat} (o : HeapObject) (hl : InstLayout env fuel h clazz offs)
    (hne : clazz ≠ obj)
    (hoff : ∀ m cs, getClass h clazz = some m → m.refOffsets = env.CLASS_WALK_SUPER →
      IsChain h clazz cs → obj ∉ chainAddrs clazz cs) :
    InstLayout env fuel (setObject h obj o) clazz offs := by
  cases hl with
  | bitmap m hcls hb h32 hfuel =>
    exact InstLayout.bitmap m (by rw [getClass_setObject_ne h obj clazz _ hne]; exact hcls)
      hb h32 hfuel
  | walk m cs hcls hws hch hwf hfuel =>
    exact InstLayout.walk m cs (by rw [getClass_setObject_ne h obj clazz _ hne]; exact hcls)
      hws (IsChain_setObject h obj o cs clazz hch (hoff m cs hcls hws hch)) hwf hfuel

theorem visitInstanceFields_of_layout {σ : Type} (env : Env) (fuel : Nat) (v : Visitor σ)
    (hv : Preserves v) (obj clazz : Addr) (offs : List Nat) (h : Heap) (x : σ)
    (hobj : clazzOf h obj = some clazz) (hl : InstLayout env fuel h clazz offs) :
    slotsOf (visitInstanceFields env fuel v obj) h x = some (offs.map (Slot.byteOffset obj)) :=
  slotsOf_lift _ _
    (fun st1 st2 r => visitInstanceFields_rel (hv.joint preserves_noWrite)
      (fun _ _ e => e.instEq) env fuel obj st1 st2 r) h x _
    (hl.run obj _ rfl hobj)

theorem visitClassObject_of_layout {σ : Type} (env : Env) (fuel : Nat) (v : Visitor σ)
    (hv : Preserves v) (obj : Addr) (k : ClassObject) (offs : List Nat) (h : Heap) (x : σ)
    (hk : getClass h obj = some k) (hl : InstLayout env fuel h k.obj.clazz offs)
    (hlen : k.sfieldCount ≤ k.sfields.length) (hsf : k.sfieldCount.toNat < fuel)
    (hif : k.status > env.CLASS_IDX → k.interfaceCount.toNat < fuel) :
    slotsOf (visitClassObject env fuel v obj) h x = some (classSlots env obj k offs) :=
  slotsOf_lift _ _
    (fun st1 st2 r => visitClassObject_rel (hv.joint preserves_noWrite) (fun _ _ e => e)
      env fuel obj st1 st2 r) h x _
    (visitClassObject_noWrite env fuel obj k offs _ hk hl hlen hsf hif)

/-! ### Addresses of the slots -/

theorem nodup_map_addressOf (L : Layout) (P : Slot → Prop) (t : List Slot) (hnd : t.Nodup)
    (hP : ∀ s ∈ t, P s) (hL : Apart L P) : (t.map (addressOf L)).Nodup :=
  List.Nodup.map_on (fun s1 h1 s2 h2 e => hL s1 s2 (hP s1 h1) (hP s2 h2) e) hnd

theorem apart_byteOffsets (L : Layout) (obj : Addr) :
    Apart L (fun s => ∃ off, s = Slot.byteOffset obj off) := by
  rintro s1 s2 ⟨o1, rfl⟩ ⟨o2, rfl⟩ e
  simp only [addressOf] at e
  have : o1 = o2 := by omega
  rw [this]

theorem mem_classSlots (env : Env) (obj : Addr) (k : ClassObject) (offs : List Nat) (s : Slot)
    (hs : s ∈ classSlots env obj k offs) :
    s = Slot.byteOffset obj 0 ∨
      (IS_CLASS_FLAG_SET k.accessFlags env.CLASS_ISARRAY = true ∧ s = Slot.elementClass obj) ∨
      (k.status > env.CLASS_IDX ∧ s = Slot.super obj) ∨ s = Slot.classLoader obj ∨
      (∃ off, off ∈ offs ∧ s = Slot.byteOffset obj off) ∨
      (∃ i : Nat, (i : Int) < k.sfieldCount ∧
        (k.sfields[i]?).any (fun sf => isRefSignature sf.field) = true ∧
        s = Slot.sfieldValue obj i) ∨
      (k.status > env.CLASS_IDX ∧ ∃ i : Nat, (i : Int) < k.interfaceCount ∧
        s = Slot.interfaces obj i) := by
  simp only [classSlots, List.mem_append, List.mem_singleton, List.mem_map] at hs
  rcases hs with (((((hs | hs) | hs) | hs) | hs) | hs) | hs
  · exact Or.inl hs
  · split at hs
    · rename_i hflag
      exact Or.inr (Or.inl ⟨hflag, by simpa using hs⟩)
    · cases hs
  · split at hs
    · rename_i hgt
      exact Or.inr (Or.inr (Or.inl ⟨hgt, by simpa using hs⟩))
    · cases hs
  · exact Or.inr (Or.inr (Or.inr (Or.inl hs)))
  · obtain ⟨off, hoff, rfl⟩ := hs
    exact Or.inr (Or.inr (Or.inr (Or.inr (Or.inl ⟨off, hoff, rfl⟩))))
  · simp only [staticSlots, List.mem_map, List.mem_filter, List.mem_range] at hs
    obtain ⟨i, ⟨hi, hany⟩, rfl⟩ := hs
    exact Or.inr (Or.inr (Or.inr (Or.inr (Or.inr (Or.inl ⟨i, by omega, hany, rfl⟩)))))
  · split at hs
    · rename_i hgt
      simp only [interfaceSlots, List.mem_map, List.mem_range] at hs
      obtain ⟨i, hi, rfl⟩ := hs
      exact Or.inr (Or.inr (Or.inr (Or.inr (Or.inr (Or.inr ⟨hgt, i, by omega, rfl⟩)))))
    · cases hs

theorem classLvalues_of_mem (env : Env) (obj : Addr) (k : ClassObject) (offs : List Nat)
    (s : Slot) (hs : s ∈ classSlots env obj k offs) : classLvalues env obj k offs s := by
  rcases mem_classSlots env obj k offs s hs with
    rfl | ⟨hf, rfl⟩ | ⟨hgt, rfl⟩ | rfl | ⟨off, hoff, rfl⟩ | ⟨i, hi, hany, rfl⟩ |
    ⟨hgt, i, hi, rfl⟩
  · exact ⟨rfl, Or.inl rfl⟩
  · exact ⟨rfl, hf⟩
  · exact ⟨rfl, hgt⟩
  · exact rfl
  · exact ⟨rfl, Or.inr hoff⟩
  · exact ⟨rfl, hi, hany⟩
  · exact ⟨rfl, hgt, hi⟩

theorem apart_ne {L : Layout} {P : Slot → Prop} (hL : Apart L P) {s1 s2 : Slot} (h1 : P s1)
    (h2 : P s2) (hne : s1 ≠ s2) : addressOf L s1 ≠ addressOf L s2 :=
  fun e => hne (hL s1 s2 h1 h2 e)

theorem arrayLvalues_of_mem (env : Env) (obj : Addr) (c : ClassObject) (a : ArrayObject)
    (s : Slot) (hs : s ∈ arraySlots env obj c a) : arrayLvalues env obj c a.length s := by
  simp only [arraySlots, List.mem_append, List.mem_singleton] at hs
  rcases hs with rfl | hs
  · exact ⟨rfl, rfl⟩
  · split at hs
    · rename_i hflag
      simp only [contentSlots, List.mem_map, List.mem_range] at hs
      obtain ⟨i, hi, rfl⟩ := hs
      exact ⟨rfl, hflag, hi⟩
    · cases hs

theorem nodup_classSlots (env : Env) (obj : Addr) (k : ClassObject) (offs : List Nat)
    (hnd : offs.Nodup) (h0 : 0 ∉ offs) : (classSlots env obj k offs).Nodup := by
  unfold classSlots
  apply nodup_class_shape obj offs hnd h0
  · split <;> split <;> simp
  · intro s hs
    simp only [List.mem_append, List.mem_singleton] at hs
    rcases hs with ((hs | hs) | hs) | hs
    · exact Or.inl hs
    · exact Or.inr (Or.inl (mem_ite_singleton hs))
    · exact Or.inr (Or.inr (Or.inl (mem_ite_singleton hs)))
    · exact Or.inr (Or.inr (Or.inr hs))
  · exact nodup_staticSlots obj k
  · intro s hs
    simp only [staticSlots, List.mem_map] at hs
    obtain ⟨i, _, rfl⟩ := hs
    exact ⟨i, rfl⟩
  · split
    · exact nodup_interfaceSlots obj k
    · exact List.nodup_nil
  · intro s hs
    split at hs
    · simp only [interfaceSlots, List.mem_map] at hs
      obtain ⟨i, _, rfl⟩ := hs
      exact ⟨i, rfl⟩
    · cases hs

theorem dvmVisitObject_array {σ : Type} (env : Env) (fuel : Nat) (v : Visitor σ)
    (hv : Preserves v) (obj clazz : Addr) (c : ClassObject) (a : ArrayObject) (h : Heap) (x : σ)
    (hobj : clazzOf h obj = some clazz) (hne : clazz ≠ env.classJavaLangClass)
    (hcls : getClass h clazz = some c)
    (hflag : IS_CLASS_FLAG_SET c.accessFlags env.CLASS_ISARRAY = true)
    (harr : getArray h obj = some a) (hfuel : a.length < fuel) :
    slotsOf (dvmVisitObject env fuel v obj) h x = some (arraySlots env obj c a) :=
  slotsOf_lift _ _
    (fun st1 st2 r => dvmVisitObject_rel (hv.joint preserves_noWrite) (fun _ _ e => e)
      env fuel obj st1 st2 r) h x _
    (dvmVisitObject_array_noWrite env fuel obj clazz c a _ hobj hne hcls hflag harr hfuel)

theorem dvmVisitObject_data {σ : Type} (env : Env) (fuel : Nat) (v : Visitor σ)
    (hv : Preserves v) (obj clazz : Addr) (c : ClassObject) (offs : List Nat) (h : Heap) (x : σ)
    (hobj : clazzOf h obj = some clazz) (hne : clazz ≠ env.classJavaLangClass)
    (hcls : getClass h clazz = some c)
    (hflag : IS_CLASS_FLAG_SET c.accessFlags env.CLASS_ISARRAY = false)
    (hl : InstLayout env fuel h clazz offs) :
    slotsOf (dvmVisitObject env fuel v obj) h x = some (dataSlots env obj c offs) := by
  apply slotsOf_lift _ _
    (fun st1 st2 r => dvmVisitObject_rel (hv.joint preserves_noWrite) (fun _ _ e => e)
      env fuel obj st1 st2 r) h x
  simp only [dvmVisitObject, hobj, Option.bind_eq_bind, Option.some_bind, hcls, hflag,
    beq_iff_eq, hne, if_false, Bool.false_eq_true]
  exact visitDataObject_noWrite env fuel obj clazz c offs _ hobj hcls hl

theorem classLvalues_layout0 (env : Env) (k : ClassObject) (offs : List Nat)
    (hoffs : ∀ off ∈ offs, off < 60) (s : Slot) (hs : classLvalues env 300 k offs s) :
    (∃ off, off < 60 ∧ s = Slot.byteOffset 300 off) ∨ s = Slot.elementClass 300 ∨
      s = Slot.super 300 ∨ s = Slot.classLoader 300 ∨ (∃ i, s = Slot.sfieldValue 300 i) ∨
      ∃ i, s = Slot.interfaces 300 i := by
  cases s with
  | byteOffset o off =>
    obtain ⟨rfl, h0 | hm⟩ := hs
    · exact Or.inl ⟨off, by omega, rfl⟩
    · exact Or.inl ⟨off, hoffs off hm, rfl⟩
  | elementClass o => obtain ⟨rfl, _⟩ := hs; exact Or.inr (Or.inl rfl)
  | super o => obtain ⟨rfl, _⟩ := hs; exact Or.inr (Or.inr (Or.inl rfl))
  | classLoader o => cases hs; exact Or.inr (Or.inr (Or.inr (Or.inl rfl)))
  | sfieldValue o i =>
    obtain ⟨rfl, _⟩ := hs
    exact Or.inr (Or.inr (Or.inr (Or.inr (Or.inl ⟨i, rfl⟩))))
  | interfaces o i =>
    obtain ⟨rfl, _⟩ := hs
    exact Or.inr (Or.inr (Or.inr (Or.inr (Or.inr ⟨i, rfl⟩))))
  | contents o i => cases hs

theorem apart_layout0_class (env : Env) (k : ClassObject) (offs : List Nat)
    (hoffs : ∀ off ∈ offs, off < 60) : Apart layout0 (classLvalues env 300 k offs) := by
  have g := classLvalues_layout0 env k offs hoffs
  intro s1 s2 h1 h2 e
  rcases g s1 h1 with ⟨f1, hf1, rfl⟩ | rfl | rfl | rfl | ⟨i1, rfl⟩ | ⟨i1, rfl⟩ <;>
    rcases g s2 h2 with ⟨f2, hf2, rfl⟩ | rfl | rfl | rfl | ⟨i2, rfl⟩ | ⟨i2, rfl⟩ <;>
    first
      | rfl
      | (exfalso; simp only [addressOf, layout0] at e; omega)
      | (congr 1; simp only [addressOf, layout0] at e; omega)

theorem apart_layout0_array (env : Env) (c : ClassObject) (n : Nat) :
    Apart layout0 (arrayLvalues env 500 c n) := by
  have g : ∀ s, arrayLvalues env 500 c n s →
      s = Slot.byteOffset 500 0 ∨ ∃ i, s = Slot.contents 500 i := by
    intro s hs
    cases s with
    | byteOffset o off => obtain ⟨rfl, rfl⟩ := hs; exact Or.inl rfl
    | contents o i => obtain ⟨rfl, _⟩ := hs; exact Or.inr ⟨i, rfl⟩
    | elementClass o => cases hs
    | super o => cases hs
    | classLoader o => cases hs
    | sfieldValue o i => cases hs
    | interfaces o i => cases hs
  intro s1 s2 h1 h2 e
  rcases g s1 h1 with rfl | ⟨i1, rfl⟩ <;> rcases g s2 h2 with rfl | ⟨i2, rfl⟩ <;>
    first
      | rfl
      | (exfalso; simp only [addressOf, layout0] at e; omega)
      | (congr 1; simp only [addressOf, layout0] at e; omega)

/-! ### Heaps that are alike up to forwarded class pointers -/

theorem ClassStep.mono {h1 h2 : Heap} {S T : Addr → Addr → Prop}
    (hST : ∀ x y, S x y → T x y) {a b : Addr} (hs : ClassStep h1 h2 S a b) :
    ClassStep h1 h2 T a b := by
  obtain ⟨hz, hc⟩ := hs
  refine ⟨hz, ?_⟩
  rcases hc with hn | ⟨c, d, e1, e2, hm, hS⟩
  · exact Or.inl hn
  · exact Or.inr ⟨c, d, e1, e2, hm, hST _ _ hS⟩

theorem ClassLike.step {h1 h2 : Heap} {a b : Addr} (hl : ClassLike h1 h2 a b) :
    ClassStep h1 h2 (ClassLike h1 h2) a b := by
  obtain ⟨S, hab, hS⟩ := hl
  exact (hS a b hab).mono (fun x y hxy => ⟨S, hxy, hS⟩)

theorem ClassLike.same (h : Heap) (a : Addr) : ClassLike h h a a := by
  refine ⟨fun x y => x = y, rfl, ?_⟩
  rintro x y rfl
  refine ⟨Iff.rfl, ?_⟩
  cases hc : getClass h x with
  | none => exact Or.inl ⟨rfl, rfl⟩
  | some c => exact Or.inr ⟨c, c, rfl, rfl, rfl, rfl⟩

theorem ClassLike.flip {h1 h2 : Heap} {a b : Addr} (hl : ClassLike h1 h2 a b) :
    ClassLike h2 h1 b a := by
  obtain ⟨S, hab, hS⟩ := hl
  refine ⟨fun x y => S y x, hab, ?_⟩
  intro x y hxy
  obtain ⟨hz, hc⟩ := hS y x hxy
  refine ⟨hz.symm, ?_⟩
  rcases hc with ⟨n1, n2⟩ | ⟨c, d, e1, e2, hm, hs⟩
  · exact Or.inl ⟨n2, n1⟩
  · exact Or.inr ⟨d, c, e2, e1, hm.symm, hs⟩

theorem ClassLike.comp {h1 h2 h3 : Heap} {a b c : Addr} (h12 : ClassLike h1 h2 a b)
    (h23 : ClassLike h2 h3 b c) : ClassLike h1 h3 a c := by
  obtain ⟨S, hab, hS⟩ := h12
  obtain ⟨T, hbc, hT⟩ := h23
  refine ⟨fun x z => ∃ y, S x y ∧ T y z, ⟨b, hab, hbc⟩, ?_⟩
  rintro x z ⟨y, hxy, hyz⟩
  obtain ⟨hz1, hc1⟩ := hS x y hxy
  obtain ⟨hz2, hc2⟩ := hT y z hyz
  refine ⟨hz1.trans hz2, ?_⟩
  rcases hc1 with ⟨n1, n2⟩ | ⟨c1, d1, e1, e2, hm1, hs1⟩
  · rcases hc2 with ⟨_, m2⟩ | ⟨c2, d2, f1, _, _, _⟩
    · exact Or.inl ⟨n1, m2⟩
    · rw [n2] at f1
      cases f1
  · rcases hc2 with ⟨m1, _⟩ | ⟨c2, d2, f1, f2, hm2, hs2⟩
    · rw [e2] at m1
      cases m1
    · rw [e2] at f1
      injection f1 with f1
      subst f1
      exact Or.inr ⟨c1, d2, e1, f2, hm1.trans hm2, ⟨_, hs1, hs2⟩⟩

theorem Alike.self (h : Heap) : Alike h h := by
  intro a
  refine ⟨ClassLike.same h a, rfl, ?_, rfl⟩
  cases hc : clazzOf h a with
  | none => exact Or.inl ⟨rfl, rfl⟩
  | some x => exact Or.inr ⟨x, x, rfl, rfl, ClassLike.same h x⟩

theorem Alike.turn {h1 h2 : Heap} (e : Alike h1 h2) : Alike h2 h1 := by
  intro a
  obtain ⟨hc, hp, ho, hn⟩ := e a
  refine ⟨hc.flip, hp.symm, ?_, hn.symm⟩
  rcases ho with ⟨n1, n2⟩ | ⟨x, y, e1, e2, hxy⟩
  · exact Or.inl ⟨n2, n1⟩
  · exact Or.inr ⟨y, x, e2, e1, hxy.flip⟩

theorem Alike.chain {h1 h2 h3 : Heap} (e : Alike h1 h2) (f : Alike h2 h3) : Alike h1 h3 := by
  intro a
  obtain ⟨hc, hp, ho, hn⟩ := e a
  obtain ⟨hc', hp', ho', hn'⟩ := f a
  refine ⟨hc.comp hc', hp.trans hp', ?_, hn.trans hn'⟩
  rcases ho with ⟨n1, n2⟩ | ⟨x, y, e1, e2, hxy⟩
  · rcases ho' with ⟨_, m2⟩ | ⟨x', y', f1, _, _⟩
    · exact Or.inl ⟨n1, m2⟩
    · rw [n2] at f1
      cases f1
  · rcases ho' with ⟨m1, _⟩ | ⟨x', y', f1, f2, hxy'⟩
    · rw [e2] at m1
      cases m1
    · rw [e2] at f1
      injection f1 with f1
      subst f1
      exact Or.inr ⟨x, y', e1, f2, hxy.comp hxy'⟩

theorem alike_of_ctlEq {h1 h2 : Heap} (e : CtlEq h1 h2) : Alike h1 h2 := by
  have hcl : ∀ a, ClassLike h1 h2 a a := by
    intro a
    refine ⟨fun x y => x = y, rfl, ?_⟩
    rintro x y rfl
    refine ⟨Iff.rfl, ?_⟩
    have hx := (e x).2.1
    cases c1 : getClass h1 x <;> cases c2 : getClass h2 x <;>
      simp [c1, c2, ctlPart, ptrPart] at hx ⊢
    obtain ⟨ha, _, hr, hf, hc, hsu, _, _, _⟩ := hx
    exact ⟨⟨ha, hr, hf, hc⟩, hsu⟩
  have hown : ∀ a, (getClass h1 a).map ownPart = (getClass h2 a).map ownPart := by
    intro x
    have hx := (e x).2.1
    cases c1 : getClass h1 x <;> cases c2 : getClass h2 x <;>
      simp [c1, c2, ctlPart, ownPart] at hx ⊢
    obtain ⟨ha, hs, _, _, _, _, hsc, hsf, hic⟩ := hx
    exact ⟨ha, hs, hsc, hsf, hic⟩
  intro a
  refine ⟨hcl a, hown a, ?_, (e a).2.2⟩
  have ha := (e a).1
  cases c1 : clazzOf h1 a with
  | none => exact Or.inl ⟨rfl, by rw [← ha, c1]⟩
  | some x => exact Or.inr ⟨x, x, rfl, by rw [← ha, c1], hcl x⟩

theorem Preserves.keepsLike {σ : Type} {v : Visitor σ} (hv : Preserves v) (h : Heap) :
    KeepsLike h v :=
  fun s w hw => hw.chain (alike_of_ctlEq (hv s w))

theorem keepsLike_noWrite {σ : Type} (h : Heap) : KeepsLike h (noWrite : Visitor σ) :=
  fun _ _ hw => hw

theorem KeepsLike.around {σ τ : Type} {h : Heap} {v1 : Visitor σ} {v2 : Visitor τ}
    (k1 : KeepsLike h v1) (k2 : KeepsLike h v2) : Joint (Around h) v1 v2 :=
  fun s w1 w2 r => ⟨k1 s w1 r.1, k2 s w2 r.2⟩

theorem getClass_around {h h1 h2 : Heap} (r : Around h h1 h2) {a b : Addr}
    (hl : ClassLike h h a b) :
    (getClass h1 a = none ∧ getClass h2 b = none) ∨
    ∃ c d, getClass h1 a = some c ∧ getClass h2 b = some d ∧
      c.accessFlags = d.accessFlags ∧ c.refOffsets = d.refOffsets ∧
      c.ifields = d.ifields ∧ c.ifieldRefCount = d.ifieldRefCount ∧
      ClassLike h h c.super d.super := by
  have l12 : ClassLike h1 h2 a b := ((r.1 a).1.flip).comp (hl.comp (r.2 b).1)
  rcases l12.step.2 with hn | ⟨c, d, e1, e2, hm, hs⟩
  · exact Or.inl hn
  · simp only [ptrPart, Prod.mk.injEq] at hm
    obtain ⟨ha, hr, hf, hc⟩ := hm
    exact Or.inr ⟨c, d, e1, e2, ha, hr, hf, hc,
      ((r.1 c.super).1).comp (hs.comp ((r.2 d.super).1.flip))⟩

theorem getClass_own_around {h h1 h2 : Heap} (r : Around h h1 h2) (a : Addr) :
    (getClass h1 a = none ∧ getClass h2 a = none) ∨
    ∃ c d, getClass h1 a = some c ∧ getClass h2 a = some d ∧
      c.accessFlags = d.accessFlags ∧ c.status = d.status ∧ c.sfieldCount = d.sfieldCount ∧
      c.sfields.map StaticField.field = d.sfields.map StaticField.field ∧
      c.interfaceCount = d.interfaceCount := by
  have hh := ((r.1.turn.chain r.2) a).2.1
  cases h1c : getClass h1 a <;> cases h2c : getClass h2 a <;>
    simp [h1c, h2c, ownPart] at hh ⊢
  exact hh

theorem clazzOf_around {h h1 h2 : Heap} (r : Around h h1 h2) (a : Addr) :
    (clazzOf h1 a = none ∧ clazzOf h2 a = none) ∨
    ∃ x y, clazzOf h1 a = some x ∧ clazzOf h2 a = some y ∧ ClassLike h h x y := by
  rcases ((r.1.turn.chain r.2) a).2.2.1 with hn | ⟨x, y, e1, e2, hxy⟩
  · exact Or.inl hn
  · exact Or.inr ⟨x, y, e1, e2, ((r.1 x).1).comp (hxy.comp ((r.2 y).1.flip))⟩

theorem getArray_around {h h1 h2 : Heap} (r : Around h h1 h2) (a : Addr) :
    (getArray h1 a = none ∧ getArray h2 a = none) ∨
    ∃ a1 a2, getArray h1 a = some a1 ∧ getArray h2 a = some a2 ∧ a1.length = a2.length := by
  have hh := ((r.1.turn.chain r.2) a).2.2.2
  cases h1c : getArray h1 a <;> cases h2c : getArray h2 a <;> simp [h1c, h2c] at hh ⊢
  exact hh

theorem ifieldLoop_like {σ τ : Type} {h : Heap} {v1 : Visitor σ} {v2 : Visitor τ}
    (hj : Joint (Around h) v1 v2) (obj clazz1 clazz2 : Addr)
    (hl : ClassLike h h clazz1 clazz2) :
    ∀ (fuel i : Nat) (field : List InstField) (st1 : St σ) (st2 : St τ),
      StRel (Around h) st1 st2 →
      OptRel (Around h) (ifieldLoop v1 obj clazz1 fuel i field st1)
        (ifieldLoop v2 obj clazz2 fuel i field st2) := by
  intro fuel
  induction fuel with
  | zero => intro i field st1 st2 _; simp [ifieldLoop, OptRel]
  | succ fuel ih =>
    intro i field st1 st2 r
    rcases getClass_around r.1 hl with ⟨e1, e2⟩ |
      ⟨c1, c2, e1, e2, _, _, _, hc, _⟩
    · simp [ifieldLoop, e1, e2, OptRel]
    · simp only [ifieldLoop, e1, e2, Option.bind_eq_bind, Option.some_bind, hc]
      by_cases hlt : (i : Int) < c2.ifieldRefCount
      · cases field with
        | nil => simp [hlt, OptRel]
        | cons f rest =>
          simp only [hlt, if_true]
          exact ih _ _ _ _ (visit_rel hj _ r)
      · simp [hlt, OptRel, r]

theorem superLoop_like {σ τ : Type} {h : Heap} {v1 : Visitor σ} {v2 : Visitor τ}
    (hj : Joint (Around h) v1 v2) (n : Nat) (obj : Addr) :
    ∀ (fuel : Nat) (clazz1 clazz2 : Addr) (st1 : St σ) (st2 : St τ),
      ClassLike h h clazz1 clazz2 → StRel (Around h) st1 st2 →
      OptRel (Around h) (superLoop n v1 obj fuel clazz1 st1)
        (superLoop n v2 obj fuel clazz2 st2) := by
  intro fuel
  induction fuel with
  | zero => intro clazz1 clazz2 st1 st2 _ _; simp [superLoop, OptRel]
  | succ fuel ih =>
    intro clazz1 clazz2 st1 st2 hl r
    have hz := hl.step.1
    by_cases hz1 : clazz1 = 0
    · have hz2 : clazz2 = 0 := hz.1 hz1
      simp [superLoop, hz1, hz2, OptRel, r]
    · have hz2 : clazz2 ≠ 0 := fun e => hz1 (hz.2 e)
      simp only [superLoop, bne_iff_ne, ne_eq, hz1, hz2, not_false_eq_true, if_true,
        Option.bind_eq_bind]
      rcases getClass_around r.1 hl with ⟨e1, e2⟩ |
        ⟨c1, c2, e1, e2, _, _, hf, _, _⟩
      · simp [e1, e2, OptRel]
      · simp only [e1, e2, Option.some_bind, hf]
        apply OptRel.bind (ifieldLoop_like hj obj clazz1 clazz2 hl n 0 c2.ifields st1 st2 r)
        intro a b rab
        rcases getClass_around rab.1 hl with ⟨e1, e2⟩ |
          ⟨d1, d2, e1, e2, _, _, _, _, hs⟩
        · simp [e1, e2, OptRel]
        · simp only [e1, e2, Option.some_bind]
          exact ih _ _ _ _ hs rab

theorem visitInstanceFields_like {σ τ : Type} {h : Heap} {v1 : Visitor σ} {v2 : Visitor τ}
    (hj : Joint (Around h) v1 v2) (env : Env) (fuel : Nat) (obj : Addr) (st1 : St σ)
    (st2 : St τ) (r : StRel (Around h) st1 st2) :
    OptRel (Around h) (visitInstanceFields env fuel v1 obj st1)
      (visitInstanceFields env fuel v2 obj st2) := by
  unfold visitInstanceFields
  rcases clazzOf_around r.1 obj with ⟨n1, n2⟩ | ⟨x, y, o1, o2, hxy⟩
  · simp [n1, n2, OptRel]
  · simp only [o1, o2, Option.bind_eq_bind, Option.some_bind]
    rcases getClass_around r.1 hxy with ⟨e1, e2⟩ |
      ⟨c1, c2, e1, e2, _, hr, _, _, _⟩
    · simp [e1, e2, OptRel]
    · simp only [e1, e2, Option.some_bind, hr]
      by_cases hw : c2.refOffsets = env.CLASS_WALK_SUPER
      · simp only [hw, bne_self_eq_false, Bool.false_eq_true, if_false]
        exact superLoop_like hj fuel obj fuel x y st1 st2 hxy r
      · have : (c2.refOffsets != env.CLASS_WALK_SUPER) = true := by simpa using hw
        simp only [this, if_true]
        exact bitmapLoop_rel hj env obj fuel _ st1 st2 r

theorem sfieldLoop_like {σ τ : Type} {h : Heap} {v1 : Visitor σ} {v2 : Visitor τ}
    (hj : Joint (Around h) v1 v2) (clazz : Addr) :
    ∀ (fuel i : Nat) (st1 : St σ) (st2 : St τ), StRel (Around h) st1 st2 →
      OptRel (Around h) (sfieldLoop v1 clazz fuel i st1) (sfieldLoop v2 clazz fuel i st2) := by
  intro fuel
  induction fuel with
  | zero => intro i st1 st2 _; simp [sfieldLoop, OptRel]
  | succ fuel ih =>
    intro i st1 st2 r
    rcases getClass_own_around r.1 clazz with ⟨e1, e2⟩ |
      ⟨c1, c2, e1, e2, _, _, hn, hs, _⟩
    · simp [sfieldLoop, e1, e2, OptRel]
    · simp only [sfieldLoop, e1, e2, Option.bind_eq_bind, Option.some_bind, hn]
      by_cases hlt : (i : Int) < c2.sfieldCount
      · simp only [hlt, if_true]
        have hi : (c1.sfields[i]?).map StaticField.field = (c2.sfields[i]?).map StaticField.field := by
          rw [← List.getElem?_map, ← List.getElem?_map, hs]
        cases h1 : c1.sfields[i]? <;> cases h2 : c2.sfields[i]? <;> simp [h1, h2] at hi
        · simp [OptRel]
        · simp only [Option.some_bind, hi]
          split
          · exact ih _ _ _ (visit_rel hj _ r)
          · exact ih _ _ _ r
      · simp [hlt, OptRel, r]

theorem interfaceLoop_like {σ τ : Type} {h : Heap} {v1 : Visitor σ} {v2 : Visitor τ}
    (hj : Joint (Around h) v1 v2) (clazz : Addr) :
    ∀ (fuel i : Nat) (st1 : St σ) (st2 : St τ), StRel (Around h) st1 st2 →
      OptRel (Around h) (interfaceLoop v1 clazz fuel i st1)
        (interfaceLoop v2 clazz fuel i st2) := by
  intro fuel
  induction fuel with
  | zero => intro i st1 st2 _; simp [interfaceLoop, OptRel]
  | succ fuel ih =>
    intro i st1 st2 r
    rcases getClass_own_around r.1 clazz with ⟨e1, e2⟩ |
      ⟨c1, c2, e1, e2, _, _, _, _, hn⟩
    · simp [interfaceLoop, e1, e2, OptRel]
    · simp only [interfaceLoop, e1, e2, Option.bind_eq_bind, Option.some_bind, hn]
      by_cases hlt : (i : Int) < c2.interfaceCount
      · simp only [hlt, if_true]
        exact ih _ _ _ (visit_rel hj _ r)
      · simp [hlt, OptRel, r]

theorem contentsLoop_like {σ τ : Type} {h : Heap} {v1 : Visitor σ} {v2 : Visitor τ}
    (hj : Joint (Around h) v1 v2) (obj : Addr) :
    ∀ (fuel i : Nat) (st1 : St σ) (st2 : St τ), StRel (Around h) st1 st2 →
      OptRel (Around h) (contentsLoop v1 obj fuel i st1) (contentsLoop v2 obj fuel i st2) := by
  intro fuel
  induction fuel with
  | zero => intro i st1 st2 _; simp [contentsLoop, OptRel]
  | succ fuel ih =>
    intro i st1 st2 r
    rcases getArray_around r.1 obj with ⟨e1, e2⟩ | ⟨a1, a2, e1, e2, hn⟩
    · simp [contentsLoop, e1, e2, OptRel]
    · simp only [contentsLoop, e1, e2, Option.bind_eq_bind, Option.some_bind, hn]
      by_cases hlt : i < a2.length
      · simp only [hlt, if_true]
        exact ih _ _ _ (visit_rel hj _ r)
      · simp [hlt, OptRel, r]

theorem visitArrayObject_like {σ τ : Type} {h : Heap} {v1 : Visitor σ} {v2 : Visitor τ}
    (hj : Joint (Around h) v1 v2) (env : Env) (fuel : Nat) (obj : Addr) (st1 : St σ)
    (st2 : St τ) (r : StRel (Around h) st1 st2) :
    OptRel (Around h) (visitArrayObject env fuel v1 obj st1)
      (visitArrayObject env fuel v2 obj st2) := by
  unfold visitArrayObject
  have r1 := visit_rel hj (Slot.byteOffset obj 0) r
  simp only [Option.bind_eq_bind]
  rcases clazzOf_around r1.1 obj with ⟨n1, n2⟩ | ⟨x, y, o1, o2, hxy⟩
  · simp [n1, n2, OptRel]
  · simp only [o1, o2, Option.some_bind]
    rcases getClass_around r1.1 hxy with ⟨e1, e2⟩ |
      ⟨c1, c2, e1, e2, hf, _, _, _, _⟩
    · simp [e1, e2, OptRel]
    · simp only [e1, e2, Option.some_bind, hf]
      split
      · exact contentsLoop_like hj obj fuel 0 _ _ r1
      · exact r1

theorem visitDataObject_like {σ τ : Type} {h : Heap} {v1 : Visitor σ} {v2 : Visitor τ}
    (hj : Joint (Around h) v1 v2) (env : Env) (fuel : Nat) (obj : Addr) (st1 : St σ)
    (st2 : St τ) (r : StRel (Around h) st1 st2) :
    OptRel (Around h) (visitDataObject env fuel v1 obj st1)
      (visitDataObject env fuel v2 obj st2) := by
  unfold visitDataObject
  have r1 := visit_rel hj (Slot.byteOffset obj 0) r
  simp only [Option.bind_eq_bind]
  apply OptRel.bind (visitInstanceFields_like hj env fuel obj _ _ r1)
  intro a b rab
  rcases clazzOf_around rab.1 obj with ⟨n1, n2⟩ | ⟨x, y, o1, o2, hxy⟩
  · simp [n1, n2, OptRel]
  · simp only [o1, o2, Option.some_bind]
    rcases getClass_around rab.1 hxy with ⟨e1, e2⟩ |
      ⟨c1, c2, e1, e2, hf, _, _, _, _⟩
    · simp [e1, e2, OptRel]
    · simp only [e1, e2, Option.some_bind, hf]
      split
      · exact visit_rel hj _ rab
      · exact rab

theorem visitClassObject_like {σ τ : Type} {h : Heap} {v1 : Visitor σ} {v2 : Visitor τ}
    (hj : Joint (Around h) v1 v2) (env : Env) (fuel : Nat) (obj : Addr) (st1 : St σ)
    (st2 : St τ) (r : StRel (Around h) st1 st2) :
    OptRel (Around h) (visitClassObject env fuel v1 obj st1)
      (visitClassObject env fuel v2 obj st2) := by
  unfold visitClassObject
  have r1 := visit_rel hj (Slot.byteOffset obj 0) r
  simp only [Option.bind_eq_bind]
  rcases getClass_own_around r1.1 obj with ⟨e1, e2⟩ |
    ⟨c1, c2, e1, e2, hf, _, _, _, _⟩
  · simp [e1, e2, OptRel]
  simp only [e1, e2, Option.some_bind, hf]
  have r2 : StRel (Around h)
      (if IS_CLASS_FLAG_SET c2.accessFlags env.CLASS_ISARRAY = true then
        visit v1 (Slot.elementClass obj) (visit v1 (Slot.byteOffset obj 0) st1)
       else visit v1 (Slot.byteOffset obj 0) st1)
      (if IS_CLASS_FLAG_SET c2.accessFlags env.CLASS_ISARRAY = true then
        visit v2 (Slot.elementClass obj) (visit v2 (Slot.byteOffset obj 0) st2)
       else visit v2 (Slot.byteOffset obj 0) st2) := by
    split
    · exact visit_rel hj _ r1
    · exact r1
  revert r2
  generalize (if IS_CLASS_FLAG_SET c2.accessFlags env.CLASS_ISARRAY = true then
        visit v1 (Slot.elementClass obj) (visit v1 (Slot.byteOffset obj 0) st1)
       else visit v1 (Slot.byteOffset obj 0) st1) = s1
  generalize (if IS_CLASS_FLAG_SET c2.accessFlags env.CLASS_ISARRAY = true then
        visit v2 (Slot.elementClass obj) (visit v2 (Slot.byteOffset obj 0) st2)
       else visit v2 (Slot.byteOffset obj 0) st2) = s2
  intro r2
  rcases getClass_own_around r2.1 obj with ⟨e1, e2⟩ |
    ⟨d1, d2, e1, e2, _, hs, _, _, _⟩
  · simp [e1, e2, OptRel]
  simp only [e1, e2, Option.some_bind, hs]
  have r3 : StRel (Around h)
      (if d2.status > env.CLASS_IDX then visit v1 (Slot.super obj) s1 else s1)
      (if d2.status > env.CLASS_IDX then visit v2 (Slot.super obj) s2 else s2) := by
    split
    · exact visit_rel hj _ r2
    · exact r2
  have r4 := visit_rel hj (Slot.classLoader obj) r3
  apply OptRel.bind (visitInstanceFields_like hj env fuel obj _ _ r4)
  intro a5 b5 r5
  apply OptRel.bind (sfieldLoop_like hj obj fuel 0 _ _ r5)
  intro a6 b6 r6
  rcases getClass_own_around r6.1 obj with ⟨e1, e2⟩ |
    ⟨k1, k2, e1, e2, _, hs, _, _, _⟩
  · simp [e1, e2, OptRel]
  simp only [e1, e2, Option.some_bind, hs]
  split
  · exact interfaceLoop_like hj obj fuel 0 _ _ r6
  · exact r6

theorem dvmVisitObject_like {σ τ : Type} (env : Env) (fuel : Nat) (v1 : Visitor σ)
    (v2 : Visitor τ) (obj : Addr) (h : Heap) (x : σ) (y : τ) (k1 : KeepsLike h v1)
    (k2 : KeepsLike h v2) :
    slotsOf (dvmVisitObject env fuel v1 obj) h x = slotsOf (dvmVisitObject env fuel v2 obj) h y := by
  have hj := k1.around k2
  have r : StRel (Around h) ({ heap := h, vst := x, trace := [] } : St σ)
      ({ heap := h, vst := y, trace := [] } : St τ) := ⟨⟨Alike.self h, Alike.self h⟩, rfl⟩
  have key : OptRel (Around h)
      (dvmVisitObject env fuel v1 obj { heap := h, vst := x, trace := [] })
      (dvmVisitObject env fuel v2 obj { heap := h, vst := y, trace := [] }) := by
    unfold dvmVisitObject
    simp only [Option.bind_eq_bind]
    cases hc : clazzOf h obj with
    | none => simp [OptRel]
    | some clazz =>
      simp only [Option.some_bind]
      split
      · exact visitClassObject_like hj env fuel obj _ _ r
      · cases hk : getClass h clazz with
        | none => simp [OptRel]
        | some c =>
          simp only [Option.some_bind]
          split
          · exact visitArrayObject_like hj env fuel obj _ _ r
          · exact visitDataObject_like hj env fuel obj _ _ r
  exact key.map_trace

theorem getClass_setClazz (w : Heap) (obj b y : Addr) :
    (getClass w y = none ∧ getClass (modifyAt w obj (setClazz b)) y = none) ∨
    ∃ c d, getClass w y = some c ∧ getClass (modifyAt w obj (setClazz b)) y = some d ∧
      ptrPart c = ptrPart d ∧ ownPart c = ownPart d ∧ c.super = d.super := by
  unfold getClass modifyAt
  by_cases hy : y = obj
  · subst hy
    cases ho : w y with
    | none => simp
    | some o => cases o <;> simp [setClazz, ptrPart, ownPart]
  · cases ho : w y with
    | none => simp [hy, ho]
    | some o => cases o <;> simp [hy, ho]

theorem classLike_congr_right {h w w' : Heap}
    (hw : ∀ y, (getClass w y = none ∧ getClass w' y = none) ∨
      ∃ c d, getClass w y = some c ∧ getClass w' y = some d ∧ ptrPart c = ptrPart d ∧
        ownPart c = ownPart d ∧ c.super = d.super) {a b : Addr} (hl : ClassLike h w a b) :
    ClassLike h w' a b := by
  obtain ⟨S, hab, hS⟩ := hl
  refine ⟨S, hab, ?_⟩
  intro x y hxy
  obtain ⟨hz, hc⟩ := hS x y hxy
  refine ⟨hz, ?_⟩
  rcases hc with ⟨n1, n2⟩ | ⟨c, d, e1, e2, hm, hs⟩
  · rcases hw y with ⟨_, m2⟩ | ⟨c, _, f1, _, _, _, _⟩
    · exact Or.inl ⟨n1, m2⟩
    · rw [n2] at f1
      cases f1
  · rcases hw y with ⟨m1, _⟩ | ⟨c', d', f1, f2, hm', _, hs'⟩
    · rw [e2] at m1
      cases m1
    · rw [e2] at f1
      injection f1 with f1
      subst f1
      exact Or.inr ⟨c, d', e1, f2, hm.trans hm', hs' ▸ hs⟩

theorem alike_setClazz {h w : Heap} {obj a b : Addr} (hobj : clazzOf h obj = some a)
    (hab : ClassLike h h a b) (hw : Alike h w) : Alike h (modifyAt w obj (setClazz b)) := by
  have hcong : ∀ {p q : Addr}, ClassLike h w p q →
      ClassLike h (modifyAt w obj (setClazz b)) p q :=
    fun hl => classLike_congr_right (getClass_setClazz w obj b) hl
  intro p
  obtain ⟨hc, hown, ho, hn⟩ := hw p
  refine ⟨hcong hc, ?_, ?_, ?_⟩
  · rw [hown]
    rcases getClass_setClazz w obj b p with ⟨n1, n2⟩ | ⟨c, d, e1, e2, _, ho', _⟩
    · rw [n1, n2]
    · rw [e1, e2]
      simp [ho']
  · by_cases hp : p = obj
    · subst hp
      rcases ho with ⟨n1, _⟩ | ⟨x, y, e1, e2, _⟩
      · rw [hobj] at n1
        cases n1
      · rw [hobj] at e1
        injection e1 with e1
        subst e1
        refine Or.inr ⟨a, b, hobj, ?_, hcong (hab.comp (hw b).1)⟩
        unfold clazzOf modifyAt
        unfold clazzOf at e2
        cases hwo : w p with
        | none => simp [hwo] at e2
        | some o => cases o <;> simp [setClazz]
    · have e : clazzOf (modifyAt w obj (setClazz b)) p = clazzOf w p := by
        simp [clazzOf, modifyAt, hp]
      rcases ho with ⟨n1, n2⟩ | ⟨x, y, e1, e2, hxy⟩
      · exact Or.inl ⟨n1, by rw [e, n2]⟩
      · exact Or.inr ⟨x, y, e1, by rw [e, e2], hcong hxy⟩
  · rw [hn]
    unfold getArray modifyAt
    by_cases hp : p = obj
    · subst hp
      cases hwo : w p with
      | none => simp
      | some o => cases o <;> simp [setClazz]
    · simp [hp]

theorem keepsLike_forward {σ : Type} (h : Heap) (obj a b : Addr)
    (hobj : clazzOf h obj = some a) (hab : ClassLike h h a b) :
    KeepsLike h
      (overwrite (fun ref => if ref = Slot.byteOffset obj 0 then some b else none) :
        Visitor σ) := by
  intro s w hw
  unfold overwrite
  by_cases hs : s = Slot.byteOffset obj 0
  · subst hs
    simp only [if_true, writeSlot]
    exact alike_setClazz hobj hab hw
  · simp only [hs, if_false]
    exact hw

theorem classLike_of_same_class (h : Heap) (a b : Addr) (c : ClassObject) (ha : a ≠ 0)
    (hb : b ≠ 0) (hca : getClass h a = some c) (hcb : getClass h b = some c) :
    ClassLike h h a b := by
  refine ⟨fun x y => x = y ∨ (x = a ∧ y = b), Or.inr ⟨rfl, rfl⟩, ?_⟩
  rintro x y (rfl | ⟨rfl, rfl⟩)
  · refine ⟨Iff.rfl, ?_⟩
    cases hc : getClass h x with
    | none => exact Or.inl ⟨rfl, rfl⟩
    | some d => exact Or.inr ⟨d, d, rfl, rfl, rfl, Or.inl rfl⟩
  · exact ⟨⟨fun e => absurd e ha, fun e => absurd e hb⟩,
      Or.inr ⟨c, c, hca, hcb, rfl, Or.inl rfl⟩⟩

/-! ## The claims -/

/-! ### C1: bitmap and fallback agree -/

/-- C1: let the reference fields of a class chain (the first `ifieldRefCount` descriptors of
each class, from the runtime class up to the root) all sit at offsets
`CLASS_SMALLEST_OFFSET + 4 * k` with `k < 32`, and let `B` be the bitwise OR of
`CLASS_HIGH_BIT >> k` over them, `B` not the sentinel.  Then the fast path run on a class
with `refOffsets = B` and the fallback walk run on the chain with the sentinel both return,
and they hand out the same set of slots of the object. -/
theorem visitInstanceFields_bitmap_fallback_equiv {σ τ : Type} (env : Env) (fuel : Nat)
    (vFast : Visitor σ) (vWalk : Visitor τ) (obj : Addr) (cs : List ClassObject)
    (hFast hWalk : Heap) (xFast : σ) (xWalk : τ)
    (clazzFast clazzWalk : Addr) (cFast cWalk : ClassObject)
    (hv : Preserves vWalk)
    (henc : ∀ d ∈ cs, ∀ f ∈ d.ifields.take d.ifieldRefCount.toNat,
      ∃ k, k < 32 ∧ f.byteOffset = env.CLASS_SMALLEST_OFFSET + 4 * k)
    (hBne : bitmapOfChain env cs ≠ env.CLASS_WALK_SUPER)
    (hobjF : clazzOf hFast obj = some clazzFast) (hclsF : getClass hFast clazzFast = some cFast)
    (hB : cFast.refOffsets = bitmapOfChain env cs)
    (hobjW : clazzOf hWalk obj = some clazzWalk) (hclsW : getClass hWalk clazzWalk = some cWalk)
    (hws : cWalk.refOffsets = env.CLASS_WALK_SUPER) (hch : IsChain hWalk clazzWalk cs)
    (hwf : ∀ d ∈ cs, d.ifieldRefCount ≤ d.ifields.length ∧ d.ifieldRefCount.toNat < fuel)
    (hfuel : 32 ≤ fuel ∧ cs.length < fuel) :
    ∃ tFast tWalk,
      slotsOf (visitInstanceFields env fuel vFast obj) hFast xFast = some tFast ∧
      slotsOf (visitInstanceFields env fuel vWalk obj) hWalk xWalk = some tWalk ∧
      ∀ s, s ∈ tFast ↔ s ∈ tWalk := by
  have henc' : ∀ off ∈ chainOffsets cs,
      ∃ k, k < 32 ∧ off = env.CLASS_SMALLEST_OFFSET + 4 * k := by
    intro off hoff
    obtain ⟨d, hd, f, hf, rfl⟩ := (mem_chainOffsets cs off).1 hoff
    exact henc d hd f hf
  have hF := visitInstanceFields_bitmap env fuel vFast obj clazzFast cFast
    { heap := hFast, vst := xFast, trace := [] } hobjF hclsF (by rw [hB]; exact hBne)
    (by rw [hB]; exact bitmapOfChain_lt env cs) hfuel.1
  obtain ⟨st', hW, htr, _⟩ := visitInstanceFields_walk env fuel vWalk hv obj clazzWalk cWalk cs
    { heap := hWalk, vst := xWalk, trace := [] } hobjW hclsW hws hch hwf hfuel.2
  refine ⟨_, _, slotsOf_eq hF, slotsOf_eq hW, ?_⟩
  intro s
  rw [htr, visitAll_trace, hB]
  simp only [List.nil_append, List.mem_map, mem_bitmapOffsets_chain env cs henc']

theorem visitInstanceFields_bitmap_fallback_equiv_witness :
    ∃ tFast tWalk,
      slotsOf (visitInstanceFields env0 32 (noWrite : Visitor Unit) 500) heapABCfast ()
        = some tFast ∧
      slotsOf (visitInstanceFields env0 32 (noWrite : Visitor Unit) 500) heapABC ()
        = some tWalk ∧
      ∀ s, s ∈ tFast ↔ s ∈ tWalk :=
  visitInstanceFields_bitmap_fallback_equiv env0 32 noWrite noWrite 500
    [classC, classB, classA] heapABCfast heapABC () () 203 203
    { classC with refOffsets := 2 ^ 31 + 2 ^ 30 + 2 ^ 29 } classC preserves_noWrite
    (by decide) (by decide) (by decide) (by decide) (by decide) (by decide) (by decide)
    (by decide) (by decide) (by decide) (by decide)

/-! ### C2: no slot twice -/

/-- C2, as stated, fails: nothing in the enumeration keeps two slots apart.  For an object
whose class has `CLASS_ISREFERENCE` set and whose bitmap also encodes the field at the
registered referent offset, the slot at that offset is handed out twice, once by
`visitInstanceFields` and once as the referent.  And for a Class object whose own class
declares a reference field at the offset where the struct layout has the `super` member,
the address of `super` is handed out twice, once as the named member and once through its
byte offset. -/
theorem dvmVisitObject_slot_twice_counterexample :
    slotsOf (dvmVisitObject env0 32 (noWrite : Visitor Unit) 500) heapReferentInBitmap ()
        = some [Slot.byteOffset 500 0, Slot.byteOffset 500 8, Slot.byteOffset 500 8] ∧
      ¬ [Slot.byteOffset 500 0, Slot.byteOffset 500 8, Slot.byteOffset 500 8].Nodup ∧
      slotsOf (dvmVisitObject env0 32 (noWrite : Visitor Unit) 301) heapAliased ()
        = some [Slot.byteOffset 301 0, Slot.elementClass 301, Slot.super 301,
            Slot.classLoader 301, Slot.byteOffset 301 72, Slot.sfieldValue 301 1,
            Slot.interfaces 301 0, Slot.interfaces 301 1] ∧
      addressOf layout0 (Slot.super 301) = addressOf layout0 (Slot.byteOffset 301 72) ∧
      ¬ ([Slot.byteOffset 301 0, Slot.elementClass 301, Slot.super 301,
            Slot.classLoader 301, Slot.byteOffset 301 72, Slot.sfieldValue 301 1,
            Slot.interfaces 301 0, Slot.interfaces 301 1].map (addressOf layout0)).Nodup := by
  decide

/-- C2, amended: let the writes of the visitor keep the heap alike to the heap the call
started on (class pointers may be forwarded to copies of the class, see `Alike`).  Let the
instance-field enumeration of the object's class yield offsets that are different from
0, the offset of the class pointer, and, in fallback mode, pairwise distinct (in bitmap mode
they are so by themselves); this concerns Class objects and plain objects.  For a plain
object whose class has `CLASS_ISREFERENCE` set, let moreover the registered referent offset
be none of these offsets nor 0.  For a Class object and for an array, let the struct layout
put the lvalues the enumeration hands out (for a Class object the class pointer, the
enumerated offsets, `classLoader`, the value cells of the reference-typed static fields,
`elementClass` of an array class and, above `CLASS_IDX`, `super` and the interface entries;
for an array the class pointer and, in an array of objects, the elements) at pairwise
different addresses.  Then a single call of `dvmVisitObject`
(Class object, array or plain object, bitmap or fallback mode) returns, the counts being
within the descriptor arrays and the fuel, and the addresses it hands to the visitor are
pairwise distinct. -/
theorem dvmVisitObject_no_slot_twice {σ : Type} (env : Env) (fuel : Nat) (L : Layout)
    (v : Visitor σ) (obj clazz : Addr) (c : ClassObject) (offs : List Nat) (h : Heap) (x : σ)
    (hv : KeepsLike h v)
    (hobj : clazzOf h obj = some clazz) (hcls : getClass h clazz = some c)
    (hclass : clazz = env.classJavaLangClass →
      ∃ k, getClass h obj = some k ∧ k.sfieldCount ≤ k.sfields.length ∧
        k.sfieldCount.toNat < fuel ∧
        (k.status > env.CLASS_IDX → k.interfaceCount.toNat < fuel) ∧
        Apart L (classLvalues env obj k offs))
    (harray : clazz ≠ env.classJavaLangClass →
      IS_CLASS_FLAG_SET c.accessFlags env.CLASS_ISARRAY = true →
      ∃ a, getArray h obj = some a ∧ a.length < fuel ∧
        Apart L (arrayLvalues env obj c a.length))
    (hfields : clazz = env.classJavaLangClass ∨
        IS_CLASS_FLAG_SET c.accessFlags env.CLASS_ISARRAY = false →
      InstLayout env fuel h clazz offs ∧ 0 ∉ offs ∧
        (c.refOffsets = env.CLASS_WALK_SUPER → offs.Nodup))
    (href : clazz ≠ env.classJavaLangClass →
      IS_CLASS_FLAG_SET c.accessFlags env.CLASS_ISARRAY = false →
      IS_CLASS_FLAG_SET c.accessFlags env.CLASS_ISREFERENCE = true →
      env.offJavaLangRefReference_referent ∉ 0 :: offs) :
    ∃ t, slotsOf (dvmVisitObject env fuel v obj) h x = some t ∧
      (t.map (addressOf L)).Nodup := by
  rw [dvmVisitObject_like env fuel v (noWrite : Visitor σ) obj h x x hv (keepsLike_noWrite h)]
  have hp : Preserves (noWrite : Visitor σ) := preserves_noWrite
  by_cases hJ : clazz = env.classJavaLangClass
  · obtain ⟨k, hk, hlen, hsf, hif, hap⟩ := hclass hJ
    obtain ⟨hl, h0, hw⟩ := hfields (Or.inl hJ)
    have hkc : k.obj.clazz = clazz := by
      have := clazzOf_of_getClass hk
      rw [hobj] at this
      injection this with e
      exact e.symm
    have hnd := nodup_classSlots env obj k offs (hl.nodup hcls hw) h0
    exact ⟨classSlots env obj k offs,
      dvmVisitObject_class env fuel noWrite hp obj k offs h x hk (hkc.trans hJ) (hkc ▸ hl) hlen
        hsf hif,
      nodup_map_addressOf L _ _ hnd (classLvalues_of_mem env obj k offs) hap⟩
  · cases hA : IS_CLASS_FLAG_SET c.accessFlags env.CLASS_ISARRAY with
    | true =>
      obtain ⟨a, harr, hfuel, hap⟩ := harray hJ hA
      have hnd := nodup_arraySlots env obj c a
      exact ⟨arraySlots env obj c a,
        dvmVisitObject_array env fuel noWrite hp obj clazz c a h x hobj hJ hcls hA harr hfuel,
        nodup_map_addressOf L _ _ hnd (arrayLvalues_of_mem env obj c a) hap⟩
    | false =>
      obtain ⟨hl, h0, hw⟩ := hfields (Or.inr hA)
      have hnd := nodup_dataSlots env obj c offs (hl.nodup hcls hw) h0 (href hJ hA)
      refine ⟨dataSlots env obj c offs,
        dvmVisitObject_data env fuel noWrite hp obj clazz c offs h x hobj hJ hcls hA hl,
        nodup_map_addressOf L _ _ hnd ?_ (apart_byteOffsets L obj)⟩
      intro s hs
      simp only [dataSlots, List.mem_append, List.mem_singleton, List.mem_map] at hs
      rcases hs with (rfl | ⟨off, _, rfl⟩) | hs
      · exact ⟨0, rfl⟩
      · exact ⟨off, rfl⟩
      · exact ⟨_, mem_ite_singleton hs⟩

theorem dvmVisitObject_no_slot_twice_witness :
    (∃ t, slotsOf (dvmVisitObject env0 32 scribble 300) heapComposite () = some t ∧
      (t.map (addressOf layout0)).Nodup) ∧
    (∃ t, slotsOf (dvmVisitObject env0 101 scribble 500) heapArrays () = some t ∧
      (t.map (addressOf layout0)).Nodup) ∧
    (∃ t, slotsOf (dvmVisitObject env0 32 scribble 600) heapReference () = some t ∧
      (t.map (addressOf layout0)).Nodup) :=
  ⟨dvmVisitObject_no_slot_twice env0 32 layout0 scribble 300 100 classOneRef
      (bitmapOffsets env0 classOneRef.refOffsets) heapComposite ()
      ((preserves_overwrite _ (fun _ => rfl) (fun _ => rfl)).keepsLike _) (by decide)
      (by decide)
      (fun _ => ⟨classComposite, by decide, by decide, by decide, fun _ => by decide,
        apart_layout0_class env0 classComposite _ (by decide)⟩)
      (fun hne => absurd rfl hne)
      (fun _ => ⟨InstLayout.bitmap classOneRef (by decide) (by decide) (by decide) (by decide),
        by decide, by decide⟩)
      (fun hne => absurd rfl hne),
   dvmVisitObject_no_slot_twice env0 101 layout0 scribble 500 201 classObjArray [] heapArrays ()
      ((preserves_overwrite _ (fun _ => rfl) (fun _ => rfl)).keepsLike _) (by decide)
      (by decide)
      (fun e => absurd e (by decide))
      (fun _ _ => ⟨array100 201, by decide, by decide, apart_layout0_array _ _ _⟩)
      (fun e => (e.elim (fun e => absurd e (by decide)) (fun e => absurd e (by decide))))
      (fun _ e => absurd e (by decide)),
   dvmVisitObject_no_slot_twice env0 32 layout0 scribble 600 202 classReference
      (bitmapOffsets env0 classReference.refOffsets) heapReference ()
      ((preserves_overwrite _ (fun _ => rfl) (fun _ => rfl)).keepsLike _) (by decide)
      (by decide)
      (fun e => absurd e (by decide))
      (fun _ e => absurd e (by decide))
      (fun _ => ⟨InstLayout.bitmap classReference (by decide) (by decide) (by decide)
        (by decide), by decide, by decide⟩)
      (fun _ _ _ => by decide)⟩

/-! ### C3: the fallback walk -/

/-- C3, as stated, fails: a class in fallback mode that declares a reference field at offset
8 and an `int` field at offset 12 (`ifieldRefCount = 1`) has only the slot at 8 visited, not
the slot of every descriptor of its instance-field list. -/
theorem visitInstanceFields_fallback_all_descriptors_counterexample :
    clazzOf heapMixed 500 = some 200 ∧ IsChain heapMixed 200 [classMixed] ∧
      classMixed.refOffsets = env0.CLASS_WALK_SUPER ∧
      slotsOf (visitInstanceFields env0 8 (noWrite : Visitor Unit) 500) heapMixed () =
        some [Slot.byteOffset 500 8] ∧
      slotsOf (visitInstanceFields env0 8 (noWrite : Visitor Unit) 500) heapMixed () ≠
        some ((allFieldOffsets [classMixed]).map (Slot.byteOffset 500)) :=
  ⟨by decide, by decide, by decide, by decide, by decide⟩

/-- C3, amended: when the object's class carries the `CLASS_WALK_SUPER` sentinel, the walk
returns and the slots handed out are, for each class of the chain from the exact runtime
class up through each superclass to the root, the stored byte offsets of the first
`ifieldRefCount` descriptors of that class's own instance-field list, in declaration
order (for every visitor that leaves class metadata alone). -/
theorem visitInstanceFields_fallback_path {σ : Type} (env : Env) (fuel : Nat) (v : Visitor σ)
    (obj clazz : Addr) (c : ClassObject) (cs : List ClassObject) (h : Heap) (x : σ)
    (hv : Preserves v)
    (hobj : clazzOf h obj = some clazz) (hcls : getClass h clazz = some c)
    (hws : c.refOffsets = env.CLASS_WALK_SUPER) (hch : IsChain h clazz cs)
    (hwf : ∀ d ∈ cs, d.ifieldRefCount ≤ d.ifields.length ∧ d.ifieldRefCount.toNat < fuel)
    (hfuel : cs.length < fuel) :
    slotsOf (visitInstanceFields env fuel v obj) h x =
      some ((cs.flatMap (fun d =>
        (d.ifields.take d.ifieldRefCount.toNat).map InstField.byteOffset)).map
          (Slot.byteOffset obj)) := by
  obtain ⟨st', hrun, htr, _⟩ := visitInstanceFields_walk env fuel v hv obj clazz c cs
    { heap := h, vst := x, trace := [] } hobj hcls hws hch hwf hfuel
  rw [slotsOf_eq hrun, htr]
  rfl

theorem visitInstanceFields_fallback_path_witness :
    slotsOf (visitInstanceFields env0 8 (noWrite : Visitor Unit) 500) heapABC () =
      some (([classC, classB, classA].flatMap (fun d =>
        (d.ifields.take d.ifieldRefCount.toNat).map InstField.byteOffset)).map
          (Slot.byteOffset 500)) :=
  visitInstanceFields_fallback_path env0 8 noWrite 500 203 classC [classC, classB, classA]
    heapABC () preserves_noWrite (by decide) (by decide) (by decide)
    (by decide)
    (by decide) (by decide)

/-! ### C4: completeness under inheritance -/

/-- C4: in a superclass chain of any depth whose reference fields sit at pairwise different
offsets, the fallback walk on an instance of the most-derived class returns and visits
exactly the reference-field slots of all classes of the chain, each exactly once; the
number of visits is the sum of `ifieldRefCount` over the chain. -/
theorem visitInstanceFields_inheritance_complete {σ : Type} (env : Env) (fuel : Nat)
    (v : Visitor σ) (obj clazz : Addr) (c : ClassObject) (cs : List ClassObject) (h : Heap)
    (x : σ) (hv : Preserves v)
    (hobj : clazzOf h obj = some clazz) (hcls : getClass h clazz = some c)
    (hws : c.refOffsets = env.CLASS_WALK_SUPER) (hch : IsChain h clazz cs)
    (hcount : ∀ d ∈ cs, 0 ≤ d.ifieldRefCount ∧ d.ifieldRefCount ≤ d.ifields.length)
    (hdistinct : (cs.flatMap (fun d =>
        (d.ifields.take d.ifieldRefCount.toNat).map InstField.byteOffset)).Nodup)
    (hfuel : cs.length < fuel ∧ ∀ d ∈ cs, d.ifieldRefCount.toNat < fuel) :
    ∃ t, slotsOf (visitInstanceFields env fuel v obj) h x = some t ∧
      (∀ s, s ∈ t ↔ ∃ d ∈ cs, ∃ f ∈ d.ifields.take d.ifieldRefCount.toNat,
        s = Slot.byteOffset obj f.byteOffset) ∧
      (∀ s ∈ t, t.count s = 1) ∧
      (t.length : Int) = (cs.map ClassObject.ifieldRefCount).sum := by
  obtain ⟨st', hrun, htr, _⟩ := visitInstanceFields_walk env fuel v hv obj clazz c cs
    { heap := h, vst := x, trace := [] } hobj hcls hws hch
    (fun d hd => ⟨(hcount d hd).2, hfuel.2 d hd⟩) hfuel.1
  have hnd : ((chainOffsets cs).map (Slot.byteOffset obj)).Nodup :=
    List.Nodup.map (fun a b hab => (Slot.byteOffset.inj hab).2) hdistinct
  refine ⟨_, by rw [slotsOf_eq hrun, htr], ?_, ?_, ?_⟩
  · intro s
    simp only [List.nil_append, List.mem_map, mem_chainOffsets]
    constructor
    · rintro ⟨off, ⟨d, hd, f, hf, rfl⟩, rfl⟩
      exact ⟨d, hd, f, hf, rfl⟩
    · rintro ⟨d, hd, f, hf, rfl⟩
      exact ⟨f.byteOffset, ⟨d, hd, f, hf, rfl⟩, rfl⟩
  · intro s hs
    exact List.count_eq_one_of_mem hnd hs
  · simp only [List.nil_append, List.length_map]
    exact chainOffsets_length cs hcount

theorem visitInstanceFields_inheritance_complete_witness :
    ∃ t, slotsOf (visitInstanceFields env0 8 (noWrite : Visitor Unit) 500) heapABC () = some t ∧
      (∀ s, s ∈ t ↔ ∃ d ∈ [classC, classB, classA],
        ∃ f ∈ d.ifields.take d.ifieldRefCount.toNat, s = Slot.byteOffset 500 f.byteOffset) ∧
      (∀ s ∈ t, t.count s = 1) ∧
      (t.length : Int) = ([classC, classB, classA].map ClassObject.ifieldRefCount).sum :=
  visitInstanceFields_inheritance_complete env0 8 noWrite 500 203 classC
    [classC, classB, classA] heapABC () preserves_noWrite (by decide) (by decide) (by decide)
    (by decide)
    (by decide) (by decide) (by decide)

/-! ### C5: the bitmap fast path -/

/-- C5: on a class whose 32-bit reference-offset word is not the sentinel, the fast path of
`visitInstanceFields` returns (32 rounds suffice) for any visitor whatever, and hands out
exactly the slots at `CLASS_OFFSET_FROM_CLZ k = CLASS_SMALLEST_OFFSET + 4 * k` for the
positions `k` whose bit, `k` places below the top bit, is set, from the top bit down; the
offsets are strictly increasing and there are as many as the word has bits set. -/
theorem visitInstanceFields_fast_path {σ : Type} (env : Env) (fuel : Nat) (v : Visitor σ)
    (obj clazz : Addr) (c : ClassObject) (h : Heap) (x : σ)
    (hobj : clazzOf h obj = some clazz) (hcls : getClass h clazz = some c)
    (h32 : c.refOffsets < 2 ^ 32) (hne : c.refOffsets ≠ env.CLASS_WALK_SUPER)
    (hfuel : 32 ≤ fuel) :
    slotsOf (visitInstanceFields env fuel v obj) h x =
        some ((((List.range 32).filter (fun k => c.refOffsets.testBit (31 - k))).map
          (fun k => CLASS_OFFSET_FROM_CLZ env k)).map (Slot.byteOffset obj)) ∧
      (∀ k, CLASS_OFFSET_FROM_CLZ env k = env.CLASS_SMALLEST_OFFSET + 4 * k) ∧
      (((List.range 32).filter (fun k => c.refOffsets.testBit (31 - k))).map
          (fun k => CLASS_OFFSET_FROM_CLZ env k)).Pairwise (fun a b => a < b) ∧
      (((List.range 32).filter (fun k => c.refOffsets.testBit (31 - k))).map
          (fun k => CLASS_OFFSET_FROM_CLZ env k)).length = popCount32 c.refOffsets := by
  have hk : ∀ k, CLASS_OFFSET_FROM_CLZ env k = env.CLASS_SMALLEST_OFFSET + 4 * k := by
    intro k; unfold CLASS_OFFSET_FROM_CLZ; omega
  have hdef : ((List.range 32).filter (fun k => c.refOffsets.testBit (31 - k))).map
      (fun k => CLASS_OFFSET_FROM_CLZ env k) = bitmapOffsets env c.refOffsets := by
    unfold bitmapOffsets
    exact List.map_congr_left (fun k _ => hk k)
  rw [hdef]
  refine ⟨?_, hk, bitmapOffsets_pairwise env _, bitmapOffsets_length env _⟩
  rw [slotsOf_eq (visitInstanceFields_bitmap env fuel v obj clazz c
    { heap := h, vst := x, trace := [] } hobj hcls hne h32 hfuel), visitAll_trace]
  rfl

theorem visitInstanceFields_fast_path_witness :
    slotsOf (visitInstanceFields env0 32 (noWrite : Visitor Unit) 500) heapBitmap () =
        some ((((List.range 32).filter (fun k => classBitmap.refOffsets.testBit (31 - k))).map
          (fun k => CLASS_OFFSET_FROM_CLZ env0 k)).map (Slot.byteOffset 500)) ∧
      (∀ k, CLASS_OFFSET_FROM_CLZ env0 k = env0.CLASS_SMALLEST_OFFSET + 4 * k) ∧
      (((List.range 32).filter (fun k => classBitmap.refOffsets.testBit (31 - k))).map
          (fun k => CLASS_OFFSET_FROM_CLZ env0 k)).Pairwise (fun a b => a < b) ∧
      (((List.range 32).filter (fun k => classBitmap.refOffsets.testBit (31 - k))).map
          (fun k => CLASS_OFFSET_FROM_CLZ env0 k)).length = popCount32 classBitmap.refOffsets :=
  visitInstanceFields_fast_path env0 32 noWrite 500 200 classBitmap heapBitmap ()
    (by decide) (by decide) (by decide) (by decide) (by decide)

/-! ### C6: visitors that write -/

/-- C6, as stated, fails: a visitor that overwrites the class-pointer slot it is handed
changes the rest of the enumeration, because `visitDataObject` reads `obj->clazz` again
after the visit.  With the class pointer of the object at 500 redirected from a field-less
class to a class with a reference field at offset 8, the slot at offset 8 is handed out,
while a visitor that writes nothing is handed the class-pointer slot only. -/
theorem dvmVisitObject_rewritten_class_pointer_counterexample :
    slotsOf (dvmVisitObject env0 32 retype 500) heapRetype ()
        = some [Slot.byteOffset 500 0, Slot.byteOffset 500 8] ∧
      slotsOf (dvmVisitObject env0 32 (noWrite : Visitor Unit) 500) heapRetype ()
        = some [Slot.byteOffset 500 0] ∧
      slotsOf (dvmVisitObject env0 32 retype 500) heapRetype ()
        ≠ slotsOf (dvmVisitObject env0 32 (noWrite : Visitor Unit) 500) heapRetype () := by
  decide

/-- C6, amended: for every heap object and every visitor whose writes keep the heap alike to
the heap the call started on, the sequence of slots `dvmVisitObject` hands out, and whether
it returns, are the same as with a visitor that writes nothing.  Alike means: every Class
object keeps the flags, status, static-field descriptors and counts that are read of it,
every array its length, and every class pointer and superclass pointer leads to a class
with the same flags, reference-offset word and instance-field descriptors all the way up
the superclass chain as before.  So a class pointer or superclass pointer may be replaced
by a pointer to such a class, as when the visitor forwards the class pointer it is handed to
the moved copy of the class; nothing is asked of what the other slots hold. -/
theorem dvmVisitObject_tolerates_rewrites {σ τ : Type} (env : Env) (fuel : Nat)
    (v : Visitor σ) (obj : Addr) (h : Heap) (x : σ) (y : τ) (hv : KeepsLike h v) :
    slotsOf (dvmVisitObject env fuel v obj) h x
      = slotsOf (dvmVisitObject env fuel (noWrite : Visitor τ) obj) h y :=
  dvmVisitObject_like env fuel v noWrite obj h x y hv (keepsLike_noWrite h)

theorem dvmVisitObject_tolerates_rewrites_witness :
    (clazzOf heapMoved 500 = some 203 ∧
      clazzOf (forward (Slot.byteOffset 500 0) (heapMoved, ())).1 500 = some 204 ∧
      slotsOf (dvmVisitObject env0 8 forward 500) heapMoved ()
        = slotsOf (dvmVisitObject env0 8 (noWrite : Visitor Unit) 500) heapMoved () ∧
      slotsOf (dvmVisitObject env0 8 (noWrite : Visitor Unit) 500) heapMoved ()
        = some [Slot.byteOffset 500 0, Slot.byteOffset 500 16, Slot.byteOffset 500 12,
            Slot.byteOffset 500 8]) ∧
    (clazzOf heapCopies 500 = some 201 ∧
      clazzOf (retype (Slot.byteOffset 500 0) (heapCopies, ())).1 500 = some 202 ∧
      slotsOf (dvmVisitObject env0 32 retype 500) heapCopies ()
        = slotsOf (dvmVisitObject env0 32 (noWrite : Visitor Unit) 500) heapCopies () ∧
      slotsOf (dvmVisitObject env0 32 (noWrite : Visitor Unit) 500) heapCopies ()
        = some [Slot.byteOffset 500 0, Slot.byteOffset 500 8]) :=
  ⟨⟨by decide, by decide,
    dvmVisitObject_tolerates_rewrites env0 8 forward 500 heapMoved () ()
      (keepsLike_forward heapMoved 500 203 204 (by decide)
        (classLike_of_same_class heapMoved 203 204 classC (by decide) (by decide) (by decide)
          (by decide))),
    by decide⟩,
   ⟨by decide, by decide,
    dvmVisitObject_tolerates_rewrites env0 32 retype 500 heapCopies () ()
      (keepsLike_forward heapCopies 500 201 202 (by decide)
        (classLike_of_same_class heapCopies 201 202 classOneRef (by decide) (by decide)
          (by decide) (by decide))),
    by decide⟩⟩

/-! ### C7: the initialisation guard -/

/-- C7, as stated, fails: the Class-of-classes singleton is its own class, so when it is in
fallback mode the walk of `visitInstanceFields` reads its `super` field whatever its status
is.  At status 0 the visited slots then depend on what `super` holds: with `super = NULL`
two slots are handed out, with `super` pointing at a class that has a reference field at
offset 8 a third one is.  And when the singleton declares a reference field at the offset
where the struct layout has the `super` member, the address of the `super` member of a
Class object at status 0 is handed to the visitor through that byte offset. -/
theorem dvmVisitObject_poisoned_super_counterexample :
    classSelf.status ≤ env0.CLASS_IDX ∧
      clazzOf heapSelf 100 = some env0.classJavaLangClass ∧
      slotsOf (dvmVisitObject env0 8 (noWrite : Visitor Unit) 100) heapSelf ()
        = some [Slot.byteOffset 100 0, Slot.classLoader 100] ∧
      slotsOf (dvmVisitObject env0 8 (noWrite : Visitor Unit) 100)
          (setObject heapSelf 100 (.classObject { classSelf with super := 201 })) ()
        = some [Slot.byteOffset 100 0, Slot.classLoader 100, Slot.byteOffset 100 8] ∧
      slotsOf (dvmVisitObject env0 8 (noWrite : Visitor Unit) 100)
          (setObject heapSelf 100 (.classObject { classSelf with super := 201 })) ()
        ≠ slotsOf (dvmVisitObject env0 8 (noWrite : Visitor Unit) 100) heapSelf () ∧
      classLoading.status ≤ env0.CLASS_IDX ∧
      slotsOf (dvmVisitObject env0 8 (noWrite : Visitor Unit) 300) heapAliased ()
        = some [Slot.byteOffset 300 0, Slot.elementClass 300, Slot.classLoader 300,
            Slot.byteOffset 300 72, Slot.sfieldValue 300 1] ∧
      addressOf layout0 (Slot.byteOffset 300 72) = addressOf layout0 (Slot.super 300) := by
  decide

/-- C7, amended: on a Class object, with a visitor whose writes keep the heap alike to the
heap the call started on (see `Alike`), `dvmVisitObject` returns.  If the status is not
above `CLASS_IDX`: provided that none of the members the enumeration hands out at this status (the class
pointer, `elementClass` of an array class, `classLoader`, the value cells of the
reference-typed static fields) and none of the instance-field offsets enumerated for the object lies at the address of the `super`
member or of one of the first `interfaceCount` interface entries, no address handed to the
visitor is that of the superclass slot or of such an interface entry; and if the object is
not itself one of the classes on the superclass chain that the fallback walk of its own
class traverses, the sequence of slots is the same whatever its `super`, `interfaces` and
`interfaceCount` fields hold (the visitor keeping that heap alike as well).  If the status
is above `CLASS_IDX`, the superclass slot and all `interfaceCount` interface entries are
visited. -/
theorem dvmVisitObject_initialization_guard {σ : Type} (env : Env) (fuel : Nat) (L : Layout)
    (v : Visitor σ) (obj : Addr) (k : ClassObject) (offs : List Nat) (h : Heap) (x : σ)
    (hv : KeepsLike h v)
    (hk : getClass h obj = some k) (hJ : k.obj.clazz = env.classJavaLangClass)
    (hl : InstLayout env fuel h k.obj.clazz offs)
    (hlen : k.sfieldCount ≤ k.sfields.length) (hsf : k.sfieldCount.toNat < fuel)
    (hif : k.status > env.CLASS_IDX → k.interfaceCount.toNat < fuel) :
    ∃ t, slotsOf (dvmVisitObject env fuel v obj) h x = some t ∧
      (k.status ≤ env.CLASS_IDX →
        ((∀ s, classLvalues env obj k [] s →
            addressOf L s ≠ addressOf L (Slot.super obj) ∧
            ∀ i : Nat, (i : Int) < k.interfaceCount →
              addressOf L s ≠ addressOf L (Slot.interfaces obj i)) →
          (∀ off ∈ offs, obj + off ≠ addressOf L (Slot.super obj) ∧
            ∀ i : Nat, (i : Int) < k.interfaceCount →
              obj + off ≠ addressOf L (Slot.interfaces obj i)) →
          ∀ s ∈ t, addressOf L s ≠ addressOf L (Slot.super obj) ∧
            ∀ i : Nat, (i : Int) < k.interfaceCount →
              addressOf L s ≠ addressOf L (Slot.interfaces obj i)) ∧
        ((∀ m cs, getClass h k.obj.clazz = some m → m.refOffsets = env.CLASS_WALK_SUPER →
            IsChain h k.obj.clazz cs → obj ∉ chainAddrs k.obj.clazz cs) →
          ∀ (super' : Addr) (interfaces' : List Addr) (interfaceCount' : Int),
            KeepsLike
              (setObject h obj (.classObject { k with super := super',
                                                       interfaces := interfaces',
                                                       interfaceCount := interfaceCount' })) v →
            slotsOf (dvmVisitObject env fuel v obj)
              (setObject h obj (.classObject { k with super := super',
                                                       interfaces := interfaces',
                                                       interfaceCount := interfaceCount' })) x
              = some t)) ∧
      (k.status > env.CLASS_IDX →
        Slot.super obj ∈ t ∧
        ∀ i : Nat, (i : Int) < k.interfaceCount → Slot.interfaces obj i ∈ t) := by
  have hp : Preserves (noWrite : Visitor σ) := preserves_noWrite
  refine ⟨classSlots env obj k offs, ?_, ?_, ?_⟩
  · rw [dvmVisitObject_like env fuel v (noWrite : Visitor σ) obj h x x hv (keepsLike_noWrite h)]
    exact dvmVisitObject_class env fuel noWrite hp obj k offs h x hk hJ hl hlen hsf hif
  · intro hs
    have hn : ¬ k.status > env.CLASS_IDX := by omega
    refine ⟨?_, ?_⟩
    · intro hmem hoffs s hst
      rcases mem_classSlots env obj k offs s hst with
        rfl | ⟨hf, rfl⟩ | ⟨hgt, _⟩ | rfl | ⟨off, hoff, rfl⟩ | ⟨i, hi, hany, rfl⟩ | ⟨hgt, _⟩
      · exact hmem _ ⟨rfl, Or.inl rfl⟩
      · exact hmem _ ⟨rfl, hf⟩
      · exact absurd hgt hn
      · exact hmem _ rfl
      · exact hoffs off hoff
      · exact hmem _ ⟨rfl, hi, hany⟩
      · exact absurd hgt hn
    · intro hoff super' interfaces' interfaceCount' hv'
      rw [dvmVisitObject_like env fuel v (noWrite : Visitor σ) obj _ x x hv' (keepsLike_noWrite _),
        dvmVisitObject_class env fuel noWrite hp obj
        { k with super := super', interfaces := interfaces', interfaceCount := interfaceCount' }
        offs _ x (getClass_setObject_self h obj _) hJ
        (InstLayout_setObject hl hk rfl hoff) hlen hsf (fun hgt => absurd hgt hn)]
      simp [classSlots, staticSlots, hn]
  · intro hs
    exact super_mem_classSlots env obj k offs hs

theorem dvmVisitObject_initialization_guard_witness :
    (∃ t, slotsOf (dvmVisitObject env0 32 (noWrite : Visitor Unit) 300) heapHalf () = some t ∧
      (∀ s ∈ t, addressOf layout0 s ≠ addressOf layout0 (Slot.super 300) ∧
        ∀ i : Nat, (i : Int) < classHalf.interfaceCount →
          addressOf layout0 s ≠ addressOf layout0 (Slot.interfaces 300 i)) ∧
      ∀ (super' : Addr) (interfaces' : List Addr) (interfaceCount' : Int),
        slotsOf (dvmVisitObject env0 32 (noWrite : Visitor Unit) 300)
          (setObject heapHalf 300 (.classObject { classHalf with
            super := super', interfaces := interfaces',
            interfaceCount := interfaceCount' })) ()
          = some t) ∧
    (∃ t, slotsOf (dvmVisitObject env0 32 (noWrite : Visitor Unit) 301) heapLoading () = some t ∧
      Slot.super 301 ∈ t ∧ Slot.interfaces 301 0 ∈ t ∧ Slot.interfaces 301 1 ∈ t) := by
  obtain ⟨t, hrun, hlow, _⟩ :=
    dvmVisitObject_initialization_guard env0 32 layout0 (noWrite : Visitor Unit) 300
      classHalf (chainOffsets [classSelfWalk, classA]) heapHalf () (keepsLike_noWrite _)
      (by decide) (by decide)
      (InstLayout.walk classSelfWalk [classSelfWalk, classA] (by decide) (by decide)
        (by decide) (by decide) (by decide))
      (by decide) (by decide) (by decide)
  obtain ⟨u, hrun', _, hhigh⟩ :=
    dvmVisitObject_initialization_guard env0 32 layout0 (noWrite : Visitor Unit) 301
      classLoaded (bitmapOffsets env0 classOneRef.refOffsets) heapLoading ()
      (keepsLike_noWrite _)
      (by decide) (by decide)
      (InstLayout.bitmap classOneRef (by decide) (by decide) (by decide) (by decide))
      (by decide) (by decide) (by decide)
  obtain ⟨haddr, hsame⟩ := hlow (by decide)
  obtain ⟨hsuper', hinterfaces'⟩ := hhigh (by decide)
  have hap := apart_layout0_class env0 { classHalf with status := 7 } [] (by simp)
  have hmem : ∀ s, classLvalues env0 300 classHalf [] s →
      addressOf layout0 s ≠ addressOf layout0 (Slot.super 300) ∧
        ∀ i : Nat, (i : Int) < classHalf.interfaceCount →
          addressOf layout0 s ≠ addressOf layout0 (Slot.interfaces 300 i) := by
    intro s hs
    have hlow : ¬ classHalf.status > env0.CLASS_IDX := by decide
    have hs7 : classLvalues env0 300 { classHalf with status := 7 } [] s := by
      cases s with
      | byteOffset o off => exact hs
      | elementClass o => exact hs
      | super o => exact absurd hs.2 hlow
      | classLoader o => exact hs
      | sfieldValue o i => exact hs
      | interfaces o i => exact absurd hs.2.1 hlow
      | contents o i => exact hs
    exact ⟨apart_ne hap hs7 ⟨rfl, by decide⟩ (fun e => hlow (e ▸ hs).2),
      fun i hi => apart_ne hap hs7 ⟨rfl, by decide, hi⟩ (fun e => hlow (e ▸ hs).2.1)⟩
  have hoffs : ∀ off ∈ chainOffsets [classSelfWalk, classA],
      300 + off ≠ addressOf layout0 (Slot.super 300) ∧
        ∀ i : Nat, (i : Int) < classHalf.interfaceCount →
          300 + off ≠ addressOf layout0 (Slot.interfaces 300 i) := by
    intro off hoff
    have h8 : off = 8 := by
      have hc : chainOffsets [classSelfWalk, classA] = [8] := by decide
      rw [hc] at hoff
      simpa using hoff
    subst h8
    refine ⟨by decide, fun i _ => ?_⟩
    simp only [addressOf, layout0]
    omega
  have hchain : ∀ m cs, getClass heapHalf classHalf.obj.clazz = some m →
      m.refOffsets = env0.CLASS_WALK_SUPER → IsChain heapHalf classHalf.obj.clazz cs →
      300 ∉ chainAddrs classHalf.obj.clazz cs := by
    intro m cs _ _ hch
    have hcs : cs = [classSelfWalk, classA] :=
      IsChain_unique heapHalf cs [classSelfWalk, classA] _ hch (by decide)
    subst hcs
    decide
  exact ⟨⟨t, hrun, haddr hmem hoffs,
      fun super' interfaces' interfaceCount' =>
        hsame hchain super' interfaces' interfaceCount' (keepsLike_noWrite _)⟩,
    ⟨u, hrun', hsuper', hinterfaces' 0 (by decide), hinterfaces' 1 (by decide)⟩⟩

/-! ### C8: arrays -/

/-- C8: for an array object of length `n` whose class is not the Class-of-classes singleton
and has `CLASS_ISARRAY` set, `dvmVisitObject` returns and makes exactly `n + 1` visits, the
class-pointer slot first and then the element slots `0 .. n - 1` in index order, when the
class has `CLASS_ISOBJECTARRAY` set, and exactly one visit, the class-pointer slot, when it
has not; the element values play no part. -/
theorem dvmVisitObject_array_typing {σ : Type} (env : Env) (fuel : Nat) (v : Visitor σ)
    (obj clazz : Addr) (c : ClassObject) (a : ArrayObject) (h : Heap) (x : σ)
    (hv : Preserves v)
    (hobj : clazzOf h obj = some clazz) (hne : clazz ≠ env.classJavaLangClass)
    (hcls : getClass h clazz = some c)
    (hflag : IS_CLASS_FLAG_SET c.accessFlags env.CLASS_ISARRAY = true)
    (harr : getArray h obj = some a) (hfuel : a.length < fuel) :
    ∃ t, slotsOf (dvmVisitObject env fuel v obj) h x = some t ∧
      (IS_CLASS_FLAG_SET c.accessFlags env.CLASS_ISOBJECTARRAY = true →
        t = Slot.byteOffset obj 0 :: (List.range a.length).map (Slot.contents obj) ∧
        t.length = a.length + 1) ∧
      (IS_CLASS_FLAG_SET c.accessFlags env.CLASS_ISOBJECTARRAY = false →
        t = [Slot.byteOffset obj 0] ∧ t.length = 1) := by
  refine ⟨arraySlots env obj c a, ?_, ?_, ?_⟩
  · exact slotsOf_lift _ _
      (fun st1 st2 r => dvmVisitObject_rel (hv.joint preserves_noWrite) (fun _ _ e => e)
        env fuel obj st1 st2 r) h x _
      (dvmVisitObject_array_noWrite env fuel obj clazz c a _ hobj hne hcls hflag harr hfuel)
  · intro hf
    simp [arraySlots, hf, contentSlots]
  · intro hf
    simp [arraySlots, hf]

theorem dvmVisitObject_array_typing_witness :
    (∃ t, slotsOf (dvmVisitObject env0 101 (noWrite : Visitor Unit) 500) heapArrays () = some t ∧
      t = Slot.byteOffset 500 0 :: (List.range 100).map (Slot.contents 500) ∧
      t.length = 101) ∧
    (∃ t, slotsOf (dvmVisitObject env0 101 (noWrite : Visitor Unit) 600) heapArrays () = some t ∧
      t = [Slot.byteOffset 600 0] ∧ t.length = 1) := by
  obtain ⟨t, hrun, hobjects, _⟩ :=
    dvmVisitObject_array_typing env0 101 (noWrite : Visitor Unit) 500 201 classObjArray
      (array100 201) heapArrays () preserves_noWrite (by decide) (by decide) (by decide)
      (by decide) (by decide) (by decide)
  obtain ⟨u, hrun', _, hprimitive⟩ :=
    dvmVisitObject_array_typing env0 101 (noWrite : Visitor Unit) 600 202 classIntArray
      (array100 202) heapArrays () preserves_noWrite (by decide) (by decide) (by decide)
      (by decide) (by decide) (by decide)
  exact ⟨⟨t, hrun, hobjects (by decide)⟩, ⟨u, hrun', hprimitive (by decide)⟩⟩

/-! ### C9: the referent slot -/

/-- C9: take two plain objects whose (non-null) classes are identical except for the access
flags, `CLASS_ISREFERENCE` being clear on the first and set on the second.  Then
`visitDataObject` returns on both; on the first it hands out the class-pointer slot followed
by the instance-field slots, and on the second the slots at the same offsets followed by
exactly one more, the slot at the registered referent offset. -/
theorem visitDataObject_reference_extra_slot {σ τ : Type} (env : Env) (fuel : Nat)
    (v1 : Visitor σ) (v2 : Visitor τ) (h : Heap) (x1 : σ) (x2 : τ)
    (obj1 obj2 clazz1 clazz2 : Addr) (c1 c2 : ClassObject) (offs : List Nat)
    (hv1 : Preserves v1) (hv2 : Preserves v2)
    (hobj1 : clazzOf h obj1 = some clazz1) (hcls1 : getClass h clazz1 = some c1)
    (hobj2 : clazzOf h obj2 = some clazz2) (hcls2 : getClass h clazz2 = some c2)
    (hnz1 : clazz1 ≠ 0) (hnz2 : clazz2 ≠ 0)
    (hsame : c2 = { c1 with accessFlags := c2.accessFlags })
    (hclear : IS_CLASS_FLAG_SET c1.accessFlags env.CLASS_ISREFERENCE = false)
    (hset : IS_CLASS_FLAG_SET c2.accessFlags env.CLASS_ISREFERENCE = true)
    (hl : InstLayout env fuel h clazz1 offs) :
    slotsOf (visitDataObject env fuel v1 obj1) h x1
        = some ((0 :: offs).map (Slot.byteOffset obj1)) ∧
      slotsOf (visitDataObject env fuel v2 obj2) h x2
        = some ((0 :: offs ++ [env.offJavaLangRefReference_referent]).map
            (Slot.byteOffset obj2)) := by
  have hl2 : InstLayout env fuel h clazz2 offs :=
    hl.sibling hcls1 hcls2 hnz1 hnz2 (by rw [hsame]) (by rw [hsame]) (by rw [hsame])
      (by rw [hsame])
  constructor
  · rw [visitDataObject_of_noWrite env fuel v1 hv1 obj1 clazz1 c1 offs h x1 hobj1 hcls1 hl]
    simp [dataSlots, hclear]
  · rw [visitDataObject_of_noWrite env fuel v2 hv2 obj2 clazz2 c2 offs h x2 hobj2 hcls2 hl2]
    simp [dataSlots, hset]

theorem visitDataObject_reference_extra_slot_witness :
    slotsOf (visitDataObject env0 32 (noWrite : Visitor Unit) 500) heapReference ()
        = some ((0 :: bitmapOffsets env0 classOrdinary.refOffsets).map (Slot.byteOffset 500)) ∧
      slotsOf (visitDataObject env0 32 (noWrite : Visitor Unit) 600) heapReference ()
        = some ((0 :: bitmapOffsets env0 classOrdinary.refOffsets ++
            [env0.offJavaLangRefReference_referent]).map (Slot.byteOffset 600)) :=
  visitDataObject_reference_extra_slot env0 32 noWrite noWrite heapReference () () 500 600
    201 202 classOrdinary classReference (bitmapOffsets env0 classOrdinary.refOffsets)
    preserves_noWrite preserves_noWrite (by decide) (by decide) (by decide) (by decide)
    (by decide) (by decide) (by decide) (by decide) (by decide)
    (InstLayout.bitmap classOrdinary (by decide) (by decide) (by decide) (by decide))

/-! ### C10: static fields -/

/-- C10: `visitStaticFields` returns and hands out exactly the value slots of those of the
class's own static-field descriptors whose signature begins with `[` or `L`, in declaration
order and once each, and of no descriptor with another first character; the number of
visits is the number of such descriptors, and every slot handed out is a static of this very
class (none of a superclass). -/
theorem visitStaticFields_filters_by_signature {σ : Type} (fuel : Nat) (v : Visitor σ)
    (clazz : Addr) (c : ClassObject) (h : Heap) (x : σ) (hv : Preserves v)
    (hc : getClass h clazz = some c)
    (hcount : c.sfieldCount = c.sfields.length) (hfuel : c.sfields.length < fuel) :
    ∃ t, slotsOf (visitStaticFields fuel v clazz) h x = some t ∧
      t = ((List.range c.sfields.length).filter (fun i => (c.sfields[i]?).any
          (fun sf => sf.field.signature.data.head? == some '[' ||
            sf.field.signature.data.head? == some 'L'))).map (Slot.sfieldValue clazz) ∧
      t.Nodup ∧
      (∀ s ∈ t, ∃ i, i < c.sfields.length ∧ s = Slot.sfieldValue clazz i) ∧
      (∀ i sf, c.sfields[i]? = some sf →
        (Slot.sfieldValue clazz i ∈ t ↔
          (sf.field.signature.data.head? = some '[' ∨
            sf.field.signature.data.head? = some 'L'))) ∧
      t.length = c.sfields.countP (fun sf => sf.field.signature.data.head? == some '[' ||
            sf.field.signature.data.head? == some 'L') := by
  refine ⟨_, ?_, rfl, ?_, ?_, ?_, ?_⟩
  · rw [visitStaticFields_of_noWrite fuel v hv clazz c h x hc (by omega) (by omega)]
    unfold staticSlots isRefSignature
    rw [hcount]
    rfl
  · apply List.Nodup.map
    · intro a b hab
      injection hab
    · exact (List.nodup_range _).filter _
  · intro s hs
    simp only [List.mem_map, List.mem_filter, List.mem_range] at hs
    obtain ⟨i, ⟨hi, _⟩, rfl⟩ := hs
    exact ⟨i, hi, rfl⟩
  · intro i sf hsf
    have hi : i < c.sfields.length := by
      rcases Nat.lt_or_ge i c.sfields.length with hlt | hge
      · exact hlt
      · rw [List.getElem?_eq_none hge] at hsf
        cases hsf
    simp only [List.mem_map, List.mem_filter, List.mem_range]
    constructor
    · rintro ⟨j, ⟨_, hj⟩, hji⟩
      injection hji with _ hji
      subst hji
      simpa [hsf] using hj
    · intro hsig
      exact ⟨i, ⟨hi, by simpa [hsf] using hsig⟩, rfl⟩
  · rw [List.length_map]
    exact filter_range_any_length _ c.sfields

theorem visitStaticFields_filters_by_signature_witness :
    ∃ t, slotsOf (visitStaticFields 3 (noWrite : Visitor Unit) 202) heapStatics () = some t ∧
      t = ((List.range classStatics.sfields.length).filter (fun i =>
          (classStatics.sfields[i]?).any
          (fun sf => sf.field.signature.data.head? == some '[' ||
            sf.field.signature.data.head? == some 'L'))).map (Slot.sfieldValue 202) ∧
      t.Nodup ∧
      (∀ s ∈ t, ∃ i, i < classStatics.sfields.length ∧ s = Slot.sfieldValue 202 i) ∧
      (∀ i sf, classStatics.sfields[i]? = some sf →
        (Slot.sfieldValue 202 i ∈ t ↔
          (sf.field.signature.data.head? = some '[' ∨
            sf.field.signature.data.head? = some 'L'))) ∧
      t.length = classStatics.sfields.countP (fun sf =>
          sf.field.signature.data.head? == some '[' ||
            sf.field.signature.data.head? == some 'L') :=
  visitStaticFields_filters_by_signature 3 noWrite 202 classStatics heapStatics ()
    preserves_noWrite (by decide) (by decide) (by decide)

/-! ### C11: the class-object visitor -/

/-- C11: on a Class object, if `visitInstanceFields` on it hands out `tI` and
`visitStaticFields` on it hands out `tS`, then `visitClassObject` returns and hands out, in
this order: the object's own class-pointer slot; the element-class slot if and only if
`CLASS_ISARRAY` is set on it; the superclass slot if and only if its status is above
`CLASS_IDX`; the class-loader slot; `tI`; `tS`; and the `interfaceCount` interface entries
in index order if and only if the status is above `CLASS_IDX`.  The class-pointer slot and
the class-loader slot are handed out in every case, whatever the loader field holds. -/
theorem visitClassObject_composition {σ : Type} (env : Env) (fuel : Nat) (v : Visitor σ)
    (obj : Addr) (k : ClassObject) (tI tS : List Slot) (h : Heap) (x : σ)
    (hv : Preserves v)
    (hk : getClass h obj = some k)
    (hI : slotsOf (visitInstanceFields env fuel v obj) h x = some tI)
    (hS : slotsOf (visitStaticFields fuel v obj) h x = some tS)
    (hif : k.status > env.CLASS_IDX → k.interfaceCount.toNat < fuel) :
    ∃ t, slotsOf (visitClassObject env fuel v obj) h x = some t ∧
      t = [Slot.byteOffset obj 0] ++
        (if IS_CLASS_FLAG_SET k.accessFlags env.CLASS_ISARRAY then [Slot.elementClass obj]
          else []) ++
        (if k.status > env.CLASS_IDX then [Slot.super obj] else []) ++
        [Slot.classLoader obj] ++ tI ++ tS ++
        (if k.status > env.CLASS_IDX then
          (List.range k.interfaceCount.toNat).map (Slot.interfaces obj) else []) ∧
      Slot.byteOffset obj 0 ∈ t ∧ Slot.classLoader obj ∈ t ∧
      (Slot.elementClass obj ∈ t ↔ IS_CLASS_FLAG_SET k.accessFlags env.CLASS_ISARRAY = true) ∧
      (Slot.super obj ∈ t ↔ k.status > env.CLASS_IDX) ∧
      (∀ i : Nat, Slot.interfaces obj i ∈ t ↔
        (k.status > env.CLASS_IDX ∧ (i : Int) < k.interfaceCount)) := by
  have hnw : Preserves (noWrite : Visitor σ) := preserves_noWrite
  -- the two constituent runs, taken with a visitor that writes nothing
  have hI' : slotsOf (visitInstanceFields env fuel noWrite obj) h x = some tI := by
    rw [← hI]
    exact (slotsOf_congr_rel _ _ (fun st1 st2 r => visitInstanceFields_rel (hv.joint hnw)
      (fun _ _ e => e.instEq) env fuel obj st1 st2 r) h x).symm
  have hS' : slotsOf (visitStaticFields fuel noWrite obj) h x = some tS := by
    rw [← hS]
    exact (slotsOf_congr_rel _ _ (fun st1 st2 r => sfieldLoop_rel (hv.joint hnw)
      (fun _ _ e => e) obj fuel 0 st1 st2 r) h x).symm
  obtain ⟨stI, hrunI, htI⟩ := Option.map_eq_some'.1 hI'
  obtain ⟨lI, hlI⟩ := visitInstanceFields_noWrite_inv env fuel obj _ stI hrunI
  have htI' : tI = lI.map (Slot.byteOffset obj) := by rw [← htI, hlI]; rfl
  obtain ⟨stS, hrunS, htS⟩ := Option.map_eq_some'.1 hS'
  obtain ⟨lS, hlS, _, _⟩ := sfieldLoop_noWrite_inv obj fuel 0 _ stS hrunS
  have htS' : tS = lS.map (Slot.sfieldValue obj) := by rw [← htS, hlS]; rfl
  have hrun := visitClassObject_noWrite_compose env fuel obj k tI tS
    ({ heap := h, vst := x, trace := [] } : St σ) rfl hk
    (by rw [hrunI, hlI, htI']) (by rw [hrunS, hlS, htS']) hif
  refine ⟨_, slotsOf_lift _ _ (fun st1 st2 r => visitClassObject_rel (hv.joint hnw)
    (fun _ _ e => e) env fuel obj st1 st2 r) h x _ hrun, rfl, ?_, ?_, ?_, ?_, ?_⟩
  · simp
  · simp
  · simp [htI', htS', interfaceSlots]
  · simp [htI', htS', interfaceSlots]
  · intro i
    simp [htI', htS', interfaceSlots]

theorem visitClassObject_composition_witness :
    ∃ t, slotsOf (visitClassObject env0 32 (noWrite : Visitor Unit) 300) heapComposite ()
        = some t ∧
      t = [Slot.byteOffset 300 0] ++
        (if IS_CLASS_FLAG_SET classComposite.accessFlags env0.CLASS_ISARRAY then
          [Slot.elementClass 300] else []) ++
        (if classComposite.status > env0.CLASS_IDX then [Slot.super 300] else []) ++
        [Slot.classLoader 300] ++ [Slot.byteOffset 300 8] ++ [Slot.sfieldValue 300 1] ++
        (if classComposite.status > env0.CLASS_IDX then
          (List.range classComposite.interfaceCount.toNat).map (Slot.interfaces 300) else []) ∧
      Slot.byteOffset 300 0 ∈ t ∧ Slot.classLoader 300 ∈ t ∧
      (Slot.elementClass 300 ∈ t ↔
        IS_CLASS_FLAG_SET classComposite.accessFlags env0.CLASS_ISARRAY = true) ∧
      (Slot.super 300 ∈ t ↔ classComposite.status > env0.CLASS_IDX) ∧
      (∀ i : Nat, Slot.interfaces 300 i ∈ t ↔
        (classComposite.status > env0.CLASS_IDX ∧ (i : Int) < classComposite.interfaceCount)) :=
  visitClassObject_composition env0 32 noWrite 300 classComposite [Slot.byteOffset 300 8]
    [Slot.sfieldValue 300 1] heapComposite () preserves_noWrite (by decide) (by decide)
    (by decide) (by decide)

/-! ### C12: the dispatcher -/

/-- C12: for a heap object whose class pointer points at a class, `dvmVisitObject` is
`visitClassObject` if the class is identically the Class-of-classes singleton (whatever the
flags of that class, the array flag included), otherwise `visitArrayObject` if the class has
`CLASS_ISARRAY` set, otherwise `visitDataObject`, on every state and for every visitor; and
exactly one of the three cases applies. -/
theorem dvmVisitObject_dispatch {σ : Type} (env : Env) (fuel : Nat) (v : Visitor σ)
    (obj clazz : Addr) (c : ClassObject) (st : St σ)
    (hobj : clazzOf st.heap obj = some clazz) (hcls : getClass st.heap clazz = some c) :
    (clazz = env.classJavaLangClass →
        dvmVisitObject env fuel v obj st = visitClassObject env fuel v obj st) ∧
      (clazz ≠ env.classJavaLangClass →
        IS_CLASS_FLAG_SET c.accessFlags env.CLASS_ISARRAY = true →
        dvmVisitObject env fuel v obj st = visitArrayObject env fuel v obj st) ∧
      (clazz ≠ env.classJavaLangClass →
        IS_CLASS_FLAG_SET c.accessFlags env.CLASS_ISARRAY = false →
        dvmVisitObject env fuel v obj st = visitDataObject env fuel v obj st) ∧
      ((clazz = env.classJavaLangClass ∧
          ¬ (clazz ≠ env.classJavaLangClass ∧
            IS_CLASS_FLAG_SET c.accessFlags env.CLASS_ISARRAY = true) ∧
          ¬ (clazz ≠ env.classJavaLangClass ∧
            IS_CLASS_FLAG_SET c.accessFlags env.CLASS_ISARRAY = false)) ∨
        (clazz ≠ env.classJavaLangClass ∧
          IS_CLASS_FLAG_SET c.accessFlags env.CLASS_ISARRAY = true ∧
          ¬ IS_CLASS_FLAG_SET c.accessFlags env.CLASS_ISARRAY = false) ∨
        (clazz ≠ env.classJavaLangClass ∧
          IS_CLASS_FLAG_SET c.accessFlags env.CLASS_ISARRAY = false ∧
          ¬ IS_CLASS_FLAG_SET c.accessFlags env.CLASS_ISARRAY = true)) := by
  refine ⟨?_, ?_, ?_, ?_⟩
  · intro hJ
    simp [dvmVisitObject, hobj, hJ]
  · intro hJ hA
    simp [dvmVisitObject, hobj, hJ, hcls, hA]
  · intro hJ hA
    simp [dvmVisitObject, hobj, hJ, hcls, hA]
  · by_cases hJ : clazz = env.classJavaLangClass
    · exact Or.inl ⟨hJ, fun h => h.1 hJ, fun h => h.1 hJ⟩
    · cases hA : IS_CLASS_FLAG_SET c.accessFlags env.CLASS_ISARRAY with
      | true => exact Or.inr (Or.inl ⟨hJ, rfl, by simp⟩)
      | false => exact Or.inr (Or.inr ⟨hJ, rfl, by simp⟩)

theorem dvmVisitObject_dispatch_witness :
    dvmVisitObject env0 101 (noWrite : Visitor Unit) 100
        { heap := heapKinds, vst := (), trace := [] }
      = visitClassObject env0 101 noWrite 100 { heap := heapKinds, vst := (), trace := [] } ∧
    dvmVisitObject env0 101 (noWrite : Visitor Unit) 500
        { heap := heapKinds, vst := (), trace := [] }
      = visitArrayObject env0 101 noWrite 500 { heap := heapKinds, vst := (), trace := [] } ∧
    dvmVisitObject env0 101 (noWrite : Visitor Unit) 600
        { heap := heapKinds, vst := (), trace := [] }
      = visitDataObject env0 101 noWrite 600 { heap := heapKinds, vst := (), trace := [] } :=
  ⟨(dvmVisitObject_dispatch env0 101 noWrite 100 100 { classOneRef with accessFlags := 2 ^ 30 }
      { heap := heapKinds, vst := (), trace := [] } (by decide) (by decide)).1 (by decide),
   (dvmVisitObject_dispatch env0 101 noWrite 500 201 classObjArray
      { heap := heapKinds, vst := (), trace := [] } (by decide) (by decide)).2.1
      (by decide) (by decide),
   (dvmVisitObject_dispatch env0 101 noWrite 600 202 classOrdinary
      { heap := heapKinds, vst := (), trace := [] } (by decide) (by decide)).2.2.1
      (by decide) (by decide)⟩

/-! ### C13: objects without reference fields -/

/-- C13: when the class of an object has the empty bitmap (zero, and zero is not the
sentinel), or has the sentinel `CLASS_WALK_SUPER` while every class of its superclass chain
has `ifieldRefCount = 0`, `visitInstanceFields` returns the state it was given: no slot is
handed out and the visitor is never called, whatever the visitor. Consequently, for a visitor
that leaves the layout alone, `dvmVisitObject` on such an object whose class is neither the
Class-of-classes singleton nor an array class and has no `CLASS_ISREFERENCE` hands out exactly
one slot, the class pointer. -/
theorem visitInstanceFields_zero_reference_fields {σ : Type} (env : Env) (fuel : Nat)
    (v : Visitor σ) (obj clazz : Addr) (c : ClassObject) (h : Heap) (x : σ)
    (hobj : clazzOf h obj = some clazz) (hcls : getClass h clazz = some c)
    (hzero : (c.refOffsets ≠ env.CLASS_WALK_SUPER ∧ c.refOffsets = 0) ∨
      (c.refOffsets = env.CLASS_WALK_SUPER ∧ ∃ cs, IsChain h clazz cs ∧
        (∀ d ∈ cs, d.ifieldRefCount = 0) ∧ cs.length < fuel)) :
    (∀ tr : List Slot, visitInstanceFields env fuel v obj { heap := h, vst := x, trace := tr }
        = some { heap := h, vst := x, trace := tr }) ∧
      slotsOf (visitInstanceFields env fuel v obj) h x = some [] ∧
      (Preserves v → clazz ≠ env.classJavaLangClass →
        IS_CLASS_FLAG_SET c.accessFlags env.CLASS_ISARRAY = false →
        IS_CLASS_FLAG_SET c.accessFlags env.CLASS_ISREFERENCE = false →
        slotsOf (dvmVisitObject env fuel v obj) h x = some [Slot.byteOffset obj 0]) := by
  have key : ∀ (τ : Type) (w : Visitor τ) (st : St τ), st.heap = h →
      visitInstanceFields env fuel w obj st = some st := by
    intro τ w st hst
    subst hst
    exact visitInstanceFields_zero env fuel w obj clazz c st hobj hcls hzero
  refine ⟨fun tr => key σ v _ rfl, ?_, ?_⟩
  · rw [slotsOf, key σ v { heap := h, vst := x, trace := [] } rfl]
    rfl
  · intro hv hJ hA hR
    apply slotsOf_lift _ _
      (fun st1 st2 r => dvmVisitObject_rel (hv.joint preserves_noWrite) (fun _ _ e => e)
        env fuel obj st1 st2 r) h x
    simp only [dvmVisitObject, hobj, Option.bind_eq_bind, Option.some_bind, hcls, hA,
      beq_iff_eq, hJ, if_false, Bool.false_eq_true, visitDataObject, visit_noWrite]
    rw [key σ noWrite (emit [Slot.byteOffset obj 0] _) (by rw [emit_heap])]
    simp [emit_heap, hobj, hcls, hR]

theorem visitInstanceFields_zero_reference_fields_witness :
    (slotsOf (visitInstanceFields env0 8 scribble 600) heapNoRefs () = some [] ∧
      slotsOf (dvmVisitObject env0 8 scribble 600) heapNoRefs () = some [Slot.byteOffset 600 0]) ∧
    (slotsOf (visitInstanceFields env0 8 scribble 500) heapNoRefs () = some [] ∧
      slotsOf (dvmVisitObject env0 8 scribble 500) heapNoRefs ()
        = some [Slot.byteOffset 500 0]) :=
  have hs : Preserves scribble := preserves_overwrite _ (fun _ => rfl) (fun _ => rfl)
  have h600 := visitInstanceFields_zero_reference_fields env0 8 scribble 600 203 plainClass
    heapNoRefs () (by decide) (by decide) (Or.inl ⟨by decide, by decide⟩)
  have h500 := visitInstanceFields_zero_reference_fields env0 8 scribble 500 202 classNoRefs
    heapNoRefs () (by decide) (by decide)
    (Or.inr ⟨by decide, [classNoRefs, { plainClass with refOffsets := 3 }], by decide,
      by decide, by decide⟩)
  ⟨⟨h600.2.1, h600.2.2 hs (by decide) (by decide) (by decide)⟩,
   ⟨h500.2.1, h500.2.2 hs (by decide) (by decide) (by decide)⟩⟩

/-! ### C14: termination of the bitmap loop -/

/-- C14: for a 32-bit word `x`: a round of the bitmap loop on `x ≠ 0` continues with
`bitmapStep x`, which differs from `x` in exactly one bit, the most significant set bit of
`x`, which it clears, and is strictly smaller than `x`; the loop condition `refOffsets != 0`
fails for the first time after exactly `popCount32 x` rounds, which is at most 32; and the
loop of the model returns exactly when the fuel is at least `popCount32 x`, having handed out
`popCount32 x` slots, one per round. -/
theorem bitmapLoop_terminates {σ : Type} (env : Env) (v : Visitor σ) (obj : Addr) (x : Nat)
    (hx : x < 2 ^ 32) :
    (x ≠ 0 →
      (∀ (fuel : Nat) (st : St σ), bitmapLoop env v obj (fuel + 1) x st =
        bitmapLoop env v obj fuel (bitmapStep x)
          (visit v (Slot.byteOffset obj (CLASS_OFFSET_FROM_CLZ env (CLZ x))) st)) ∧
      (∃ n, n < 32 ∧ x.testBit n = true ∧ (∀ b, n < b → x.testBit b = false) ∧
        ∀ b, (bitmapStep x).testBit b = (x.testBit b && !decide (b = n))) ∧
      bitmapStep x < x) ∧
    (bitmapStep^[popCount32 x] x = 0 ∧ ∀ k, k < popCount32 x → bitmapStep^[k] x ≠ 0) ∧
    popCount32 x ≤ 32 ∧
    (∀ (fuel : Nat) (st : St σ),
      (fuel < popCount32 x → bitmapLoop env v obj fuel x st = none) ∧
      (popCount32 x ≤ fuel → ∃ st', bitmapLoop env v obj fuel x st = some st' ∧
        st'.trace.length = st.trace.length + popCount32 x)) := by
  refine ⟨fun h0 => ⟨fun fuel st => bitmapLoop_succ env v obj fuel x st h0, ?_,
    bitmapStep_lt x hx h0⟩, iterate_bitmapStep _ x hx rfl, ?_, ?_⟩
  · obtain ⟨n, hn, hb, hlt⟩ := exists_msb 32 x hx h0
    refine ⟨n, hn, hb, fun b hnb => testBit_false_of_lt hlt (by omega), ?_⟩
    intro b
    rw [bitmapStep_eq x n hn hlt hb, testBit_clear x n b hn]
    by_cases hb32 : b < 32
    · simp [hb32]
    · simp [hb32, testBit_false_of_lt hx (by omega : 32 ≤ b)]
  · rw [← bitsBelow_length]
    exact bitsBelow_length_le 32 x
  · intro fuel st
    rw [bitmapLoop_eq env v obj 32 (le_refl _) fuel x st hx, bitsBelow_length]
    refine ⟨fun hf => by rw [if_neg (by omega)], fun hf => ?_⟩
    rw [if_pos hf]
    refine ⟨_, rfl, ?_⟩
    rw [visitAll_trace, List.length_append, List.length_map, bitsBelow_length]

theorem bitmapLoop_terminates_witness :
    (bitmapStep^[3] (2 ^ 31 + 2 ^ 30 + 2 ^ 29) = 0 ∧
      ∀ k, k < 3 → bitmapStep^[k] (2 ^ 31 + 2 ^ 30 + 2 ^ 29) ≠ 0) ∧
    bitmapLoop env0 (noWrite : Visitor Unit) 500 2 (2 ^ 31 + 2 ^ 30 + 2 ^ 29)
      { heap := heapABCfast, vst := (), trace := [] } = none :=
  have h := bitmapLoop_terminates env0 (noWrite : Visitor Unit) 500 (2 ^ 31 + 2 ^ 30 + 2 ^ 29)
    (by decide)
  have hp : popCount32 (2 ^ 31 + 2 ^ 30 + 2 ^ 29) = 3 := by decide
  ⟨hp ▸ h.2.1, (h.2.2.2 2 { heap := heapABCfast, vst := (), trace := [] }).1 (by rw [hp]; decide)⟩

/-! ### C15: the fast path stays inside the field area -/

/-- C15: in bitmap mode, for every visitor, every slot `visitInstanceFields` hands out is a
byte offset into the object that is at least `CLASS_SMALLEST_OFFSET`, exceeds it by a
multiple of 4 and is at most `CLASS_SMALLEST_OFFSET + 4 * 31`. Hence, the object header
having a positive size, the class-pointer slot at offset 0 is not among them, and for a
visitor that leaves the layout alone `visitDataObject` on an object whose class has no
`CLASS_ISREFERENCE` hands out the class-pointer slot exactly once. -/
theorem visitInstanceFields_fast_path_offsets {σ : Type} (env : Env) (fuel : Nat)
    (v : Visitor σ) (obj clazz : Addr) (c : ClassObject) (h : Heap) (x : σ)
    (hobj : clazzOf h obj = some clazz) (hcls : getClass h clazz = some c)
    (hne : c.refOffsets ≠ env.CLASS_WALK_SUPER) (h32 : c.refOffsets < 2 ^ 32)
    (hfuel : 32 ≤ fuel) :
    ∃ t, slotsOf (visitInstanceFields env fuel v obj) h x = some t ∧
      (∀ s ∈ t, ∃ off, s = Slot.byteOffset obj off ∧ env.CLASS_SMALLEST_OFFSET ≤ off ∧
        (off - env.CLASS_SMALLEST_OFFSET) % 4 = 0 ∧ off ≤ env.CLASS_SMALLEST_OFFSET + 4 * 31) ∧
      (0 < env.CLASS_SMALLEST_OFFSET →
        Slot.byteOffset obj 0 ∉ t ∧
        (Preserves v → IS_CLASS_FLAG_SET c.accessFlags env.CLASS_ISREFERENCE = false →
          ∃ t', slotsOf (visitDataObject env fuel v obj) h x = some t' ∧
            t'.count (Slot.byteOffset obj 0) = 1)) := by
  have hrun := visitInstanceFields_bitmap env fuel v obj clazz c
    { heap := h, vst := x, trace := [] } hobj hcls hne h32 hfuel
  have hnot : 0 < env.CLASS_SMALLEST_OFFSET →
      Slot.byteOffset obj 0 ∉ (bitmapOffsets env c.refOffsets).map (Slot.byteOffset obj) := by
    intro hpos hmem
    obtain ⟨off, hoff, e⟩ := List.mem_map.1 hmem
    injection e with _ e0
    have := (bitmapOffsets_bounds env _ off hoff).1
    omega
  refine ⟨(bitmapOffsets env c.refOffsets).map (Slot.byteOffset obj), ?_, ?_, ?_⟩
  · rw [slotsOf_eq hrun, visitAll_trace]
    rfl
  · intro s hs
    obtain ⟨off, hoff, rfl⟩ := List.mem_map.1 hs
    exact ⟨off, rfl, bitmapOffsets_bounds env _ off hoff⟩
  · intro hpos
    refine ⟨hnot hpos, fun hv hR => ⟨_, visitDataObject_of_noWrite env fuel v hv obj clazz c _ h x
      hobj hcls (InstLayout.bitmap c hcls hne h32 hfuel), ?_⟩⟩
    simp only [dataSlots, hR, Bool.false_eq_true, if_false, List.append_nil, List.count_append,
      List.count_cons_self, List.count_nil, List.count_eq_zero_of_not_mem (hnot hpos)]

theorem visitInstanceFields_fast_path_offsets_witness :
    ∃ t, slotsOf (visitInstanceFields env0 32 scribble 500) heapReference () = some t ∧
      (∀ s ∈ t, ∃ off, s = Slot.byteOffset 500 off ∧ 8 ≤ off ∧ (off - 8) % 4 = 0 ∧
        off ≤ 8 + 4 * 31) ∧
      Slot.byteOffset 500 0 ∉ t ∧
      ∃ t', slotsOf (visitDataObject env0 32 scribble 500) heapReference () = some t' ∧
        t'.count (Slot.byteOffset 500 0) = 1 :=
  have ⟨t, h1, h2, h3⟩ := visitInstanceFields_fast_path_offsets env0 32 scribble 500 201
    classOrdinary heapReference () (by decide) (by decide) (by decide) (by decide) (by decide)
  ⟨t, h1, h2, (h3 (by decide)).1,
    (h3 (by decide)).2 (preserves_overwrite _ (fun _ => rfl) (fun _ => rfl)) (by decide)⟩

/-! ### C16: the instance fields of a class object -/

/-- C16, as stated, fails: the walk of the fallback mode runs over the superclass chain of
the Class-of-classes singleton, and the classes on that chain are themselves Class objects.
Here the singleton (at 100, fallback mode) extends the class at 201; the Class object at 201
is not the singleton, yet the instance-field slots visited on it are read from its own
`ifields` and `ifieldRefCount`: one slot as it stands, none once its own `ifieldRefCount`
is 0. -/
theorem visitClassObject_own_fields_counterexample :
    getClass heapLoadingWalk 201 = some classA ∧
      classA.obj.clazz = env0.classJavaLangClass ∧ (201 : Addr) ≠ env0.classJavaLangClass ∧
      slotsOf (visitInstanceFields env0 8 (noWrite : Visitor Unit) 201) heapLoadingWalk ()
        = some [Slot.byteOffset 201 8] ∧
      slotsOf (visitInstanceFields env0 8 (noWrite : Visitor Unit) 201)
          (setObject heapLoadingWalk 201 (.classObject { classA with ifieldRefCount := 0 })) ()
        = some [] ∧
      slotsOf (visitClassObject env0 8 (noWrite : Visitor Unit) 201) heapLoadingWalk ()
        = some [Slot.byteOffset 201 0, Slot.super 201, Slot.classLoader 201,
            Slot.byteOffset 201 8] ∧
      slotsOf (visitClassObject env0 8 (noWrite : Visitor Unit) 201)
          (setObject heapLoadingWalk 201 (.classObject { classA with ifieldRefCount := 0 })) ()
        = some [Slot.byteOffset 201 0, Slot.super 201, Slot.classLoader 201] := by
  decide

/-- C16, amended: let `obj` be a Class object other than the Class-of-classes singleton, whose
class is the singleton, and let the instance-field enumeration of the singleton yield the
offsets `offs`. For a visitor that leaves the layout alone, the instance-field slots visited
on any Class object `obj2` of the same class are the byte offsets `offs` into `obj2`, so
they are the same offsets for any two Class objects. If moreover `obj` is not one of the
classes on the superclass chain that the fallback walk of the singleton traverses, the slots
of `visitInstanceFields` and of `visitClassObject` on `obj` stay the same whatever its own
`refOffsets`, `ifields`, `ifieldRefCount` and `super` fields hold. -/
theorem visitClassObject_instance_fields_from_metaclass {σ : Type} (env : Env) (fuel : Nat)
    (v : Visitor σ) (obj : Addr) (k : ClassObject) (offs : List Nat) (h : Heap) (x : σ)
    (hv : Preserves v) (hk : getClass h obj = some k)
    (hJ : k.obj.clazz = env.classJavaLangClass) (hne : obj ≠ env.classJavaLangClass)
    (hl : InstLayout env fuel h k.obj.clazz offs)
    (hlen : k.sfieldCount ≤ k.sfields.length) (hsf : k.sfieldCount.toNat < fuel)
    (hif : k.status > env.CLASS_IDX → k.interfaceCount.toNat < fuel) :
    slotsOf (visitClassObject env fuel v obj) h x = some (classSlots env obj k offs) ∧
      (∀ (obj2 : Addr) (k2 : ClassObject), getClass h obj2 = some k2 →
        k2.obj.clazz = env.classJavaLangClass →
        slotsOf (visitInstanceFields env fuel v obj2) h x
          = some (offs.map (Slot.byteOffset obj2))) ∧
      ((∀ m cs, getClass h k.obj.clazz = some m → m.refOffsets = env.CLASS_WALK_SUPER →
          IsChain h k.obj.clazz cs → obj ∉ chainAddrs k.obj.clazz cs) →
        ∀ (ro : Nat) (fs : List InstField) (rc : Int) (su : Addr),
          slotsOf (visitInstanceFields env fuel v obj)
              (setObject h obj (.classObject
                { k with refOffsets := ro, ifields := fs, ifieldRefCount := rc, super := su })) x
            = some (offs.map (Slot.byteOffset obj)) ∧
          slotsOf (visitClassObject env fuel v obj)
              (setObject h obj (.classObject
                { k with refOffsets := ro, ifields := fs, ifieldRefCount := rc, super := su })) x
            = some (classSlots env obj k offs)) := by
  refine ⟨visitClassObject_of_layout env fuel v hv obj k offs h x hk hl hlen hsf hif, ?_, ?_⟩
  · intro obj2 k2 hk2 hJ2
    exact visitInstanceFields_of_layout env fuel v hv obj2 k.obj.clazz offs h x
      (by rw [clazzOf_of_getClass hk2, hJ2, hJ]) hl
  · intro hoff ro fs rc su
    have hl' := InstLayout_setObject_ne (.classObject
      { k with refOffsets := ro, ifields := fs, ifieldRefCount := rc, super := su }) hl
      (by rw [hJ]; exact fun e => hne e.symm) hoff
    have hk' := getClass_setObject_self h obj
      { k with refOffsets := ro, ifields := fs, ifieldRefCount := rc, super := su }
    have hobj' := clazzOf_of_getClass hk'
    refine ⟨visitInstanceFields_of_layout env fuel v hv obj k.obj.clazz offs _ x hobj' hl', ?_⟩
    rw [visitClassObject_of_layout env fuel v hv obj _ offs _ x hk' hl' hlen hsf hif]
    rfl

theorem visitClassObject_instance_fields_from_metaclass_witness :
    slotsOf (visitClassObject env0 32 scribble 300) heapLoadingWalk ()
        = some [Slot.byteOffset 300 0, Slot.elementClass 300, Slot.classLoader 300,
            Slot.byteOffset 300 8, Slot.sfieldValue 300 1] ∧
      slotsOf (visitInstanceFields env0 32 scribble 201) heapLoadingWalk ()
        = some [Slot.byteOffset 201 8] ∧
      ∀ (ro : Nat) (fs : List InstField) (rc : Int) (su : Addr),
        slotsOf (visitInstanceFields env0 32 scribble 300)
            (setObject heapLoadingWalk 300 (.classObject
              { classLoading with refOffsets := ro, ifields := fs, ifieldRefCount := rc,
                                  super := su })) ()
          = some [Slot.byteOffset 300 8] := by
  obtain ⟨h1, h2, h3⟩ :=
    visitClassObject_instance_fields_from_metaclass env0 32 scribble 300 classLoading
      (chainOffsets [classSelfWalk, classA]) heapLoadingWalk ()
      (preserves_overwrite _ (fun _ => rfl) (fun _ => rfl)) (by decide) (by decide) (by decide)
      (InstLayout.walk classSelfWalk [classSelfWalk, classA] (by decide) (by decide)
        (by decide) (by decide) (by decide))
      (by decide) (by decide) (by decide)
  have hoff : ∀ m cs, getClass heapLoadingWalk classLoading.obj.clazz = some m →
      m.refOffsets = env0.CLASS_WALK_SUPER → IsChain heapLoadingWalk classLoading.obj.clazz cs →
      300 ∉ chainAddrs classLoading.obj.clazz cs := by
    intro m cs _ _ hch
    have hcs : cs = [classSelfWalk, classA] :=
      IsChain_unique heapLoadingWalk cs [classSelfWalk, classA] _ hch (by decide)
    subst hcs
    decide
  exact ⟨h1, h2 201 classA (by decide) (by decide), fun r i c s => (h3 hoff r i c s).1⟩

end Dalvik
